import Mathlib

/-!
# RATTLE rigid-bond corrector (`rattle.c`)

A shallow embedding of the position and velocity correctors of `rattle.c`.

* Doubles are modelled by exact rationals.  A division by zero (a non-finite
  double in C) and an out-of-bounds array read leave the model: the run ends
  in a `Fault`.
* A `Particle*` is a `Ref` (cell set, cell index, index in the cell).
* The error sink fed by `runtime_error` is the field `errors` of the state.
* Everything declared outside `rattle.c` (registry, id map, geometry, halo
  exchange, reduction) is a field of `Env`.
-/

set_option autoImplicit false

namespace Rattle

/-! ## Data model -/

/-- A `double[3]`. -/
structure Vec3 where
  x : ℚ
  y : ℚ
  z : ℚ
deriving DecidableEq, Repr

namespace Vec3

/-- The zero vector, written componentwise by `= 0.0` loops. -/
def zero : Vec3 := ⟨0, 0, 0⟩

/-- Componentwise `a[j] + b[j]`. -/
def add (a b : Vec3) : Vec3 := ⟨a.x + b.x, a.y + b.y, a.z + b.z⟩

/-- Componentwise `a[j] - b[j]`. -/
def sub (a b : Vec3) : Vec3 := ⟨a.x - b.x, a.y - b.y, a.z - b.z⟩

/-- Componentwise `c * a[j]`. -/
def smul (c : ℚ) (a : Vec3) : Vec3 := ⟨c * a.x, c * a.y, c * a.z⟩

/-- Componentwise `a[j] * c`. -/
def mulr (a : Vec3) (c : ℚ) : Vec3 := ⟨a.x * c, a.y * c, a.z * c⟩

end Vec3

/-- Modelled from the spec: `scalar(a,b)` of utils.h, the dot product. -/
def scalar (a b : Vec3) : ℚ := a.x * b.x + a.y * b.y + a.z * b.z

/-- Modelled from the spec: `sqrlen(a)` of utils.h, the squared length. -/
def sqrlen (a : Vec3) : ℚ := a.x * a.x + a.y * a.y + a.z * a.z

/-- Modelled from the spec: `vector_subt(res,a,b)` of utils.h, `res = a - b`. -/
def vector_subt (a b : Vec3) : Vec3 := Vec3.sub a b

/-- Modelled from the spec: `distance2(a,b)` of utils.h, `|a - b|²`. -/
def distance2 (a b : Vec3) : ℚ := sqrlen (Vec3.sub a b)

/-- Modelled from the spec: the macro `SQR(x)`. -/
def SQR (x : ℚ) : ℚ := x * x

/-- The slots of `Particle` that `rattle.c` touches. -/
structure Particle where
  /-- Field `r.p`. -/
  p : Vec3
  /-- Field `r.p_old`. -/
  p_old : Vec3
  /-- Field `m.v`. -/
  v : Vec3
  /-- Field `f.f`. -/
  f : Vec3
  /-- Field `l.p_old`. -/
  l_p_old : Vec3
  /-- Field `p.identity`. -/
  identity : Int
  /-- Field `p.mass`, read through `PMASS` when `MASS` is defined. -/
  mass : ℚ
  /-- Field `bl`: the array `bl.e`, with `bl.n` its length. -/
  bl : List Int
deriving DecidableEq, Repr

/-- A `Cell`: the array `part` with `n` its length. -/
abbrev Cell := List Particle

/-- One entry of `bonded_ia_params`. -/
structure Bonded_ia_parameters where
  /-- Field `type`. -/
  type : Int
  /-- Field `num`: how many partner ids follow the interaction id in `bl`. -/
  num : Nat
  /-- Field `p.rigid_bond.d2`. -/
  d2 : ℚ
  /-- Field `p.rigid_bond.p_tol`. -/
  p_tol : ℚ
  /-- Field `p.rigid_bond.v_tol`. -/
  v_tol : ℚ
deriving DecidableEq, Repr

/-- A `Particle*` into `local_cells` or `ghost_cells`. -/
structure Ref where
  ghost : Bool
  c : Nat
  i : Nat
deriving DecidableEq, Repr

/-- A message handed to `runtime_error`. -/
inductive RuntimeError where
  /-- The text "rigid bond broken between particles %d and %d". -/
  | rigid_bond_broken (identity partner : Int)
  /-- The text "RATTLE failed to converge after %d iterations". -/
  | rattle_failed (cnt : Nat)
deriving DecidableEq, Repr

/-- Where a run leaves the model. -/
inductive Fault where
  /-- A double division by zero. -/
  | div_by_zero
  /-- A read of `bl.e` at an index `≥ bl.n`. -/
  | bl_out_of_bounds
  /-- A read of `bonded_ia_params` outside the table. -/
  | ia_out_of_bounds
  /-- A particle pointer into no cell. -/
  | dangling
  /-- A loop that has not ended within the steps granted to it. -/
  | out_of_fuel
deriving DecidableEq, Repr

/-- The mutable globals `rattle.c` works on. -/
structure State where
  local_cells : List Cell
  ghost_cells : List Cell
  rebuild_verletlist : Int
  /-- The error sink of `runtime_error`. -/
  errors : List RuntimeError
deriving DecidableEq, Repr

/-- What `rattle.c` takes from its collaborators. -/
structure Env where
  /-- The table `bonded_ia_params`. -/
  bonded_ia_params : List Bonded_ia_parameters
  /-- The tag `BONDED_IA_RIGID_BOND`. -/
  BONDED_IA_RIGID_BOND : Int
  /-- The map `local_particles[id]`; `none` is the null pointer. -/
  local_particles : Int → Option Ref
  /-- The function `get_mi_vector(res, a, b)`. -/
  get_mi_vector : Vec3 → Vec3 → Vec3
  /-- Whether `MASS` is defined. -/
  MASS : Bool
  /-- The constant `SHAKE_MAX_ITERATIONS`. -/
  SHAKE_MAX_ITERATIONS : Nat
  /-- The global `skin`. -/
  skin : ℚ
  /-- The call `ghost_communicator(&cell_structure.collect_ghost_force_comm)`,
  acting on `(local_cells, ghost_cells)`. -/
  collect_ghost_force : List Cell × List Cell → List Cell × List Cell
  /-- The call `ghost_communicator(&cell_structure.update_ghost_pos_comm)`. -/
  update_ghost_pos : List Cell × List Cell → List Cell × List Cell
  /-- The OR of the other nodes' `repeat_` in iteration `cnt`, as delivered by
  `MPI_Reduce` with `MPI_LOR` and `MPI_Bcast`. -/
  MPI_LOR_others : Nat → Bool
  /-- The call `announce_rebuild_vlist()`, acting on `rebuild_verletlist`. -/
  announce_rebuild_vlist : Int → Int

/-- Modelled from the spec: the macro `PMASS(pt)`, the particle's mass when
`MASS` is defined and `1` otherwise. -/
def PMASS (env : Env) (pt : Particle) : ℚ := if env.MASS then pt.mass else 1

/-! ## Whole-population loops -/

/-- The loop nest `for c … for i …` over one cell set with a body that only
rewrites `p[i]`. -/
def for_each (g : Particle → Particle) (cells : List Cell) : List Cell :=
  cells.map (fun cell => cell.map g)

/-- The function `save_old_pos`. -/
def save_old_pos (s : State) : State :=
  { s with
    local_cells := for_each (fun pt => { pt with p_old := pt.p }) s.local_cells
    ghost_cells := for_each (fun pt => { pt with p_old := pt.p }) s.ghost_cells }

/-- The function `init_correction_vector`. -/
def init_correction_vector (s : State) : State :=
  { s with
    local_cells := for_each (fun pt => { pt with f := Vec3.zero }) s.local_cells
    ghost_cells := for_each (fun pt => { pt with f := Vec3.zero }) s.ghost_cells }

/-- The function `transfer_force_init_vel`. -/
def transfer_force_init_vel (s : State) : State :=
  { s with
    local_cells :=
      for_each (fun pt => { pt with p_old := pt.f, f := Vec3.zero }) s.local_cells
    ghost_cells :=
      for_each (fun pt => { pt with p_old := pt.f, f := Vec3.zero }) s.ghost_cells }

/-- The function `revert_force`. -/
def revert_force (s : State) : State :=
  { s with
    local_cells := for_each (fun pt => { pt with f := pt.p_old }) s.local_cells
    ghost_cells := for_each (fun pt => { pt with f := pt.p_old }) s.ghost_cells }

/-- The function `apply_vel_corr`: local cells only. -/
def apply_vel_corr (s : State) : State :=
  { s with
    local_cells := for_each (fun pt => { pt with v := Vec3.add pt.v pt.f }) s.local_cells }

/-! ## Pointers, checked reads, control flow -/

/-- The cell set a pointer points into. -/
def State.cells (s : State) (ghost : Bool) : List Cell :=
  if ghost then s.ghost_cells else s.local_cells

/-- The read `*r`. -/
def State.deref (s : State) (r : Ref) : Except Fault Particle :=
  match (s.cells r.ghost)[r.c]? with
  | none => .error .dangling
  | some cell =>
    match cell[r.i]? with
    | none => .error .dangling
    | some pt => .ok pt

/-- Rewrite the element at index `n`, if there is one. -/
def modify_at {α : Type} (g : α → α) : Nat → List α → List α
  | _, [] => []
  | 0, a :: as => g a :: as
  | n + 1, a :: as => a :: modify_at g n as

/-- The write `*r = g(*r)`. -/
def State.update (s : State) (r : Ref) (g : Particle → Particle) : State :=
  if r.ghost then
    { s with ghost_cells := modify_at (modify_at g r.i) r.c s.ghost_cells }
  else
    { s with local_cells := modify_at (modify_at g r.i) r.c s.local_cells }

/-- Append a message to the error sink: `runtime_error` followed by `sprintf`. -/
def State.post (s : State) (e : RuntimeError) : State :=
  { s with errors := s.errors ++ [e] }

/-- Run a halo exchange on the two cell sets. -/
def State.halo (s : State) (h : List Cell × List Cell → List Cell × List Cell) : State :=
  { s with
    local_cells := (h (s.local_cells, s.ghost_cells)).1
    ghost_cells := (h (s.local_cells, s.ghost_cells)).2 }

/-- The double division `a / b`. -/
def fdiv (a b : ℚ) : Except Fault ℚ :=
  if b = 0 then .error .div_by_zero else .ok (a / b)

/-- The read `bl.e[k]`. -/
def read_bl (bl : List Int) (k : Nat) : Except Fault Int :=
  match bl[k]? with
  | none => .error .bl_out_of_bounds
  | some e => .ok e

/-- The read `bonded_ia_params[id]`. -/
def read_ia (env : Env) (id : Int) : Except Fault Bonded_ia_parameters :=
  if id < 0 then .error .ia_out_of_bounds
  else
    match env.bonded_ia_params[id.toNat]? with
    | none => .error .ia_out_of_bounds
    | some ia => .ok ia

/-- How a loop or a loop body ends: it falls through to the next statement, or
it has executed `return`. -/
inductive Flow (σ : Type) where
  | next (s : σ)
  | ret (s : σ)

/-- The state carried by either ending. -/
def Flow.val {σ : Type} : Flow σ → σ
  | .next s => s
  | .ret s => s

/-- The loop `for (i = i0; i < i0 + n; i++) body`, left at once when the body
returns. -/
def for_loop {σ : Type} (body : Nat → σ → Except Fault (Flow σ)) :
    Nat → Nat → σ → Except Fault (Flow σ)
  | 0, _, s => .ok (.next s)
  | n + 1, i, s =>
    match body i s with
    | .error e => .error e
    | .ok (.ret s') => .ok (.ret s')
    | .ok (.next s') => for_loop body n (i + 1) s'

/-- The bond-list walk that `compute_pos_corr_vec`, `check_tol_pos`,
`compute_vel_corr_vec` and `check_tol_vel` share, started at cursor `k`:
```
while (k < bl.n) {
  ia = &bonded_ia_params[bl.e[k++]];
  if (ia->type == BONDED_IA_RIGID_BOND) {
    p2 = local_particles[bl.e[k++]];
    if (!p2) { runtime_error ... identity, bl.e[k-1]; return; }
    rigid(ia, p2);
  } else k += ia->num;
}
```
The first argument bounds the number of passes through the loop. -/
def bond_walk {σ : Type} (env : Env) (identity : Int) (bl : List Int)
    (broken : RuntimeError → σ → σ)
    (rigid : Bonded_ia_parameters → Ref → σ → Except Fault σ) :
    Nat → Nat → σ → Except Fault (Flow σ)
  | 0, k, s => if k < bl.length then .error .out_of_fuel else .ok (.next s)
  | fuel + 1, k, s =>
    if k < bl.length then
      match read_bl bl k with
      | .error e => .error e
      | .ok id =>
        match read_ia env id with
        | .error e => .error e
        | .ok ia =>
          if ia.type = env.BONDED_IA_RIGID_BOND then
            match read_bl bl (k + 1) with
            | .error e => .error e
            | .ok partner =>
              match env.local_particles partner with
              | none => .ok (.ret (broken (.rigid_bond_broken identity partner) s))
              | some p2 =>
                match rigid ia p2 s with
                | .error e => .error e
                | .ok s' => bond_walk env identity bl broken rigid fuel (k + 2) s'
          else bond_walk env identity bl broken rigid fuel (k + 1 + ia.num) s
    else .ok (.next s)

/-- The body of the loop over `i`: `p1 = &p[i]; k = 0; while …`.  The bond list
and the identity of `p[i]` are read on entering. -/
def particle_walk {σ : Type} (env : Env) (st : σ → State)
    (broken : RuntimeError → σ → σ)
    (rigid : Ref → Bonded_ia_parameters → Ref → σ → Except Fault σ) (c i : Nat) (s : σ) :
    Except Fault (Flow σ) :=
  match (st s).deref ⟨false, c, i⟩ with
  | .error e => .error e
  | .ok p1 =>
    bond_walk env p1.identity p1.bl broken (rigid ⟨false, c, i⟩) p1.bl.length 0 s

/-- The body of the loop over `c`: `cell = local_cells.cell[c]; np = cell->n;
for (i = 0; i < np; i++) …`. -/
def cell_walk {σ : Type} (env : Env) (st : σ → State)
    (broken : RuntimeError → σ → σ)
    (rigid : Ref → Bonded_ia_parameters → Ref → σ → Except Fault σ) (c : Nat) (s : σ) :
    Except Fault (Flow σ) :=
  match (st s).local_cells[c]? with
  | none => .error .dangling
  | some cell => for_loop (particle_walk env st broken rigid c) cell.length 0 s

/-- The loop nest `for c … for i … { k = 0; while … }` over `local_cells`. -/
def local_bond_loop {σ : Type} (env : Env) (st : σ → State)
    (broken : RuntimeError → σ → σ)
    (rigid : Ref → Bonded_ia_parameters → Ref → σ → Except Fault σ) (s : σ) :
    Except Fault (Flow σ) :=
  for_loop (cell_walk env st broken rigid) (st s).local_cells.length 0 s

/-! ## Position corrector -/

/-- The body of `compute_pos_corr_vec` for one rigid bond of `*p1` with the
resolved partner `*p2`. -/
def pos_corr_bond (env : Env) (p1 : Ref) (ia : Bonded_ia_parameters) (p2 : Ref)
    (s : State) : Except Fault State := do
  let P1 ← s.deref p1
  let P2 ← s.deref p2
  let r_ij_t := env.get_mi_vector P1.p_old P2.p_old
  let r_ij := env.get_mi_vector P1.p P2.p
  let r_ij_dot := scalar r_ij_t r_ij
  let G ← fdiv ((1 / 2) * (ia.d2 - sqrlen r_ij)) r_ij_dot
  let G ← fdiv G (if env.MASS then PMASS env P1 + PMASS env P2 else 2)
  let pos_corr := Vec3.smul G r_ij_t
  let s1 := s.update p1 (fun q => { q with f := Vec3.add q.f (Vec3.mulr pos_corr (PMASS env P2)) })
  pure (s1.update p2 (fun q => { q with f := Vec3.sub q.f (Vec3.mulr pos_corr (PMASS env P1)) }))

/-- The function `compute_pos_corr_vec`. -/
def compute_pos_corr_vec (env : Env) (s : State) : Except Fault State :=
  match local_bond_loop env id (fun e s => s.post e) (pos_corr_bond env) s with
  | .error e => .error e
  | .ok r => .ok r.val

/-- One cell of `app_correction_check_VL_rebuild`, carrying
`rebuild_verletlist`. -/
def app_correction_cell (skin2 : ℚ) : Cell → Int → Cell × Int
  | [], rb => ([], rb)
  | pt :: ps, rb =>
    let pt' := { pt with p := Vec3.add pt.p pt.f, v := Vec3.add pt.v pt.f }
    let rb' := if distance2 pt'.p pt'.l_p_old > skin2 then 1 else rb
    ((pt' :: (app_correction_cell skin2 ps rb').1), (app_correction_cell skin2 ps rb').2)

/-- The loop over `local_cells` of `app_correction_check_VL_rebuild`. -/
def app_correction_cells (skin2 : ℚ) : List Cell → Int → List Cell × Int
  | [], rb => ([], rb)
  | cell :: cs, rb =>
    ((app_correction_cell skin2 cell rb).1 ::
        (app_correction_cells skin2 cs (app_correction_cell skin2 cell rb).2).1,
      (app_correction_cells skin2 cs (app_correction_cell skin2 cell rb).2).2)

/-- The function `app_correction_check_VL_rebuild`. -/
def app_correction_check_VL_rebuild (env : Env) (s : State) : State :=
  { s with
    local_cells := (app_correction_cells (SQR (env.skin / 2)) s.local_cells 0).1
    rebuild_verletlist := (app_correction_cells (SQR (env.skin / 2)) s.local_cells 0).2 }

/-- The body of `check_tol_pos` for one rigid bond; the accumulator is the
local `repeat`. -/
def tol_pos_bond (env : Env) (p1 : Ref) (ia : Bonded_ia_parameters) (p2 : Ref)
    (sr : State × Bool) : Except Fault (State × Bool) := do
  let P1 ← sr.1.deref p1
  let P2 ← sr.1.deref p2
  let r_ij := env.get_mi_vector P1.p P2.p
  let q ← fdiv ((1 / 2) * (ia.d2 - sqrlen r_ij)) ia.d2
  let tol := |q|
  pure (sr.1, sr.2 || decide (tol > ia.p_tol))

/-- The function `check_tol_pos`: the state (its error sink may have grown) and
the returned flag, which is `0` after a broken bond. -/
def check_tol_pos (env : Env) (s : State) : Except Fault (State × Bool) :=
  match local_bond_loop env Prod.fst (fun e sr => (sr.1.post e, sr.2)) (tol_pos_bond env)
      (s, false) with
  | .error e => .error e
  | .ok (.ret sr) => .ok (sr.1, false)
  | .ok (.next sr) => .ok sr

/-- What a corrector leaves behind: the state, the locals `cnt` and `repeat`
on leaving the loop, and the reduced flags of the iterations in order. -/
structure ShakeResult where
  state : State
  cnt : Nat
  rpt : Bool
  flags : List Bool
deriving DecidableEq, Repr

/-- The loop `while (repeat && cnt < SHAKE_MAX_ITERATIONS) { body; cnt++; }`.
The first argument bounds the number of passes. -/
def shake_loop (body : Nat → State → Except Fault (State × Bool)) (max_it : Nat) :
    Nat → Bool → Nat → List Bool → State → Except Fault ShakeResult
  | 0, rpt, cnt, flags, s =>
    if rpt && decide (cnt < max_it) then .error .out_of_fuel else .ok ⟨s, cnt, rpt, flags⟩
  | fuel + 1, rpt, cnt, flags, s =>
    if rpt && decide (cnt < max_it) then
      match body cnt s with
      | .error e => .error e
      | .ok (s', rpt') => shake_loop body max_it fuel rpt' (cnt + 1) (flags ++ [rpt']) s'
    else .ok ⟨s, cnt, rpt, flags⟩

/-- One pass through the loop of `correct_pos_shake`, up to the broadcast of
the reduced flag and the call of `announce_rebuild_vlist`. -/
def pos_iteration (env : Env) (cnt : Nat) (s : State) : Except Fault (State × Bool) := do
  let s1 := init_correction_vector s
  let s2 ← compute_pos_corr_vec env s1
  let s3 := s2.halo env.collect_ghost_force
  let s4 := app_correction_check_VL_rebuild env s3
  let s5 := s4.halo env.update_ghost_pos
  let (s6, repeat_) ← check_tol_pos env s5
  let rpt := repeat_ || env.MPI_LOR_others cnt
  let s7 :=
    if rpt then s6
    else { s6 with rebuild_verletlist := env.announce_rebuild_vlist s6.rebuild_verletlist }
  pure (s7, rpt)

/-- The function `correct_pos_shake`. -/
def correct_pos_shake (env : Env) (s : State) : Except Fault ShakeResult :=
  match shake_loop (pos_iteration env) env.SHAKE_MAX_ITERATIONS env.SHAKE_MAX_ITERATIONS
      true 0 [] s with
  | .error e => .error e
  | .ok r =>
    if r.cnt ≥ env.SHAKE_MAX_ITERATIONS then
      .ok { r with state := r.state.post (.rattle_failed r.cnt) }
    else .ok r

/-! ## Velocity corrector -/

/-- The body of `compute_vel_corr_vec` for one rigid bond. -/
def vel_corr_bond (env : Env) (p1 : Ref) (ia : Bonded_ia_parameters) (p2 : Ref)
    (s : State) : Except Fault State := do
  let P1 ← s.deref p1
  let P2 ← s.deref p2
  let v_ij := vector_subt P1.v P2.v
  let r_ij := env.get_mi_vector P1.p P2.p
  let K ← fdiv (scalar v_ij r_ij) ia.d2
  let K ← fdiv K (if env.MASS then PMASS env P1 + PMASS env P2 else 2)
  let vel_corr := Vec3.smul K r_ij
  let s1 := s.update p1 (fun q => { q with f := Vec3.sub q.f (Vec3.mulr vel_corr (PMASS env P2)) })
  pure (s1.update p2 (fun q => { q with f := Vec3.add q.f (Vec3.mulr vel_corr (PMASS env P1)) }))

/-- The function `compute_vel_corr_vec`. -/
def compute_vel_corr_vec (env : Env) (s : State) : Except Fault State :=
  match local_bond_loop env id (fun e s => s.post e) (vel_corr_bond env) s with
  | .error e => .error e
  | .ok r => .ok r.val

/-- The body of `check_tol_vel` for one rigid bond. -/
def tol_vel_bond (env : Env) (p1 : Ref) (ia : Bonded_ia_parameters) (p2 : Ref)
    (sr : State × Bool) : Except Fault (State × Bool) := do
  let P1 ← sr.1.deref p1
  let P2 ← sr.1.deref p2
  let r_ij := env.get_mi_vector P1.p P2.p
  let v_ij := vector_subt P1.v P2.v
  let tol := |scalar r_ij v_ij|
  pure (sr.1, sr.2 || decide (tol > ia.v_tol))

/-- The function `check_tol_vel`. -/
def check_tol_vel (env : Env) (s : State) : Except Fault (State × Bool) :=
  match local_bond_loop env Prod.fst (fun e sr => (sr.1.post e, sr.2)) (tol_vel_bond env)
      (s, false) with
  | .error e => .error e
  | .ok (.ret sr) => .ok (sr.1, false)
  | .ok (.next sr) => .ok sr

/-- One pass through the loop of `correct_vel_shake`, up to the broadcast. -/
def vel_iteration (env : Env) (cnt : Nat) (s : State) : Except Fault (State × Bool) := do
  let s1 := init_correction_vector s
  let s2 ← compute_vel_corr_vec env s1
  let s3 := s2.halo env.collect_ghost_force
  let s4 := apply_vel_corr s3
  let s5 := s4.halo env.update_ghost_pos
  let (s6, repeat_) ← check_tol_vel env s5
  pure (s6, repeat_ || env.MPI_LOR_others cnt)

/-- How `correct_vel_shake` ends: `fatal` says that `errexit()` was called, and
then `run.state` is the state at that call. -/
structure VelResult where
  run : ShakeResult
  fatal : Bool
deriving DecidableEq, Repr

/-- The function `correct_vel_shake`; `errexit()` does not return. -/
def correct_vel_shake (env : Env) (s : State) : Except Fault VelResult :=
  match shake_loop (vel_iteration env) env.SHAKE_MAX_ITERATIONS env.SHAKE_MAX_ITERATIONS
      true 0 [] (transfer_force_init_vel s) with
  | .error e => .error e
  | .ok r =>
    if r.cnt ≥ env.SHAKE_MAX_ITERATIONS then .ok ⟨r, true⟩
    else .ok ⟨{ r with state := revert_force r.state }, false⟩

/-! ## Observations on a state -/

/-- One slot (or any function) of every particle of a cell set, in place. -/
def field_of {β : Type} (g : Particle → β) (cells : List Cell) : List (List β) :=
  cells.map (fun cell => cell.map g)

/-- One slot of every local and every ghost particle. -/
def State.fields {β : Type} (s : State) (g : Particle → β) : List (List β) × List (List β) :=
  (field_of g s.local_cells, field_of g s.ghost_cells)

/-- A halo exchange that leaves slot `g` of every particle as it is. -/
def Halo_keeps {β : Type} (g : Particle → β)
    (h : List Cell × List Cell → List Cell × List Cell) : Prop :=
  ∀ cs, (field_of g (h cs).1, field_of g (h cs).2) = (field_of g cs.1, field_of g cs.2)


/-! ## The two-particle scenarios -/

/-- A unit-mass particle of the scenarios, its Verlet reference position the
origin. -/
def particle (identity : Int) (p p_old v f : Vec3) (bl : List Int) : Particle :=
  { p := p, p_old := p_old, v := v, f := f, l_p_old := Vec3.zero, identity := identity,
    mass := 1, bl := bl }

/-- Two local particles in one cell, no ghosts, an empty error sink. -/
def dumbbell (a b : Particle) : State :=
  { local_cells := [[a, b]], ghost_cells := [], rebuild_verletlist := 0, errors := [] }

/-- The collaborators of the scenarios: one node, no periodicity, interaction 0
the rigid bond with the given parameters, interaction 1 a non-rigid bond with
two partners, particle ids 0 and 1 stored in the one local cell. -/
def scenario_env (d2 p_tol v_tol : ℚ) (max_it : Nat) : Env :=
  { bonded_ia_params := [⟨7, 1, d2, p_tol, v_tol⟩, ⟨3, 2, 0, 0, 0⟩]
    BONDED_IA_RIGID_BOND := 7
    local_particles := fun id =>
      if id = 0 then some ⟨false, 0, 0⟩ else if id = 1 then some ⟨false, 0, 1⟩ else none
    get_mi_vector := Vec3.sub
    MASS := true
    SHAKE_MAX_ITERATIONS := max_it
    skin := 1
    collect_ghost_force := id
    update_ghost_pos := id
    MPI_LOR_others := fun _ => false
    announce_rebuild_vlist := id }

/-- Equality of two runs can be computed. -/
instance decEqRun {α : Type} [DecidableEq α] : DecidableEq (Except Fault α) := fun a b =>
  match a, b with
  | .ok x, .ok y => if h : x = y then isTrue (by rw [h]) else isFalse (by simpa using h)
  | .error x, .error y => if h : x = y then isTrue (by rw [h]) else isFalse (by simpa using h)
  | .ok _, .error _ => isFalse (by simp)
  | .error _, .ok _ => isFalse (by simp)

/-- The parameters of the end-to-end scenarios: `d2 = 1`, both tolerances
`1e-6`, at most 500 iterations. -/
def s3_env : Env := scenario_env 1 (1 / 1000000) (1 / 1000000) 500

/-- Scenario S3 (radial velocity), with forces `(1,2,3)` and `(4,5,6)` in the
force slots. -/
def s3_state : State :=
  dumbbell (particle 0 ⟨0, 0, 0⟩ ⟨0, 0, 0⟩ ⟨1 / 2, 0, 0⟩ ⟨1, 2, 3⟩ [0, 1])
    (particle 1 ⟨1, 0, 0⟩ ⟨1, 0, 0⟩ ⟨-1 / 2, 0, 0⟩ ⟨4, 5, 6⟩ [])

/-- Scenario S3 after `correct_vel_shake`. -/
def s3_after : State :=
  dumbbell (particle 0 ⟨0, 0, 0⟩ ⟨1, 2, 3⟩ ⟨0, 0, 0⟩ ⟨1, 2, 3⟩ [0, 1])
    (particle 1 ⟨1, 0, 0⟩ ⟨4, 5, 6⟩ ⟨0, 0, 0⟩ ⟨4, 5, 6⟩ [])

/-- A dumbbell stretched to separation 2 against `d2 = 1`, with radial
velocity and with forces `(1,2,3)` and `(4,5,6)` in the force slots. -/
def stretched_state : State :=
  dumbbell (particle 0 ⟨0, 0, 0⟩ ⟨0, 0, 0⟩ ⟨1 / 2, 0, 0⟩ ⟨1, 2, 3⟩ [0, 1])
    (particle 1 ⟨2, 0, 0⟩ ⟨2, 0, 0⟩ ⟨-1 / 2, 0, 0⟩ ⟨4, 5, 6⟩ [])

/-- The state `stretched_state` after one pass of the velocity loop. -/
def stretched_exit : State :=
  dumbbell (particle 0 ⟨0, 0, 0⟩ ⟨1, 2, 3⟩ ⟨-3 / 2, 0, 0⟩ ⟨-2, 0, 0⟩ [0, 1])
    (particle 1 ⟨2, 0, 0⟩ ⟨4, 5, 6⟩ ⟨3 / 2, 0, 0⟩ ⟨2, 0, 0⟩ [])

/-! ## The bond list as a sequence of tuples -/

/-- The interaction record named at cursor `k` of a bond list. -/
def entry_at (env : Env) (bl : List Int) (k : Nat) : Option Bonded_ia_parameters :=
  match bl[k]? with
  | none => none
  | some id =>
    match read_ia env id with
    | .error _ => none
    | .ok ia => some ia

/-- How many entries a tuple with record `ia` takes: the interaction id and
one partner for a rigid bond, the interaction id and `num` partners otherwise. -/
def entry_len (env : Env) (ia : Bonded_ia_parameters) : Nat :=
  if ia.type = env.BONDED_IA_RIGID_BOND then 2 else 1 + ia.num

/-- Cursor `k` starts a tuple of `bl`, when the tuples are read from cursor
`k0` on. -/
inductive TupleFrom (env : Env) (bl : List Int) (k0 : Nat) : Nat → Prop where
  | start : TupleFrom env bl k0 k0
  | next {k : Nat} {ia : Bonded_ia_parameters} :
      TupleFrom env bl k0 k → entry_at env bl k = some ia →
      TupleFrom env bl k0 (k + entry_len env ia)

/-- Read from cursor `k0` on, the bond list `bl` lists a rigid bond with
record `ia` to the partner id `j`. -/
def Rigid_bond_from (env : Env) (bl : List Int) (k0 : Nat) (ia : Bonded_ia_parameters)
    (j : Int) : Prop :=
  ∃ k, TupleFrom env bl k0 k ∧ entry_at env bl k = some ia ∧
    ia.type = env.BONDED_IA_RIGID_BOND ∧ bl[k + 1]? = some j

/-- The bond list `bl` lists a rigid bond with record `ia` to the partner id
`j`. -/
def Rigid_bond_listed (env : Env) (bl : List Int) (ia : Bonded_ia_parameters) (j : Int) :
    Prop :=
  Rigid_bond_from env bl 0 ia j

/-- Identity and bond list of every local particle, in place. -/
def bonds_of (s : State) : List (List (Int × List Int)) :=
  field_of (fun pt => (pt.identity, pt.bl)) s.local_cells

/-- Entry `i` of row `c` of a table of rows. -/
def at_index {α : Type} (B : List (List α)) (c i : Nat) : Option α :=
  match B[c]? with
  | none => none
  | some row => row[i]?

/-- Read from cursor `k` on, the first rigid bond of `bl` whose partner the id
map does not resolve has partner id `j`. -/
inductive First_broken_from (env : Env) (bl : List Int) : Nat → Int → Prop where
  | here {k : Nat} {ia : Bonded_ia_parameters} {j : Int} :
      entry_at env bl k = some ia → ia.type = env.BONDED_IA_RIGID_BOND →
      bl[k + 1]? = some j → env.local_particles j = none → First_broken_from env bl k j
  | after_rigid {k : Nat} {ia : Bonded_ia_parameters} {j0 j : Int} {p2 : Ref} :
      entry_at env bl k = some ia → ia.type = env.BONDED_IA_RIGID_BOND →
      bl[k + 1]? = some j0 → env.local_particles j0 = some p2 →
      First_broken_from env bl (k + 2) j → First_broken_from env bl k j
  | after_other {k : Nat} {ia : Bonded_ia_parameters} {j : Int} :
      entry_at env bl k = some ia → ia.type ≠ env.BONDED_IA_RIGID_BOND →
      First_broken_from env bl (k + 1 + ia.num) j → First_broken_from env bl k j

/-- Every rigid bond listed from cursor `k` on has a resolvable partner. -/
def All_resolved_from (env : Env) (bl : List Int) (k : Nat) : Prop :=
  ∀ ia j, Rigid_bond_from env bl k ia j → env.local_particles j ≠ none

/-- In the order of the loops over `local_cells` (cells, particles, bond-list
entries), the first rigid bond with an unresolvable partner is the one that
the message `e` names: the particle's identity and the partner id. -/
def First_broken (env : Env) (B : List (List (Int × List Int))) (e : RuntimeError) : Prop :=
  ∃ c i idn bl j, at_index B c i = some (idn, bl) ∧ First_broken_from env bl 0 j ∧
    e = .rigid_bond_broken idn j ∧
    ∀ c' i' idn' bl', (c' < c ∨ (c' = c ∧ i' < i)) → at_index B c' i' = some (idn', bl') →
      All_resolved_from env bl' 0

/-- Every rigid bond listed on a local particle has a resolvable partner. -/
def All_resolved (env : Env) (B : List (List (Int × List Int))) : Prop :=
  ∀ c i idn bl, at_index B c i = some (idn, bl) → All_resolved_from env bl 0

/-- A dumbbell at separation 2 whose first particle lists, after the rigid bond
to particle 1, a rigid bond to the id 5, which the id map does not resolve. -/
def broken_state : State :=
  dumbbell (particle 0 ⟨0, 0, 0⟩ ⟨0, 0, 0⟩ ⟨0, 0, 0⟩ ⟨0, 0, 0⟩ [0, 1, 0, 5])
    (particle 1 ⟨2, 0, 0⟩ ⟨2, 0, 0⟩ ⟨0, 0, 0⟩ ⟨0, 0, 0⟩ [])

/-- The state `broken_state` after `correct_pos_shake` under a bound of 500. -/
def broken_after : State :=
  { local_cells :=
      [[particle 0 ⟨3 / 8, 0, 0⟩ ⟨0, 0, 0⟩ ⟨3 / 8, 0, 0⟩ ⟨3 / 8, 0, 0⟩ [0, 1, 0, 5],
        particle 1 ⟨13 / 8, 0, 0⟩ ⟨2, 0, 0⟩ ⟨-3 / 8, 0, 0⟩ ⟨-3 / 8, 0, 0⟩ []]]
    ghost_cells := []
    rebuild_verletlist := 1
    errors := [.rigid_bond_broken 0 5, .rigid_bond_broken 0 5] }

/-- Scenario S2 (pre-satisfied): `p_old = p = ((0,0,0),(1,0,0))`, at rest. -/
def s2_state : State :=
  dumbbell (particle 0 ⟨0, 0, 0⟩ ⟨0, 0, 0⟩ ⟨0, 0, 0⟩ ⟨0, 0, 0⟩ [0, 1])
    (particle 1 ⟨1, 0, 0⟩ ⟨1, 0, 0⟩ ⟨0, 0, 0⟩ ⟨0, 0, 0⟩ [])

/-- The scenario parameters with `d2 = 1.001` and both tolerances `0.001`. -/
def loose_env : Env := scenario_env (1001 / 1000) (1 / 1000) (1 / 1000) 500

/-- A dumbbell at separation 1, `p_old = p`, the first particle moving along
the bond at speed `1/2000`: within both tolerances of `loose_env`, and not
exactly on either constraint. -/
def near_state : State :=
  dumbbell (particle 0 ⟨0, 0, 0⟩ ⟨0, 0, 0⟩ ⟨1 / 2000, 0, 0⟩ ⟨0, 0, 0⟩ [0, 1])
    (particle 1 ⟨1, 0, 0⟩ ⟨1, 0, 0⟩ ⟨0, 0, 0⟩ ⟨0, 0, 0⟩ [])

/-- A dumbbell at separation 1 and at rest, within both tolerances of
`loose_env`, whose old separation `(−1/4000, −1, 0)` is nearly orthogonal to
the current one `(−1, 0, 0)`. -/
def turned_state : State :=
  dumbbell (particle 0 ⟨0, 0, 0⟩ ⟨0, 0, 0⟩ ⟨0, 0, 0⟩ ⟨0, 0, 0⟩ [0, 1])
    (particle 1 ⟨1, 0, 0⟩ ⟨1 / 4000, 1, 0⟩ ⟨0, 0, 0⟩ ⟨0, 0, 0⟩ [])

/-! ## Scenario S1 and the iteration bound -/

/-- Scenario S1 (dumbbell stretch): `p_old = ((0,0,0),(1,0,0))`,
`p = ((−0.1,0,0),(1.1,0,0))`, at rest. -/
def s1_state : State :=
  dumbbell (particle 0 ⟨-1 / 10, 0, 0⟩ ⟨0, 0, 0⟩ ⟨0, 0, 0⟩ ⟨0, 0, 0⟩ [0, 1])
    (particle 1 ⟨11 / 10, 0, 0⟩ ⟨1, 0, 0⟩ ⟨0, 0, 0⟩ ⟨0, 0, 0⟩ [])

/-- Scenario S1 after three passes of the position loop. -/
def s1_after : State :=
  { dumbbell
      (particle 0 ⟨-1 / 214358880, 0, 0⟩ ⟨0, 0, 0⟩ ⟨21435887 / 214358880, 0, 0⟩
        ⟨14641 / 214358880, 0, 0⟩ [0, 1])
      (particle 1 ⟨214358881 / 214358880, 0, 0⟩ ⟨1, 0, 0⟩ ⟨-21435887 / 214358880, 0, 0⟩
        ⟨-14641 / 214358880, 0, 0⟩ []) with
    rebuild_verletlist := 1 }

/-- The scenario parameters with the iteration bound lowered to 3. -/
def three_env : Env := scenario_env 1 (1 / 1000000) (1 / 1000000) 3

/-! ## One isolated rigid bond -/

/-- A halo exchange that leaves slot `g` of every local particle as it is. -/
def Halo_keeps_local {β : Type} (g : Particle → β)
    (h : List Cell × List Cell → List Cell × List Cell) : Prop :=
  ∀ cs, field_of g (h cs).1 = field_of g cs.1

/-- Some particle of the cells has `|p − l_p_old|² > skin2`. -/
def Skin_exceeded (skin2 : ℚ) (cells : List Cell) : Prop :=
  ∃ cell ∈ cells, ∃ pt ∈ cell, distance2 pt.p pt.l_p_old > skin2

/-! ## Mass-weighted sums -/

/-- A tuple of a bond list: the record of its interaction and its partner
ids. -/
abbrev Tuple := Bonded_ia_parameters × List Int

/-- The bond list read as a concatenation of tuples
`(interaction_id, partner_1, …, partner_num)`: the interaction id has to be a
valid index of `bonded_ia_params`, `num` partner ids have to follow it, and a
rigid bond has to have `num = 1`.  The result is `none` when the list is no such
concatenation.  The first argument bounds the number of tuples. -/
def tuples_of (env : Env) : Nat → List Int → Option (List Tuple)
  | _, [] => some []
  | 0, _ :: _ => none
  | fuel + 1, id :: rest =>
    match read_ia env id with
    | .error _ => none
    | .ok ia =>
      if ia.num ≤ rest.length ∧ (ia.type = env.BONDED_IA_RIGID_BOND → ia.num = 1) then
        match tuples_of env fuel (rest.drop ia.num) with
        | none => none
        | some ts => some ((ia, rest.take ia.num) :: ts)
      else none

/-- The walk over a bond list written as an iteration over its tuples: every
tuple is taken once, in list order; a rigid bond is handed to the body with its
resolved partner (or ends the walk when the partner is not resolved), any
other tuple is passed over. -/
def walk_tuples {σ : Type} (env : Env) (identity : Int) (broken : RuntimeError → σ → σ)
    (rigid : Bonded_ia_parameters → Ref → σ → Except Fault σ) :
    List Tuple → σ → Except Fault (Flow σ)
  | [], s => .ok (.next s)
  | (ia, partners) :: ts, s =>
    if ia.type = env.BONDED_IA_RIGID_BOND then
      match partners with
      | [] => .error .bl_out_of_bounds
      | partner :: _ =>
        match env.local_particles partner with
        | none => .ok (.ret (broken (.rigid_bond_broken identity partner) s))
        | some p2 =>
          match rigid ia p2 s with
          | .error e => .error e
          | .ok s' => walk_tuples env identity broken rigid ts s'
    else walk_tuples env identity broken rigid ts s

/-- The faults that are no read outside `bl.e` or `bonded_ia_params` and no
loop left unfinished: a division by zero, or a pointer into no cell. -/
def Fault.outside_walk (e : Fault) : Prop := e = .div_by_zero ∨ e = .dangling

/-- Every bond list of a local particle is a concatenation of tuples. -/
def Lists_well_formed (env : Env) (s : State) : Prop :=
  ∀ c i P, s.deref ⟨false, c, i⟩ = .ok P → ∃ ts, tuples_of env P.bl.length P.bl = some ts

/-- Scenario S1 with a non-rigid tuple `(1; 7, 8)` in front of the rigid bond
`(0; 1)` in the bond list of the first particle.  The ids 7 and 8 are no
indices of the interaction table and are not resolved by the id map. -/
def mixed_state : State :=
  dumbbell (particle 0 ⟨-1 / 10, 0, 0⟩ ⟨0, 0, 0⟩ ⟨0, 0, 0⟩ ⟨0, 0, 0⟩ [1, 7, 8, 0, 1])
    (particle 1 ⟨11 / 10, 0, 0⟩ ⟨1, 0, 0⟩ ⟨0, 0, 0⟩ ⟨0, 0, 0⟩ [])

/-- Scenario S1 with a rigid bond to the unresolved id 5 in front of the rigid
bond to particle 1 in the bond list of the first particle. -/
def skipped_state : State :=
  dumbbell (particle 0 ⟨-1 / 10, 0, 0⟩ ⟨0, 0, 0⟩ ⟨0, 0, 0⟩ ⟨0, 0, 0⟩ [0, 5, 0, 1])
    (particle 1 ⟨11 / 10, 0, 0⟩ ⟨1, 0, 0⟩ ⟨0, 0, 0⟩ ⟨0, 0, 0⟩ [])

/-! ## The rigid bonds of a state, in scan order -/

/-- A rigid bond as the scans meet it: the pointer to the particle that lists
it, the identity of that particle, the interaction record and the partner id. -/
abbrev Item := Ref × Int × Bonded_ia_parameters × Int

/-- The rigid bonds among the tuples of a bond list, each with its partner
id. -/
def rigid_bonds_of (env : Env) : List Tuple → List (Bonded_ia_parameters × Int)
  | [] => []
  | (ia, partners) :: ts =>
    if ia.type = env.BONDED_IA_RIGID_BOND then
      match partners with
      | [] => rigid_bonds_of env ts
      | j :: _ => (ia, j) :: rigid_bonds_of env ts
    else rigid_bonds_of env ts

/-- The rigid bonds that particle `i` of cell `c` lists; `x` is its identity and
its bond list. -/
def items_at (env : Env) (c i : Nat) (x : Int × List Int) : List Item :=
  match tuples_of env x.2.length x.2 with
  | none => []
  | some ts => (rigid_bonds_of env ts).map (fun b => (⟨false, c, i⟩, x.1, b.1, b.2))

/-- The rigid bonds that the particles of cell `c` list, particle by
particle. -/
def items_in (env : Env) (c : Nat) (row : List (Int × List Int)) : List Item :=
  (List.range' 0 row.length).flatMap (fun i =>
    match row[i]? with
    | none => []
    | some x => items_at env c i x)

/-- The rigid bonds that the local particles list, in the order of the loops
over cells, particles and bond-list entries; `B` holds the identities and the
bond lists. -/
def items_of (env : Env) (B : List (List (Int × List Int))) : List Item :=
  (List.range' 0 B.length).flatMap (fun c =>
    match B[c]? with
    | none => []
    | some row => items_in env c row)

/-- The scan written as an iteration over the rigid bonds: each is handed to
the body with its resolved partner, and the first one whose partner is not
resolved ends the scan. -/
def run_items {σ : Type} (env : Env) (broken : RuntimeError → σ → σ)
    (rigid : Ref → Bonded_ia_parameters → Ref → σ → Except Fault σ) :
    List Item → σ → Except Fault (Flow σ)
  | [], s => .ok (.next s)
  | (p1, idn, ia, j) :: rest, s =>
    match env.local_particles j with
    | none => .ok (.ret (broken (.rigid_bond_broken idn j) s))
    | some p2 =>
      match rigid p1 ia p2 s with
      | .error e => .error e
      | .ok s' => run_items env broken rigid rest s'

/-! ## The position correction vector, as the specification defines it -/

/-- The sum of a list of vectors, taken from the left. -/
def vec_sum (l : List Vec3) : Vec3 := l.foldl Vec3.add Vec3.zero

/-- The multiplier `G = 0.5 · (d2 − |r|²) / (r_t · r) / (m_1 + m_2)` of a rigid
bond, where `r_t = mi(p_old_1, p_old_2)` and `r = mi(p_1, p_2)`; without `MASS`
the last denominator is 2. -/
def multiplier_G (env : Env) (ia : Bonded_ia_parameters) (P1 P2 : Particle) : ℚ :=
  (1 / 2) * (ia.d2 - sqrlen (env.get_mi_vector P1.p P2.p)) /
    scalar (env.get_mi_vector P1.p_old P2.p_old) (env.get_mi_vector P1.p P2.p) /
    (if env.MASS then PMASS env P1 + PMASS env P2 else 2)

/-- What one rigid bond contributes to the correction of the particle `*q`:
`+G · m_2 · r_t` when `*q` is the particle `p1` that lists the bond, and
`−G · m_1 · r_t` when it is the partner `p2`. -/
def pos_corr_term (env : Env) (s : State) (q : Ref) (it : Item) : Vec3 :=
  match env.local_particles it.2.2.2 with
  | none => Vec3.zero
  | some p2 =>
    match s.deref it.1, s.deref p2 with
    | .ok P1, .ok P2 =>
      Vec3.add
        (if q = it.1 then
          Vec3.smul (multiplier_G env it.2.2.1 P1 P2 * PMASS env P2)
            (env.get_mi_vector P1.p_old P2.p_old)
        else Vec3.zero)
        (if q = p2 then
          Vec3.smul (-(multiplier_G env it.2.2.1 P1 P2 * PMASS env P1))
            (env.get_mi_vector P1.p_old P2.p_old)
        else Vec3.zero)
    | _, _ => Vec3.zero

/-- The position correction of the particle `*q` by its reference definition:
the sum of the contributions of the rigid bonds of all local particles. -/
def pos_corr_reference (env : Env) (s : State) (q : Ref) : Vec3 :=
  vec_sum ((items_of env (bonds_of s)).map (pos_corr_term env s q))

/-- The rigid bond `it` can be corrected in state `s`: its partner is resolved,
both pointers point to particles, and neither `r_t · r` nor the mass
denominator is zero. -/
def Solvable (env : Env) (s : State) (it : Item) : Prop :=
  ∃ p2 P1 P2, env.local_particles it.2.2.2 = some p2 ∧ s.deref it.1 = .ok P1 ∧
    s.deref p2 = .ok P2 ∧
    scalar (env.get_mi_vector P1.p_old P2.p_old) (env.get_mi_vector P1.p P2.p) ≠ 0 ∧
    (if env.MASS then PMASS env P1 + PMASS env P2 else 2) ≠ 0

/-- State `t` is state `s` with the slot `f` of every particle `*q` replaced by
`F q`. -/
def Differs_in_f (s t : State) (F : Ref → Vec3) : Prop :=
  ∀ q, t.deref q =
    (match s.deref q with
      | .error e => .error e
      | .ok Q => .ok { Q with f := F q })

/-! ## The diagnostic dump -/

/-- One record of `print_bond_len`, the text `" bl (%d %d): %f"`: two
identities and a squared length. -/
structure Bond_len where
  identity : Int
  partner : Int
  len2 : ℚ
deriving DecidableEq, Repr

/-- The loop over `k` of `print_bond_len` for the particle `P1`:
```
while (k < bl.n) {
  b_ia = &bonded_ia_params[bl.e[k]];
  if (b_ia->type == BONDED_IA_RIGID_BOND) {
    p2 = local_particles[bl.e[k++]];
    if (!p2) { runtime_error ... identity, bl.e[k-1]; return; }
    printf(" bl (%d %d): %f\t", identity, p2->p.identity, sqrlen(r_ij));
  } else k += b_ia->num;
}
```
The cursor is not advanced past the interaction id.  The first argument bounds
the number of passes through the loop, which the C loop does not. -/
def print_walk (env : Env) (P1 : Particle) :
    Nat → Nat → State × List Bond_len → Except Fault (Flow (State × List Bond_len))
  | 0, k, so => if k < P1.bl.length then .error .out_of_fuel else .ok (.next so)
  | fuel + 1, k, so =>
    if k < P1.bl.length then
      match read_bl P1.bl k with
      | .error e => .error e
      | .ok id =>
        match read_ia env id with
        | .error e => .error e
        | .ok b_ia =>
          if b_ia.type = env.BONDED_IA_RIGID_BOND then
            match read_bl P1.bl k with
            | .error e => .error e
            | .ok partner =>
              match env.local_particles partner with
              | none => .ok (.ret (so.1.post (.rigid_bond_broken P1.identity partner), so.2))
              | some p2 =>
                match so.1.deref p2 with
                | .error e => .error e
                | .ok P2 =>
                  print_walk env P1 fuel (k + 1)
                    (so.1, so.2 ++
                      [⟨P1.identity, P2.identity, sqrlen (env.get_mi_vector P1.p P2.p)⟩])
          else print_walk env P1 fuel (k + b_ia.num) so
    else .ok (.next so)

/-- The function `print_bond_len`: the state (its error sink may have grown) and
the records printed, in order.  The argument `fuel` bounds the passes through
each `while` loop. -/
def print_bond_len (env : Env) (fuel : Nat) (s : State) :
    Except Fault (State × List Bond_len) :=
  match for_loop
      (fun c so =>
        match so.1.local_cells[c]? with
        | none => .error .dangling
        | some cell =>
          for_loop
            (fun i so =>
              match so.1.deref ⟨false, c, i⟩ with
              | .error e => .error e
              | .ok P1 => print_walk env P1 fuel 0 so)
            cell.length 0 so)
      s.local_cells.length 0 (s, []) with
  | .error e => .error e
  | .ok fl => .ok fl.val

/-- What the dump is to report: for each rigid bond of each local particle, in
scan order, the particle's identity, the identity of the particle that the
partner id resolves to, and `|mi(p_i, p_partner)|²`, the squared length that
`check_tol_pos` tests. -/
def expected_report (env : Env) (s : State) : List Bond_len :=
  (items_of env (bonds_of s)).filterMap (fun it =>
    match env.local_particles it.2.2.2 with
    | none => none
    | some p2 =>
      match s.deref it.1, s.deref p2 with
      | .ok P1, .ok P2 =>
        some ⟨P1.identity, P2.identity, sqrlen (env.get_mi_vector P1.p P2.p)⟩
      | _, _ => none)

/-- The scenario parameters with a non-rigid interaction 1 that has no
partner. -/
def arity0_env : Env :=
  { s3_env with
    bonded_ia_params := [⟨7, 1, 1, 1 / 1000000, 1 / 1000000⟩, ⟨3, 0, 0, 0, 0⟩] }

/-- Scenario S2 with the bond list of the first particle replaced by the one
tuple `(1)`, a non-rigid interaction without partner under `arity0_env`. -/
def idle_state : State :=
  dumbbell (particle 0 ⟨0, 0, 0⟩ ⟨0, 0, 0⟩ ⟨0, 0, 0⟩ ⟨0, 0, 0⟩ [1])
    (particle 1 ⟨1, 0, 0⟩ ⟨1, 0, 0⟩ ⟨0, 0, 0⟩ ⟨0, 0, 0⟩ [])

/-! # Lemmas and theorems -/

/-! ## Frame lemmas -/

theorem field_of_for_each {β : Type} (g : Particle → β) (h : Particle → Particle)
    (cells : List Cell) : field_of g (for_each h cells) = field_of (fun q => g (h q)) cells := by
  simp [field_of, for_each, List.map_map, Function.comp_def]

theorem map_modify_at {α β : Type} (g : α → β) (h : α → α) (hg : ∀ a, g (h a) = g a) :
    ∀ (n : Nat) (l : List α), (modify_at h n l).map g = l.map g
  | _, [] => by simp [modify_at]
  | 0, a :: as => by simp [modify_at, hg]
  | n + 1, a :: as => by simp [modify_at, map_modify_at g h hg n as]

theorem field_of_modify_at {β : Type} (g : Particle → β) (h : Particle → Particle)
    (hg : ∀ q, g (h q) = g q) (c i : Nat) (cells : List Cell) :
    field_of g (modify_at (modify_at h i) c cells) = field_of g cells := by
  unfold field_of
  exact map_modify_at (fun cell : Cell => cell.map g) (modify_at h i)
    (fun cell => map_modify_at g h hg i cell) c cells

theorem fields_update {β : Type} (g : Particle → β) (h : Particle → Particle)
    (hg : ∀ q, g (h q) = g q) (s : State) (r : Ref) :
    (s.update r h).fields g = s.fields g := by
  unfold State.update State.fields
  split <;> simp [field_of_modify_at g h hg]

theorem for_loop_inv {σ : Type} (I : σ → Prop) (body : Nat → σ → Except Fault (Flow σ))
    (hb : ∀ i s fl, I s → body i s = .ok fl → I fl.val) :
    ∀ (n i : Nat) (s : σ) (fl : Flow σ), I s → for_loop body n i s = .ok fl → I fl.val := by
  intro n
  induction n with
  | zero =>
    intro i s fl hs h
    simp only [for_loop, Except.ok.injEq] at h
    subst h
    exact hs
  | succ n ih =>
    intro i s fl hs h
    simp only [for_loop] at h
    split at h
    · exact absurd h (by simp)
    · rename_i s' hbody
      simp only [Except.ok.injEq] at h
      subst h
      exact hb i s _ hs hbody
    · rename_i s' hbody
      exact ih (i + 1) s' fl (hb i s _ hs hbody) h

theorem bond_walk_inv {σ : Type} (I : σ → Prop) (env : Env) (identity : Int) (bl : List Int)
    (broken : RuntimeError → σ → σ)
    (rigid : Bonded_ia_parameters → Ref → σ → Except Fault σ)
    (hbr : ∀ e s, I s → I (broken e s))
    (hr : ∀ ia p2 s s', I s → rigid ia p2 s = .ok s' → I s') :
    ∀ (fuel k : Nat) (s : σ) (fl : Flow σ), I s →
      bond_walk env identity bl broken rigid fuel k s = .ok fl → I fl.val := by
  intro fuel
  induction fuel with
  | zero =>
    intro k s fl hs h
    simp only [bond_walk] at h
    split at h
    · exact absurd h (by simp)
    · simp only [Except.ok.injEq] at h
      subst h
      exact hs
  | succ fuel ih =>
    intro k s fl hs h
    simp only [bond_walk] at h
    split at h
    · split at h
      · exact absurd h (by simp)
      · split at h
        · exact absurd h (by simp)
        · split at h
          · split at h
            · exact absurd h (by simp)
            · split at h
              · simp only [Except.ok.injEq] at h
                subst h
                exact hbr _ _ hs
              · split at h
                · exact absurd h (by simp)
                · rename_i s' hrig
                  exact ih _ s' fl (hr _ _ _ _ hs hrig) h
          · exact ih _ s fl hs h
    · simp only [Except.ok.injEq] at h
      subst h
      exact hs

theorem local_bond_loop_inv {σ : Type} (I : σ → Prop) (env : Env) (st : σ → State)
    (broken : RuntimeError → σ → σ)
    (rigid : Ref → Bonded_ia_parameters → Ref → σ → Except Fault σ)
    (hbr : ∀ e s, I s → I (broken e s))
    (hr : ∀ p1 ia p2 s s', I s → rigid p1 ia p2 s = .ok s' → I s')
    (s : σ) (fl : Flow σ) (hs : I s) (h : local_bond_loop env st broken rigid s = .ok fl) :
    I fl.val := by
  unfold local_bond_loop at h
  refine for_loop_inv I _ ?_ _ _ s fl hs h
  intro c s1 fl1 hs1 h1
  unfold cell_walk at h1
  split at h1
  · exact absurd h1 (by simp)
  · refine for_loop_inv I _ ?_ _ _ s1 fl1 hs1 h1
    intro i s2 fl2 hs2 h2
    unfold particle_walk at h2
    split at h2
    · exact absurd h2 (by simp)
    · exact bond_walk_inv I env _ _ broken _ hbr (hr _) _ _ s2 fl2 hs2 h2

theorem shake_loop_inv (I : State → Prop) (body : Nat → State → Except Fault (State × Bool))
    (max_it : Nat) (hb : ∀ cnt s r, I s → body cnt s = .ok r → I r.1) :
    ∀ (fuel : Nat) (rpt : Bool) (cnt : Nat) (flags : List Bool) (s : State) (r : ShakeResult),
      I s → shake_loop body max_it fuel rpt cnt flags s = .ok r → I r.state := by
  intro fuel
  induction fuel with
  | zero =>
    intro rpt cnt flags s r hs h
    simp only [shake_loop] at h
    split at h
    · exact absurd h (by simp)
    · simp only [Except.ok.injEq] at h
      subst h
      exact hs
  | succ fuel ih =>
    intro rpt cnt flags s r hs h
    simp only [shake_loop] at h
    split at h
    · split at h
      · exact absurd h (by simp)
      · rename_i s' rpt' hbody
        exact ih _ _ _ s' r (hb _ _ _ hs hbody) h
    · simp only [Except.ok.injEq] at h
      subst h
      exact hs

theorem fields_post {β : Type} (g : Particle → β) (s : State) (e : RuntimeError) :
    (s.post e).fields g = s.fields g := rfl

theorem fields_halo {β : Type} (g : Particle → β)
    (h : List Cell × List Cell → List Cell × List Cell) (hk : Halo_keeps g h) (s : State) :
    (s.halo h).fields g = s.fields g := hk (s.local_cells, s.ghost_cells)

theorem fields_init_correction_vector {β : Type} (g : Particle → β)
    (hg : ∀ q f, g { q with f := f } = g q) (s : State) :
    (init_correction_vector s).fields g = s.fields g := by
  simp [init_correction_vector, State.fields, field_of_for_each, hg]

theorem fields_apply_vel_corr {β : Type} (g : Particle → β)
    (hg : ∀ q v, g { q with v := v } = g q) (s : State) :
    (apply_vel_corr s).fields g = s.fields g := by
  simp [apply_vel_corr, State.fields, field_of_for_each, hg]

theorem fields_vel_corr_bond {β : Type} (g : Particle → β)
    (hg : ∀ q f, g { q with f := f } = g q) (env : Env) (p1 : Ref)
    (ia : Bonded_ia_parameters) (p2 : Ref) (s s' : State)
    (h : vel_corr_bond env p1 ia p2 s = .ok s') : s'.fields g = s.fields g := by
  simp only [vel_corr_bond, bind, Except.bind, pure, Except.pure] at h
  split at h
  · exact absurd h (by simp)
  · split at h
    · exact absurd h (by simp)
    · split at h
      · exact absurd h (by simp)
      · split at h
        · exact absurd h (by simp)
        · simp only [Except.ok.injEq] at h
          subst h
          rw [fields_update g _ (fun q => hg q _), fields_update g _ (fun q => hg q _)]

theorem fields_compute_vel_corr_vec {β : Type} (g : Particle → β)
    (hg : ∀ q f, g { q with f := f } = g q) (env : Env) (s s' : State)
    (h : compute_vel_corr_vec env s = .ok s') : s'.fields g = s.fields g := by
  unfold compute_vel_corr_vec at h
  split at h
  · exact absurd h (by simp)
  · rename_i fl hfl
    simp only [Except.ok.injEq] at h
    subst h
    exact local_bond_loop_inv (fun t => t.fields g = s.fields g) env id _ _
      (fun e t ht => (fields_post g t e).trans ht)
      (fun p1 ia p2 t t' ht htt => (fields_vel_corr_bond g hg env p1 ia p2 t t' htt).trans ht)
      s fl rfl hfl

theorem cells_local_bond_loop_check (env : Env)
    (rigid : Ref → Bonded_ia_parameters → Ref → State × Bool → Except Fault (State × Bool))
    (hr : ∀ p1 ia p2 sr sr', rigid p1 ia p2 sr = .ok sr' → sr'.1 = sr.1)
    (s : State) (fl : Flow (State × Bool))
    (h : local_bond_loop env Prod.fst (fun e sr => (sr.1.post e, sr.2)) rigid (s, false) = .ok fl) :
    fl.val.1.local_cells = s.local_cells ∧ fl.val.1.ghost_cells = s.ghost_cells ∧
      fl.val.1.rebuild_verletlist = s.rebuild_verletlist :=
  local_bond_loop_inv
    (fun t : State × Bool => t.1.local_cells = s.local_cells ∧
      t.1.ghost_cells = s.ghost_cells ∧
      t.1.rebuild_verletlist = s.rebuild_verletlist) env Prod.fst
    (fun e sr => (sr.1.post e, sr.2)) rigid
    (fun _ _ ht => ht)
    (fun p1 ia p2 t t' ht htt => by
      show t'.1.local_cells = _ ∧ t'.1.ghost_cells = _ ∧ t'.1.rebuild_verletlist = _
      rw [hr p1 ia p2 t t' htt]; exact ht)
    (s, false) fl ⟨rfl, rfl, rfl⟩ h

theorem tol_vel_bond_state (env : Env) (p1 : Ref) (ia : Bonded_ia_parameters) (p2 : Ref)
    (sr sr' : State × Bool) (h : tol_vel_bond env p1 ia p2 sr = .ok sr') : sr'.1 = sr.1 := by
  simp only [tol_vel_bond, bind, Except.bind, pure, Except.pure] at h
  split at h
  · exact absurd h (by simp)
  · split at h
    · exact absurd h (by simp)
    · simp only [Except.ok.injEq] at h
      subst h
      rfl

theorem tol_pos_bond_state (env : Env) (p1 : Ref) (ia : Bonded_ia_parameters) (p2 : Ref)
    (sr sr' : State × Bool) (h : tol_pos_bond env p1 ia p2 sr = .ok sr') : sr'.1 = sr.1 := by
  simp only [tol_pos_bond, bind, Except.bind, pure, Except.pure] at h
  split at h
  · exact absurd h (by simp)
  · split at h
    · exact absurd h (by simp)
    · split at h
      · exact absurd h (by simp)
      · simp only [Except.ok.injEq] at h
        subst h
        rfl

/-- The function `check_tol_vel` writes nothing but the error sink. -/
theorem check_tol_vel_cells (env : Env) (s : State) (r : State × Bool)
    (h : check_tol_vel env s = .ok r) :
    r.1.local_cells = s.local_cells ∧ r.1.ghost_cells = s.ghost_cells ∧
      r.1.rebuild_verletlist = s.rebuild_verletlist := by
  unfold check_tol_vel at h
  split at h
  · exact absurd h (by simp)
  · rename_i sr hfl
    simp only [Except.ok.injEq] at h
    subst h
    exact cells_local_bond_loop_check env _ (tol_vel_bond_state env) s _ hfl
  · rename_i sr hfl
    simp only [Except.ok.injEq] at h
    subst h
    exact cells_local_bond_loop_check env _ (tol_vel_bond_state env) s _ hfl

/-- The function `check_tol_pos` writes nothing but the error sink. -/
theorem check_tol_pos_cells (env : Env) (s : State) (r : State × Bool)
    (h : check_tol_pos env s = .ok r) :
    r.1.local_cells = s.local_cells ∧ r.1.ghost_cells = s.ghost_cells ∧
      r.1.rebuild_verletlist = s.rebuild_verletlist := by
  unfold check_tol_pos at h
  split at h
  · exact absurd h (by simp)
  · rename_i sr hfl
    simp only [Except.ok.injEq] at h
    subst h
    exact cells_local_bond_loop_check env _ (tol_pos_bond_state env) s _ hfl
  · rename_i sr hfl
    simp only [Except.ok.injEq] at h
    subst h
    exact cells_local_bond_loop_check env _ (tol_pos_bond_state env) s _ hfl

theorem fields_vel_iteration {β : Type} (g : Particle → β)
    (hgf : ∀ q f, g { q with f := f } = g q) (hgv : ∀ q v, g { q with v := v } = g q)
    (env : Env) (hcol : Halo_keeps g env.collect_ghost_force)
    (hupd : Halo_keeps g env.update_ghost_pos) (cnt : Nat) (s : State) (r : State × Bool)
    (h : vel_iteration env cnt s = .ok r) : r.1.fields g = s.fields g := by
  simp only [vel_iteration, bind, Except.bind, pure, Except.pure] at h
  split at h
  · exact absurd h (by simp)
  · rename_i s2 h2
    split at h
    · exact absurd h (by simp)
    · rename_i r6 h6
      simp only [Except.ok.injEq] at h
      subst h
      have hc := check_tol_vel_cells env _ _ h6
      have e1 : r6.1.fields g =
          (((apply_vel_corr (s2.halo env.collect_ghost_force)).halo env.update_ghost_pos)).fields g := by
        unfold State.fields
        rw [hc.1, hc.2.1]
      show r6.1.fields g = s.fields g
      rw [e1, fields_halo g _ hupd, fields_apply_vel_corr g hgv, fields_halo g _ hcol,
        fields_compute_vel_corr_vec g hgf env _ _ h2, fields_init_correction_vector g hgf]

theorem shake_loop_cnt_le (body : Nat → State → Except Fault (State × Bool)) (max_it : Nat) :
    ∀ (fuel : Nat) (rpt : Bool) (cnt : Nat) (flags : List Bool) (s : State) (r : ShakeResult),
      cnt ≤ max_it → shake_loop body max_it fuel rpt cnt flags s = .ok r → r.cnt ≤ max_it := by
  intro fuel
  induction fuel with
  | zero =>
    intro rpt cnt flags s r hc h
    simp only [shake_loop] at h
    split at h
    · exact absurd h (by simp)
    · simp only [Except.ok.injEq] at h
      subst h
      exact hc
  | succ fuel ih =>
    intro rpt cnt flags s r hc h
    simp only [shake_loop] at h
    split at h
    · rename_i hg
      simp only [Bool.and_eq_true, decide_eq_true_eq] at hg
      split at h
      · exact absurd h (by simp)
      · exact ih _ _ _ _ r (by omega) h
    · simp only [Except.ok.injEq] at h
      subst h
      exact hc

theorem fields_vel_loop {β : Type} (g : Particle → β)
    (hgf : ∀ q f, g { q with f := f } = g q) (hgv : ∀ q v, g { q with v := v } = g q)
    (env : Env) (hcol : Halo_keeps g env.collect_ghost_force)
    (hupd : Halo_keeps g env.update_ghost_pos) (fuel : Nat) (rpt : Bool) (cnt : Nat)
    (flags : List Bool) (s : State) (r : ShakeResult)
    (h : shake_loop (vel_iteration env) env.SHAKE_MAX_ITERATIONS fuel rpt cnt flags s = .ok r) :
    r.state.fields g = s.fields g :=
  shake_loop_inv (fun t : State => t.fields g = s.fields g) (vel_iteration env) _
    (fun c t t' ht htt => (fields_vel_iteration g hgf hgv env hcol hupd c t t' htt).trans ht)
    fuel rpt cnt flags s r rfl h

theorem fields_f_revert_force (s : State) :
    (revert_force s).fields Particle.f = s.fields Particle.p_old := by
  simp [revert_force, State.fields, field_of_for_each]

theorem fields_p_old_transfer (s : State) :
    (transfer_force_init_vel s).fields Particle.p_old = s.fields Particle.f := by
  simp [transfer_force_init_vel, State.fields, field_of_for_each]

/-- C7 (snapshot idempotence): `save_old_pos` run twice gives the state of one
run; in it `p_old = p` for every local and every ghost particle, and `p`, `v`,
`f` of every particle are what they were before the call. -/
theorem save_old_pos_idempotent (s : State) :
    save_old_pos (save_old_pos s) = save_old_pos s ∧
    (∀ cell ∈ (save_old_pos s).local_cells ++ (save_old_pos s).ghost_cells,
        ∀ pt ∈ cell, pt.p_old = pt.p) ∧
    (save_old_pos s).fields (fun pt => (pt.p, pt.v, pt.f)) =
      s.fields (fun pt => (pt.p, pt.v, pt.f)) := by
  refine ⟨?_, ?_, ?_⟩
  · simp [save_old_pos, for_each, List.map_map, Function.comp_def]
  · intro cell hcell pt hpt
    simp only [save_old_pos, for_each, List.mem_append, List.mem_map] at hcell
    rcases hcell with ⟨c0, _, rfl⟩ | ⟨c0, _, rfl⟩ <;>
    · simp only [List.mem_map] at hpt
      obtain ⟨q, _, rfl⟩ := hpt
      rfl
  · simp [save_old_pos, State.fields, field_of_for_each]

/-- C1 (force preservation): when the halo exchanges do not write `p_old` and
`correct_vel_shake` leaves its loop before the bound, then on return `f` of
every local and every ghost particle is what it was just before the call. -/
theorem correct_vel_shake_restores_force (env : Env) (s : State) (r : VelResult)
    (hcol : Halo_keeps Particle.p_old env.collect_ghost_force)
    (hupd : Halo_keeps Particle.p_old env.update_ghost_pos)
    (h : correct_vel_shake env s = .ok r)
    (hconv : r.run.cnt < env.SHAKE_MAX_ITERATIONS) :
    r.fatal = false ∧ r.run.state.fields Particle.f = s.fields Particle.f := by
  unfold correct_vel_shake at h
  split at h
  · exact absurd h (by simp)
  · rename_i r0 h0
    split at h
    · rename_i hge
      simp only [Except.ok.injEq] at h
      subst h
      exact absurd hconv (by simpa using hge)
    · simp only [Except.ok.injEq] at h
      subst h
      refine ⟨rfl, ?_⟩
      show (revert_force r0.state).fields Particle.f = s.fields Particle.f
      rw [fields_f_revert_force,
        fields_vel_loop Particle.p_old (fun _ _ => rfl) (fun _ _ => rfl) env hcol hupd _ _ _ _ _ _ h0,
        fields_p_old_transfer]

/-- Witness for C1: scenario S3 with forces `(1,2,3)` and `(4,5,6)`. -/
theorem correct_vel_shake_restores_force_witness :
    correct_vel_shake s3_env s3_state = .ok ⟨⟨s3_after, 1, false, [false]⟩, false⟩ ∧
    s3_after.fields Particle.f = s3_state.fields Particle.f :=
  ⟨by decide!,
    (correct_vel_shake_restores_force s3_env s3_state ⟨⟨s3_after, 1, false, [false]⟩, false⟩
      (fun _ => rfl) (fun _ => rfl) (by decide!) (by decide)).2⟩

theorem for_loop_fuel {σ : Type} (body : Nat → σ → Except Fault (Flow σ))
    (hb : ∀ i s, body i s ≠ .error .out_of_fuel) :
    ∀ (n i : Nat) (s : σ), for_loop body n i s ≠ .error .out_of_fuel := by
  intro n
  induction n with
  | zero => intro i s; simp [for_loop]
  | succ n ih =>
    intro i s
    simp only [for_loop]
    split
    · rename_i e he
      intro hc
      simp only [Except.error.injEq] at hc
      subst hc
      exact hb i s he
    · simp
    · exact ih _ _

theorem bond_walk_fuel {σ : Type} (env : Env) (identity : Int) (bl : List Int)
    (broken : RuntimeError → σ → σ)
    (rigid : Bonded_ia_parameters → Ref → σ → Except Fault σ)
    (hr : ∀ ia p2 s, rigid ia p2 s ≠ .error .out_of_fuel) :
    ∀ (fuel k : Nat) (s : σ), bl.length ≤ fuel + k →
      bond_walk env identity bl broken rigid fuel k s ≠ .error .out_of_fuel := by
  intro fuel
  induction fuel with
  | zero =>
    intro k s hk
    simp only [bond_walk]
    split
    · omega
    · simp
  | succ fuel ih =>
    intro k s hk
    simp only [bond_walk]
    split
    · split
      · rename_i e he
        simp only [read_bl] at he
        split at he
        · simp only [Except.error.injEq] at he; subst he; simp
        · simp at he
      · split
        · rename_i e he
          simp only [read_ia] at he
          split at he
          · simp only [Except.error.injEq] at he; subst he; simp
          · split at he
            · simp only [Except.error.injEq] at he; subst he; simp
            · simp at he
        · split
          · split
            · rename_i e he
              simp only [read_bl] at he
              split at he
              · simp only [Except.error.injEq] at he; subst he; simp
              · simp at he
            · split
              · simp
              · split
                · rename_i e he
                  intro hc
                  simp only [Except.error.injEq] at hc
                  subst hc
                  exact hr _ _ _ he
                · exact ih _ _ (by omega)
          · exact ih _ _ (by omega)
    · simp

theorem deref_fuel (s : State) (r : Ref) : s.deref r ≠ .error .out_of_fuel := by
  unfold State.deref
  split
  · simp
  · split <;> simp

theorem local_bond_loop_fuel {σ : Type} (env : Env) (st : σ → State)
    (broken : RuntimeError → σ → σ)
    (rigid : Ref → Bonded_ia_parameters → Ref → σ → Except Fault σ)
    (hr : ∀ p1 ia p2 s, rigid p1 ia p2 s ≠ .error .out_of_fuel) (s : σ) :
    local_bond_loop env st broken rigid s ≠ .error .out_of_fuel := by
  unfold local_bond_loop
  refine for_loop_fuel _ ?_ _ _ _
  intro c s1
  unfold cell_walk
  split
  · simp
  · refine for_loop_fuel _ ?_ _ _ _
    intro i s2
    unfold particle_walk
    split
    · rename_i e he
      intro hc
      simp only [Except.error.injEq] at hc
      subst hc
      exact deref_fuel _ _ he
    · exact bond_walk_fuel env _ _ broken _ (hr _) _ _ _ (by omega)

theorem fdiv_fuel (a b : ℚ) : fdiv a b ≠ .error .out_of_fuel := by
  unfold fdiv
  split <;> simp

theorem bind_fuel {α β : Type} (x : Except Fault α) (f : α → Except Fault β)
    (hx : x ≠ .error .out_of_fuel) (hf : ∀ a, f a ≠ .error .out_of_fuel) :
    (x >>= f) ≠ .error .out_of_fuel := by
  cases x with
  | error e =>
    intro hc
    simp only [bind, Except.bind, Except.error.injEq] at hc
    subst hc
    exact hx rfl
  | ok a => exact hf a

theorem pos_corr_bond_fuel (env : Env) (p1 : Ref) (ia : Bonded_ia_parameters) (p2 : Ref)
    (s : State) : pos_corr_bond env p1 ia p2 s ≠ .error .out_of_fuel := by
  unfold pos_corr_bond
  refine bind_fuel _ _ (deref_fuel _ _) (fun P1 => ?_)
  refine bind_fuel _ _ (deref_fuel _ _) (fun P2 => ?_)
  refine bind_fuel _ _ (fdiv_fuel _ _) (fun G => ?_)
  refine bind_fuel _ _ (fdiv_fuel _ _) (fun G2 => ?_)
  simp [pure, Except.pure]

theorem vel_corr_bond_fuel (env : Env) (p1 : Ref) (ia : Bonded_ia_parameters) (p2 : Ref)
    (s : State) : vel_corr_bond env p1 ia p2 s ≠ .error .out_of_fuel := by
  unfold vel_corr_bond
  refine bind_fuel _ _ (deref_fuel _ _) (fun P1 => ?_)
  refine bind_fuel _ _ (deref_fuel _ _) (fun P2 => ?_)
  refine bind_fuel _ _ (fdiv_fuel _ _) (fun G => ?_)
  refine bind_fuel _ _ (fdiv_fuel _ _) (fun G2 => ?_)
  simp [pure, Except.pure]

theorem tol_pos_bond_fuel (env : Env) (p1 : Ref) (ia : Bonded_ia_parameters) (p2 : Ref)
    (sr : State × Bool) : tol_pos_bond env p1 ia p2 sr ≠ .error .out_of_fuel := by
  unfold tol_pos_bond
  refine bind_fuel _ _ (deref_fuel _ _) (fun P1 => ?_)
  refine bind_fuel _ _ (deref_fuel _ _) (fun P2 => ?_)
  refine bind_fuel _ _ (fdiv_fuel _ _) (fun G => ?_)
  simp [pure, Except.pure]

theorem tol_vel_bond_fuel (env : Env) (p1 : Ref) (ia : Bonded_ia_parameters) (p2 : Ref)
    (sr : State × Bool) : tol_vel_bond env p1 ia p2 sr ≠ .error .out_of_fuel := by
  unfold tol_vel_bond
  refine bind_fuel _ _ (deref_fuel _ _) (fun P1 => ?_)
  refine bind_fuel _ _ (deref_fuel _ _) (fun P2 => ?_)
  simp [pure, Except.pure]

theorem compute_pos_corr_vec_fuel (env : Env) (s : State) :
    compute_pos_corr_vec env s ≠ .error .out_of_fuel := by
  unfold compute_pos_corr_vec
  split
  · rename_i e he
    intro hc
    simp only [Except.error.injEq] at hc
    subst hc
    exact local_bond_loop_fuel env _ _ _ (pos_corr_bond_fuel env) s he
  · simp

theorem compute_vel_corr_vec_fuel (env : Env) (s : State) :
    compute_vel_corr_vec env s ≠ .error .out_of_fuel := by
  unfold compute_vel_corr_vec
  split
  · rename_i e he
    intro hc
    simp only [Except.error.injEq] at hc
    subst hc
    exact local_bond_loop_fuel env _ _ _ (vel_corr_bond_fuel env) s he
  · simp

theorem check_tol_pos_fuel (env : Env) (s : State) :
    check_tol_pos env s ≠ .error .out_of_fuel := by
  unfold check_tol_pos
  split
  · rename_i e he
    intro hc
    simp only [Except.error.injEq] at hc
    subst hc
    exact local_bond_loop_fuel env _ _ _ (tol_pos_bond_fuel env) _ he
  · simp
  · simp

theorem check_tol_vel_fuel (env : Env) (s : State) :
    check_tol_vel env s ≠ .error .out_of_fuel := by
  unfold check_tol_vel
  split
  · rename_i e he
    intro hc
    simp only [Except.error.injEq] at hc
    subst hc
    exact local_bond_loop_fuel env _ _ _ (tol_vel_bond_fuel env) _ he
  · simp
  · simp

theorem pos_iteration_fuel (env : Env) (cnt : Nat) (s : State) :
    pos_iteration env cnt s ≠ .error .out_of_fuel := by
  unfold pos_iteration
  refine bind_fuel _ _ (compute_pos_corr_vec_fuel _ _) (fun s2 => ?_)
  refine bind_fuel _ _ (check_tol_pos_fuel _ _) (fun r => ?_)
  simp [pure, Except.pure]

theorem vel_iteration_fuel (env : Env) (cnt : Nat) (s : State) :
    vel_iteration env cnt s ≠ .error .out_of_fuel := by
  unfold vel_iteration
  refine bind_fuel _ _ (compute_vel_corr_vec_fuel _ _) (fun s2 => ?_)
  refine bind_fuel _ _ (check_tol_vel_fuel _ _) (fun r => ?_)
  simp [pure, Except.pure]

theorem shake_loop_fuel (body : Nat → State → Except Fault (State × Bool)) (max_it : Nat)
    (hb : ∀ cnt s, body cnt s ≠ .error .out_of_fuel) :
    ∀ (fuel : Nat) (rpt : Bool) (cnt : Nat) (flags : List Bool) (s : State),
      max_it ≤ fuel + cnt →
      shake_loop body max_it fuel rpt cnt flags s ≠ .error .out_of_fuel := by
  intro fuel
  induction fuel with
  | zero =>
    intro rpt cnt flags s hm
    simp only [shake_loop]
    split
    · rename_i hg
      simp only [Bool.and_eq_true, decide_eq_true_eq] at hg
      omega
    · simp
  | succ fuel ih =>
    intro rpt cnt flags s hm
    simp only [shake_loop]
    split
    · split
      · rename_i e he
        intro hc
        simp only [Except.error.injEq] at hc
        subst hc
        exact hb _ _ he
      · exact ih _ _ _ _ (by omega)
    · simp

/-- What the loop of a corrector leaves in its locals: the flags it appended,
one per pass; `repeat` is the last of them; the loop is left with `repeat`
cleared or with the bound reached. -/
theorem shake_loop_spec (body : Nat → State → Except Fault (State × Bool)) (max_it : Nat) :
    ∀ (fuel : Nat) (rpt : Bool) (cnt : Nat) (flags : List Bool) (s : State) (r : ShakeResult),
      shake_loop body max_it fuel rpt cnt flags s = .ok r →
      ∃ new : List Bool, r.flags = flags ++ new ∧ r.cnt = cnt + new.length ∧
        r.rpt = new.getLastD rpt ∧ (r.rpt = false ∨ max_it ≤ r.cnt) ∧
        (rpt = true → cnt < max_it → new ≠ []) := by
  intro fuel
  induction fuel with
  | zero =>
    intro rpt cnt flags s r h
    simp only [shake_loop] at h
    split at h
    · exact absurd h (by simp)
    · rename_i hg
      simp only [Except.ok.injEq] at h
      subst h
      simp only [Bool.and_eq_true, decide_eq_true_eq, not_and] at hg
      refine ⟨[], by simp, by simp, by simp, ?_, ?_⟩
      · cases rpt
        · exact Or.inl rfl
        · exact Or.inr (Nat.le_of_not_lt (hg rfl))
      · intro h1 h2
        exact absurd h2 (hg h1)
  | succ fuel ih =>
    intro rpt cnt flags s r h
    simp only [shake_loop] at h
    split at h
    · split at h
      · exact absurd h (by simp)
      · rename_i s' rpt' hbody
        obtain ⟨new, h1, h2, h3, h4, _⟩ := ih _ _ _ _ r h
        refine ⟨rpt' :: new, by simp [h1], by simp [h2]; omega, ?_, h4, by simp⟩
        rw [h3]
        cases new <;> simp [List.getLastD]
    · rename_i hg
      simp only [Except.ok.injEq] at h
      subst h
      simp only [Bool.and_eq_true, decide_eq_true_eq, not_and] at hg
      refine ⟨[], by simp, by simp, by simp, ?_, ?_⟩
      · cases rpt
        · exact Or.inl rfl
        · exact Or.inr (Nat.le_of_not_lt (hg rfl))
      · intro h1 h2
        exact absurd h2 (hg h1)

/-- The locals of a corrector's loop started as in the source (`repeat = 1`,
`cnt = 0`) with a positive bound. -/
theorem shake_loop_run (body : Nat → State → Except Fault (State × Bool)) (max_it : Nat)
    (hmax : 0 < max_it) (fuel : Nat) (s : State) (r : ShakeResult)
    (h : shake_loop body max_it fuel true 0 [] s = .ok r) :
    1 ≤ r.cnt ∧ r.cnt ≤ max_it ∧ r.flags.length = r.cnt ∧
      r.rpt = r.flags.getLastD true ∧ (r.rpt = false ∨ r.cnt = max_it) := by
  obtain ⟨new, h1, h2, h3, h4, h5⟩ := shake_loop_spec body max_it fuel true 0 [] s r h
  have hle := shake_loop_cnt_le body max_it fuel true 0 [] s r (Nat.zero_le _) h
  have hne := h5 rfl hmax
  simp only [List.nil_append] at h1
  subst h1
  have hlen : 0 < r.flags.length := List.length_pos.mpr hne
  refine ⟨by omega, hle, by omega, h3, ?_⟩
  rcases h4 with h4 | h4
  · exact Or.inl h4
  · exact Or.inr (by omega)

/-- C4 (iteration bound): with a positive `SHAKE_MAX_ITERATIONS` neither
corrector runs out of steps; a run of `correct_pos_shake` or of
`correct_vel_shake` makes at least one and at most `SHAKE_MAX_ITERATIONS`
passes, one reduced flag per pass; and when every reduced flag is 1 it makes
exactly `SHAKE_MAX_ITERATIONS` passes and raises its error: the last message
in the sink for positions, the fatal exit for velocities. -/
theorem shake_iteration_bound (env : Env) (s : State) (hmax : 0 < env.SHAKE_MAX_ITERATIONS) :
    correct_pos_shake env s ≠ .error .out_of_fuel ∧
    correct_vel_shake env s ≠ .error .out_of_fuel ∧
    (∀ r, correct_pos_shake env s = .ok r →
      1 ≤ r.cnt ∧ r.cnt ≤ env.SHAKE_MAX_ITERATIONS ∧ r.flags.length = r.cnt ∧
      ((∀ b ∈ r.flags, b = true) →
        r.cnt = env.SHAKE_MAX_ITERATIONS ∧
        ∃ t, r.state.errors = t ++ [.rattle_failed env.SHAKE_MAX_ITERATIONS])) ∧
    (∀ r, correct_vel_shake env s = .ok r →
      1 ≤ r.run.cnt ∧ r.run.cnt ≤ env.SHAKE_MAX_ITERATIONS ∧ r.run.flags.length = r.run.cnt ∧
      ((∀ b ∈ r.run.flags, b = true) →
        r.run.cnt = env.SHAKE_MAX_ITERATIONS ∧ r.fatal = true)) := by
  have key : ∀ r : ShakeResult, 1 ≤ r.cnt → r.flags.length = r.cnt →
      r.rpt = r.flags.getLastD true → (r.rpt = false ∨ r.cnt = env.SHAKE_MAX_ITERATIONS) →
      (∀ b ∈ r.flags, b = true) → r.cnt = env.SHAKE_MAX_ITERATIONS := by
    intro r h1 h2 h3 h4 hall
    rcases h4 with h4 | h4
    · have hne : r.flags ≠ [] := List.length_pos.mp (by omega)
      have hlast := hall _ (List.getLast_mem hne)
      rw [List.getLastD_eq_getLast?, List.getLast?_eq_getLast _ hne] at h3
      simp only [Option.getD_some] at h3
      rw [h3, hlast] at h4
      exact absurd h4 (by simp)
    · exact h4
  refine ⟨?_, ?_, ?_, ?_⟩
  · unfold correct_pos_shake
    split
    · rename_i e he
      intro hc
      simp only [Except.error.injEq] at hc
      subst hc
      exact shake_loop_fuel _ _ (pos_iteration_fuel env) _ _ _ _ _ (by omega) he
    · split <;> simp
  · unfold correct_vel_shake
    split
    · rename_i e he
      intro hc
      simp only [Except.error.injEq] at hc
      subst hc
      exact shake_loop_fuel _ _ (vel_iteration_fuel env) _ _ _ _ _ (by omega) he
    · split <;> simp
  · intro r h
    unfold correct_pos_shake at h
    split at h
    · exact absurd h (by simp)
    · rename_i r0 h0
      obtain ⟨h1, h2, h3, h4, h5⟩ := shake_loop_run _ _ hmax _ _ _ h0
      split at h
      · simp only [Except.ok.injEq] at h
        subst h
        refine ⟨h1, h2, h3, fun hall => ?_⟩
        have hc := key r0 h1 h3 h4 h5 hall
        exact ⟨hc, r0.state.errors, by simp [State.post, hc]⟩
      · rename_i hlt
        simp only [Except.ok.injEq] at h
        subst h
        refine ⟨h1, h2, h3, fun hall => ?_⟩
        have hc := key r0 h1 h3 h4 h5 hall
        exact absurd (Nat.le_of_eq hc.symm) hlt
  · intro r h
    unfold correct_vel_shake at h
    split at h
    · exact absurd h (by simp)
    · rename_i r0 h0
      obtain ⟨h1, h2, h3, h4, h5⟩ := shake_loop_run _ _ hmax _ _ _ h0
      split at h
      · simp only [Except.ok.injEq] at h
        subst h
        exact ⟨h1, h2, h3, fun hall => ⟨key r0 h1 h3 h4 h5 hall, rfl⟩⟩
      · rename_i hlt
        simp only [Except.ok.injEq] at h
        subst h
        refine ⟨h1, h2, h3, fun hall => ?_⟩
        have hc := key r0 h1 h3 h4 h5 hall
        exact absurd (Nat.le_of_eq hc.symm) hlt

/-- Witness for C4: the stretched dumbbell under a bound of one pass. -/
theorem shake_iteration_bound_witness :
    0 < (scenario_env 1 (1 / 1000000) (1 / 1000000) 1).SHAKE_MAX_ITERATIONS ∧
    correct_vel_shake (scenario_env 1 (1 / 1000000) (1 / 1000000) 1) stretched_state =
      .ok ⟨⟨stretched_exit, 1, true, [true]⟩, true⟩ ∧
    (1 = (scenario_env 1 (1 / 1000000) (1 / 1000000) 1).SHAKE_MAX_ITERATIONS ∧ true = true) :=
  ⟨by decide, by decide!,
    ((shake_iteration_bound (scenario_env 1 (1 / 1000000) (1 / 1000000) 1) stretched_state
      (by decide)).2.2.2 ⟨⟨stretched_exit, 1, true, [true]⟩, true⟩ (by decide!)).2.2.2
      (by decide)⟩

/-! ## The convergence tests and the listed rigid bonds -/

theorem tupleFrom_head (env : Env) (bl : List Int) (k0 k : Nat) (h : TupleFrom env bl k0 k) :
    k = k0 ∨ ∃ ia, entry_at env bl k0 = some ia ∧ TupleFrom env bl (k0 + entry_len env ia) k := by
  induction h with
  | start => exact Or.inl rfl
  | next hk he ih =>
    rename_i k1 ia1
    rcases ih with rfl | ⟨ia0, h0, hrest⟩
    · exact Or.inr ⟨ia1, he, TupleFrom.start⟩
    · exact Or.inr ⟨ia0, h0, TupleFrom.next hrest he⟩

theorem rigid_bond_from_head (env : Env) (bl : List Int) (k0 : Nat)
    (ia : Bonded_ia_parameters) (j : Int) (h : Rigid_bond_from env bl k0 ia j) :
    (entry_at env bl k0 = some ia ∧ ia.type = env.BONDED_IA_RIGID_BOND ∧ bl[k0 + 1]? = some j) ∨
    ∃ ia0, entry_at env bl k0 = some ia0 ∧ Rigid_bond_from env bl (k0 + entry_len env ia0) ia j := by
  obtain ⟨k, hk, he, ht, hj⟩ := h
  rcases tupleFrom_head env bl k0 k hk with rfl | ⟨ia0, h0, hrest⟩
  · exact Or.inl ⟨he, ht, hj⟩
  · exact Or.inr ⟨ia0, h0, k, hrest, he, ht, hj⟩

theorem entry_at_of_reads (env : Env) (bl : List Int) (k : Nat) (id : Int)
    (ia : Bonded_ia_parameters) (h1 : read_bl bl k = .ok id) (h2 : read_ia env id = .ok ia) :
    entry_at env bl k = some ia := by
  unfold read_bl at h1
  unfold entry_at
  split at h1
  · exact absurd h1 (by simp)
  · rename_i e he
    simp only [Except.ok.injEq] at h1
    subst h1
    simp only [h2]

theorem read_bl_some (bl : List Int) (k : Nat) (j : Int) (h : read_bl bl k = .ok j) :
    bl[k]? = some j := by
  unfold read_bl at h
  split at h
  · exact absurd h (by simp)
  · rename_i e he
    simp only [Except.ok.injEq] at h
    subst h
    exact he

theorem entry_at_none (env : Env) (bl : List Int) (k : Nat) (h : ¬ k < bl.length) :
    entry_at env bl k = none := by
  unfold entry_at
  rw [List.getElem?_eq_none (Nat.le_of_not_lt h)]

/-- The last pass of a loop that made at least one: its body produced the
state and the flag the loop is left with. -/
theorem shake_loop_last (body : Nat → State → Except Fault (State × Bool)) (max_it : Nat) :
    ∀ (fuel : Nat) (rpt : Bool) (cnt : Nat) (flags : List Bool) (s : State) (r : ShakeResult),
      shake_loop body max_it fuel rpt cnt flags s = .ok r →
      (r.state = s ∧ r.cnt = cnt ∧ r.rpt = rpt) ∨
        ∃ c s0, body c s0 = .ok (r.state, r.rpt) ∧ r.cnt = c + 1 := by
  intro fuel
  induction fuel with
  | zero =>
    intro rpt cnt flags s r h
    simp only [shake_loop] at h
    split at h
    · exact absurd h (by simp)
    · simp only [Except.ok.injEq] at h
      subst h
      exact Or.inl ⟨rfl, rfl, rfl⟩
  | succ fuel ih =>
    intro rpt cnt flags s r h
    simp only [shake_loop] at h
    split at h
    · split at h
      · exact absurd h (by simp)
      · rename_i s' rpt' hbody
        rcases ih _ _ _ _ r h with ⟨h1, h2, h3⟩ | h4
        · exact Or.inr ⟨cnt, s, by rw [h1, h3]; exact hbody, h2⟩
        · exact Or.inr h4
    · simp only [Except.ok.injEq] at h
      subst h
      exact Or.inl ⟨rfl, rfl, rfl⟩

/-! ## The error sink only grows -/

theorem errors_update (s : State) (r : Ref) (g : Particle → Particle) :
    (s.update r g).errors = s.errors := by
  unfold State.update
  split <;> rfl

theorem errors_pos_corr_bond (env : Env) (p1 : Ref) (ia : Bonded_ia_parameters) (p2 : Ref)
    (s s' : State) (h : pos_corr_bond env p1 ia p2 s = .ok s') : s'.errors = s.errors := by
  simp only [pos_corr_bond, bind, Except.bind, pure, Except.pure] at h
  split at h
  · exact absurd h (by simp)
  · split at h
    · exact absurd h (by simp)
    · split at h
      · exact absurd h (by simp)
      · split at h
        · exact absurd h (by simp)
        · simp only [Except.ok.injEq] at h
          subst h
          rw [errors_update, errors_update]

theorem errors_vel_corr_bond (env : Env) (p1 : Ref) (ia : Bonded_ia_parameters) (p2 : Ref)
    (s s' : State) (h : vel_corr_bond env p1 ia p2 s = .ok s') : s'.errors = s.errors := by
  simp only [vel_corr_bond, bind, Except.bind, pure, Except.pure] at h
  split at h
  · exact absurd h (by simp)
  · split at h
    · exact absurd h (by simp)
    · split at h
      · exact absurd h (by simp)
      · split at h
        · exact absurd h (by simp)
        · simp only [Except.ok.injEq] at h
          subst h
          rw [errors_update, errors_update]

theorem errors_compute_vel_corr_vec (env : Env) (s s' : State)
    (h : compute_vel_corr_vec env s = .ok s') : s.errors.length ≤ s'.errors.length := by
  unfold compute_vel_corr_vec at h
  split at h
  · exact absurd h (by simp)
  · rename_i fl hfl
    simp only [Except.ok.injEq] at h
    subst h
    exact local_bond_loop_inv (fun t : State => s.errors.length ≤ t.errors.length) env id _ _
      (fun e t ht => by
        show s.errors.length ≤ (t.errors ++ [e]).length
        rw [List.length_append]
        exact Nat.le_trans ht (Nat.le_add_right _ _))
      (fun p1 ia p2 t t' ht htt => by
        show s.errors.length ≤ t'.errors.length
        rw [errors_vel_corr_bond env p1 ia p2 t t' htt]
        exact ht)
      s fl (Nat.le_refl _) hfl

theorem errors_check_tol_vel (env : Env) (s : State) (r : State × Bool)
    (h : check_tol_vel env s = .ok r) : s.errors.length ≤ r.1.errors.length := by
  have key : ∀ fl, local_bond_loop env Prod.fst (fun e sr => (sr.1.post e, sr.2))
      (tol_vel_bond env) (s, false) = .ok fl → s.errors.length ≤ fl.val.1.errors.length :=
    fun fl hfl =>
      local_bond_loop_inv (fun t : State × Bool => s.errors.length ≤ t.1.errors.length) env
        Prod.fst (fun e sr => (sr.1.post e, sr.2)) (tol_vel_bond env)
        (fun e t ht => by
          show s.errors.length ≤ (t.1.errors ++ [e]).length
          rw [List.length_append]
          exact Nat.le_trans ht (Nat.le_add_right _ _))
        (fun p1 ia p2 t t' ht htt => by
          show s.errors.length ≤ t'.1.errors.length
          rw [tol_vel_bond_state env p1 ia p2 t t' htt]
          exact ht)
        (s, false) fl (Nat.le_refl _) hfl
  unfold check_tol_vel at h
  split at h
  · exact absurd h (by simp)
  · rename_i sr hfl
    simp only [Except.ok.injEq] at h
    subst h
    exact key _ hfl
  · rename_i sr hfl
    simp only [Except.ok.injEq] at h
    subst h
    exact key _ hfl

theorem rigid_from_past_end (env : Env) (bl : List Int) (k : Nat) (ia : Bonded_ia_parameters)
    (j : Int) (hk : ¬ k < bl.length) : ¬ Rigid_bond_from env bl k ia j := by
  intro hb
  rcases rigid_bond_from_head env bl k ia j hb with ⟨he, _, _⟩ | ⟨ia0, he, _⟩ <;>
  · rw [entry_at_none env bl k hk] at he
    exact absurd he (by simp)

theorem tupleFrom_extend (env : Env) (bl : List Int) (k0 k1 k : Nat)
    (h0 : TupleFrom env bl k0 k1) (h : TupleFrom env bl k1 k) : TupleFrom env bl k0 k := by
  induction h with
  | start => exact h0
  | next _ he ih => exact TupleFrom.next ih he

theorem first_broken_from_listed (env : Env) (bl : List Int) (k : Nat) (j : Int)
    (h : First_broken_from env bl k j) :
    ∃ ia, Rigid_bond_from env bl k ia j ∧ env.local_particles j = none := by
  induction h with
  | here he ht hj hn => exact ⟨_, ⟨_, TupleFrom.start, he, ht, hj⟩, hn⟩
  | after_rigid he ht _ _ _ ih =>
    obtain ⟨ia, ⟨k', hk', hb⟩, hn⟩ := ih
    have h0 : TupleFrom env bl _ _ := TupleFrom.next TupleFrom.start he
    simp only [entry_len, ht, if_true] at h0
    exact ⟨ia, ⟨k', tupleFrom_extend env bl _ _ _ h0 hk', hb⟩, hn⟩
  | after_other he ht _ ih =>
    obtain ⟨ia, ⟨k', hk', hb⟩, hn⟩ := ih
    have h0 : TupleFrom env bl _ _ := TupleFrom.next TupleFrom.start he
    simp only [entry_len, ht, if_false, ← Nat.add_assoc] at h0
    exact ⟨ia, ⟨k', tupleFrom_extend env bl _ _ _ h0 hk', hb⟩, hn⟩

theorem first_broken_from_unique (env : Env) (bl : List Int) (k : Nat) (j1 j2 : Int)
    (h1 : First_broken_from env bl k j1) (h2 : First_broken_from env bl k j2) : j1 = j2 := by
  induction h1 with
  | here he ht hj hn =>
    cases h2 with
    | here he' ht' hj' hn' =>
      rw [hj] at hj'
      exact Option.some.inj hj'
    | after_rigid he' ht' hj' hp' _ =>
      rw [hj] at hj'
      have := Option.some.inj hj'
      subst this
      rw [hn] at hp'
      exact absurd hp' (by simp)
    | after_other he' ht' _ =>
      rw [he] at he'
      have := Option.some.inj he'
      subst this
      exact absurd ht ht'
  | after_rigid he ht hj hp _ ih =>
    cases h2 with
    | here he' ht' hj' hn' =>
      rw [hj] at hj'
      have := Option.some.inj hj'
      subst this
      rw [hn'] at hp
      exact absurd hp (by simp)
    | after_rigid he' ht' hj' hp' hrest => exact ih hrest
    | after_other he' ht' _ =>
      rw [he] at he'
      have := Option.some.inj he'
      subst this
      exact absurd ht ht'
  | after_other he ht _ ih =>
    cases h2 with
    | here he' ht' hj' hn' =>
      rw [he] at he'
      have := Option.some.inj he'
      subst this
      exact absurd ht' ht
    | after_rigid he' ht' hj' hp' hrest =>
      rw [he] at he'
      have := Option.some.inj he'
      subst this
      exact absurd ht' ht
    | after_other he' ht' hrest =>
      rw [he] at he'
      have := Option.some.inj he'
      subst this
      exact ih hrest

/-- A walk that ends in `return` has met the first broken bond of the list and
posted the message that names it. -/
theorem bond_walk_ret_first {σ : Type} (I : σ → Prop) (env : Env) (identity : Int)
    (bl : List Int) (broken : RuntimeError → σ → σ)
    (rigid : Bonded_ia_parameters → Ref → σ → Except Fault σ)
    (hr : ∀ ia p2 s s', I s → rigid ia p2 s = .ok s' → I s') :
    ∀ (fuel k : Nat) (s s' : σ), I s →
      bond_walk env identity bl broken rigid fuel k s = .ok (.ret s') →
      ∃ j s1, First_broken_from env bl k j ∧ I s1 ∧
        s' = broken (.rigid_bond_broken identity j) s1 := by
  intro fuel
  induction fuel with
  | zero =>
    intro k s s' _ h
    simp only [bond_walk] at h
    split at h <;> exact absurd h (by simp)
  | succ fuel ih =>
    intro k s s' hs h
    simp only [bond_walk] at h
    split at h
    · split at h
      · exact absurd h (by simp)
      · rename_i id hid
        split at h
        · exact absurd h (by simp)
        · rename_i ia0 hia
          have hent := entry_at_of_reads env bl k id ia0 hid hia
          split at h
          · rename_i hty
            split at h
            · exact absurd h (by simp)
            · rename_i j0 hj0
              split at h
              · rename_i hnone
                simp only [Except.ok.injEq, Flow.ret.injEq] at h
                exact ⟨j0, s, First_broken_from.here hent hty (read_bl_some bl _ _ hj0) hnone,
                  hs, h.symm⟩
              · rename_i p2 hp2
                split at h
                · exact absurd h (by simp)
                · rename_i s1 hrig
                  obtain ⟨j, s2, hfb, hi, he⟩ := ih _ _ _ (hr _ _ _ _ hs hrig) h
                  exact ⟨j, s2,
                    First_broken_from.after_rigid hent hty (read_bl_some bl _ _ hj0) hp2 hfb,
                    hi, he⟩
          · rename_i hty
            obtain ⟨j, s2, hfb, hi, he⟩ := ih _ _ _ hs h
            exact ⟨j, s2, First_broken_from.after_other hent hty hfb, hi, he⟩
    · exact absurd h (by simp)

/-- A walk that falls through has found every listed partner resolvable. -/
theorem bond_walk_next_resolved {σ : Type} (I : σ → Prop) (env : Env) (identity : Int)
    (bl : List Int) (broken : RuntimeError → σ → σ)
    (rigid : Bonded_ia_parameters → Ref → σ → Except Fault σ)
    (hr : ∀ ia p2 s s', I s → rigid ia p2 s = .ok s' → I s') :
    ∀ (fuel k : Nat) (s s' : σ), I s →
      bond_walk env identity bl broken rigid fuel k s = .ok (.next s') →
      I s' ∧ All_resolved_from env bl k := by
  intro fuel
  induction fuel with
  | zero =>
    intro k s s' hs h
    simp only [bond_walk] at h
    split at h
    · exact absurd h (by simp)
    · rename_i hk
      simp only [Except.ok.injEq, Flow.next.injEq] at h
      subst h
      exact ⟨hs, fun ia j hb => absurd hb (rigid_from_past_end env bl k ia j hk)⟩
  | succ fuel ih =>
    intro k s s' hs h
    simp only [bond_walk] at h
    split at h
    · split at h
      · exact absurd h (by simp)
      · rename_i id hid
        split at h
        · exact absurd h (by simp)
        · rename_i ia0 hia
          have hent := entry_at_of_reads env bl k id ia0 hid hia
          split at h
          · rename_i hty
            split at h
            · exact absurd h (by simp)
            · rename_i j0 hj0
              split at h
              · exact absurd h (by simp)
              · rename_i p2 hp2
                split at h
                · exact absurd h (by simp)
                · rename_i s1 hrig
                  obtain ⟨hi, hall⟩ := ih _ _ _ (hr _ _ _ _ hs hrig) h
                  refine ⟨hi, fun ia j hb => ?_⟩
                  rcases rigid_bond_from_head env bl k ia j hb with ⟨_, _, hj⟩ | ⟨ia1, he, hrest⟩
                  · rw [read_bl_some bl _ _ hj0] at hj
                    have := Option.some.inj hj
                    subst this
                    rw [hp2]
                    simp
                  · rw [hent] at he
                    have := Option.some.inj he
                    subst this
                    simp only [entry_len, hty, if_true] at hrest
                    exact hall ia j hrest
          · rename_i hty
            obtain ⟨hi, hall⟩ := ih _ _ _ hs h
            refine ⟨hi, fun ia j hb => ?_⟩
            rcases rigid_bond_from_head env bl k ia j hb with ⟨he, ht, _⟩ | ⟨ia1, he, hrest⟩
            · rw [hent] at he
              have := Option.some.inj he
              subst this
              exact absurd ht hty
            · rw [hent] at he
              have := Option.some.inj he
              subst this
              simp only [entry_len, hty, if_false, ← Nat.add_assoc] at hrest
              exact hall ia j hrest
    · rename_i hk
      simp only [Except.ok.injEq, Flow.next.injEq] at h
      subst h
      exact ⟨hs, fun ia j hb => absurd hb (rigid_from_past_end env bl k ia j hk)⟩

theorem for_loop_ret_first {σ : Type} (I : σ → Prop) (H : Nat → Prop)
    (body : Nat → σ → Except Fault (Flow σ))
    (hb : ∀ i s s', I s → body i s = .ok (.next s') → I s' ∧ H i) :
    ∀ (n i0 : Nat) (s s' : σ), I s → for_loop body n i0 s = .ok (.ret s') →
      ∃ i s1, i0 ≤ i ∧ i < i0 + n ∧ I s1 ∧ body i s1 = .ok (.ret s') ∧
        ∀ i', i0 ≤ i' → i' < i → H i' := by
  intro n
  induction n with
  | zero =>
    intro i0 s s' _ h
    simp only [for_loop] at h
    exact absurd h (by simp)
  | succ n ih =>
    intro i0 s s' hs h
    simp only [for_loop] at h
    split at h
    · exact absurd h (by simp)
    · rename_i s1 hbody
      simp only [Except.ok.injEq, Flow.ret.injEq] at h
      subst h
      exact ⟨i0, s, Nat.le_refl _, by omega, hs, hbody, fun i' h1 h2 => by omega⟩
    · rename_i s1 hbody
      obtain ⟨hi1, hH⟩ := hb _ _ _ hs hbody
      obtain ⟨i, s2, h1, h2, h3, h4, h5⟩ := ih _ _ _ hi1 h
      refine ⟨i, s2, by omega, by omega, h3, h4, fun i' g1 g2 => ?_⟩
      rcases Nat.eq_or_lt_of_le g1 with rfl | hlt
      · exact hH
      · exact h5 i' (by omega) g2

theorem for_loop_next_all {σ : Type} (I : σ → Prop) (H : Nat → Prop)
    (body : Nat → σ → Except Fault (Flow σ))
    (hb : ∀ i s s', I s → body i s = .ok (.next s') → I s' ∧ H i) :
    ∀ (n i0 : Nat) (s s' : σ), I s → for_loop body n i0 s = .ok (.next s') →
      I s' ∧ ∀ i, i0 ≤ i → i < i0 + n → H i := by
  intro n
  induction n with
  | zero =>
    intro i0 s s' hs h
    simp only [for_loop, Except.ok.injEq, Flow.next.injEq] at h
    subst h
    exact ⟨hs, fun i h1 h2 => by omega⟩
  | succ n ih =>
    intro i0 s s' hs h
    simp only [for_loop] at h
    split at h
    · exact absurd h (by simp)
    · exact absurd h (by simp)
    · rename_i s1 hbody
      obtain ⟨hi1, hH⟩ := hb _ _ _ hs hbody
      obtain ⟨h3, h5⟩ := ih _ _ _ hi1 h
      refine ⟨h3, fun i g1 g2 => ?_⟩
      rcases Nat.eq_or_lt_of_le g1 with rfl | hlt
      · exact hH
      · exact h5 i (by omega) (by omega)

theorem at_index_bonds_of (s : State) (c i : Nat) (P : Particle)
    (h : s.deref ⟨false, c, i⟩ = .ok P) :
    at_index (bonds_of s) c i = some (P.identity, P.bl) := by
  simp only [State.deref, State.cells, Bool.false_eq_true, if_false] at h
  simp only [at_index, bonds_of, field_of, List.getElem?_map]
  cases h1 : s.local_cells[c]? with
  | none => rw [h1] at h; exact absurd h (by simp)
  | some cell =>
    rw [h1] at h
    simp only [Option.map_some', List.getElem?_map]
    cases h2 : cell[i]? with
    | none => simp only [h2] at h; exact absurd h (by simp)
    | some pt =>
      simp only [h2, Except.ok.injEq] at h
      subst h
      rfl

theorem at_index_bonds_of_lt (s : State) (c i : Nat) (x : Int × List Int) (cell : Cell)
    (hc : s.local_cells[c]? = some cell) (h : at_index (bonds_of s) c i = some x) :
    i < cell.length := by
  simp only [at_index, bonds_of, field_of, List.getElem?_map, hc, Option.map_some'] at h
  by_contra hcon
  rw [List.getElem?_eq_none (Nat.le_of_not_lt hcon)] at h
  exact absurd h (by simp)

theorem at_index_bonds_of_lt_cells (s : State) (c i : Nat) (x : Int × List Int)
    (h : at_index (bonds_of s) c i = some x) : c < s.local_cells.length := by
  by_contra hcon
  simp only [at_index, bonds_of, field_of, List.getElem?_map,
    List.getElem?_eq_none (Nat.le_of_not_lt hcon), Option.map_none'] at h
  exact absurd h (by simp)

theorem particle_walk_next_resolved {σ : Type} (I : σ → Prop) (env : Env) (st : σ → State)
    (B : List (List (Int × List Int))) (broken : RuntimeError → σ → σ)
    (rigid : Ref → Bonded_ia_parameters → Ref → σ → Except Fault σ)
    (hIB : ∀ t, I t → bonds_of (st t) = B)
    (hr : ∀ p1 ia p2 s s', I s → rigid p1 ia p2 s = .ok s' → I s')
    (c i : Nat) (t t' : σ) (ht : I t)
    (h : particle_walk env st broken rigid c i t = .ok (.next t')) :
    I t' ∧ ∀ idn bl, at_index B c i = some (idn, bl) → All_resolved_from env bl 0 := by
  unfold particle_walk at h
  split at h
  · exact absurd h (by simp)
  · rename_i p1 hp1
    obtain ⟨h1, h2⟩ := bond_walk_next_resolved I env _ _ broken _ (hr _) _ _ _ _ ht h
    refine ⟨h1, fun idn bl hat => ?_⟩
    rw [← hIB t ht, at_index_bonds_of _ c i p1 hp1] at hat
    simp only [Option.some.injEq, Prod.mk.injEq] at hat
    rw [← hat.2]
    exact h2

theorem particle_walk_ret_first {σ : Type} (I : σ → Prop) (env : Env) (st : σ → State)
    (B : List (List (Int × List Int))) (broken : RuntimeError → σ → σ)
    (rigid : Ref → Bonded_ia_parameters → Ref → σ → Except Fault σ)
    (hIB : ∀ t, I t → bonds_of (st t) = B)
    (hr : ∀ p1 ia p2 s s', I s → rigid p1 ia p2 s = .ok s' → I s')
    (c i : Nat) (t t' : σ) (ht : I t)
    (h : particle_walk env st broken rigid c i t = .ok (.ret t')) :
    ∃ idn bl j s1, at_index B c i = some (idn, bl) ∧ First_broken_from env bl 0 j ∧ I s1 ∧
      t' = broken (.rigid_bond_broken idn j) s1 := by
  unfold particle_walk at h
  split at h
  · exact absurd h (by simp)
  · rename_i p1 hp1
    obtain ⟨j, s1, h1, h2, h3⟩ := bond_walk_ret_first I env _ _ broken _ (hr _) _ _ _ _ ht h
    refine ⟨p1.identity, p1.bl, j, s1, ?_, h1, h2, h3⟩
    rw [← hIB t ht]
    exact at_index_bonds_of _ c i p1 hp1

theorem cell_walk_next_resolved {σ : Type} (I : σ → Prop) (env : Env) (st : σ → State)
    (B : List (List (Int × List Int))) (broken : RuntimeError → σ → σ)
    (rigid : Ref → Bonded_ia_parameters → Ref → σ → Except Fault σ)
    (hIB : ∀ t, I t → bonds_of (st t) = B)
    (hr : ∀ p1 ia p2 s s', I s → rigid p1 ia p2 s = .ok s' → I s')
    (c : Nat) (t t' : σ) (ht : I t)
    (h : cell_walk env st broken rigid c t = .ok (.next t')) :
    I t' ∧ ∀ i idn bl, at_index B c i = some (idn, bl) → All_resolved_from env bl 0 := by
  unfold cell_walk at h
  split at h
  · exact absurd h (by simp)
  · rename_i cell hcell
    obtain ⟨h1, h2⟩ := for_loop_next_all I
      (fun i => ∀ idn bl, at_index B c i = some (idn, bl) → All_resolved_from env bl 0) _
      (fun i u u' hu huu => particle_walk_next_resolved I env st B broken rigid hIB hr c i u u' hu huu)
      _ _ _ _ ht h
    refine ⟨h1, fun i idn bl hat => ?_⟩
    have hlt : i < cell.length := by
      rw [← hIB t ht] at hat
      exact at_index_bonds_of_lt _ c i _ cell hcell hat
    exact h2 i (Nat.zero_le _) (by omega) idn bl hat

theorem cell_walk_ret_first {σ : Type} (I : σ → Prop) (env : Env) (st : σ → State)
    (B : List (List (Int × List Int))) (broken : RuntimeError → σ → σ)
    (rigid : Ref → Bonded_ia_parameters → Ref → σ → Except Fault σ)
    (hIB : ∀ t, I t → bonds_of (st t) = B)
    (hr : ∀ p1 ia p2 s s', I s → rigid p1 ia p2 s = .ok s' → I s')
    (c : Nat) (t t' : σ) (ht : I t)
    (h : cell_walk env st broken rigid c t = .ok (.ret t')) :
    ∃ i idn bl j s1, at_index B c i = some (idn, bl) ∧ First_broken_from env bl 0 j ∧ I s1 ∧
      t' = broken (.rigid_bond_broken idn j) s1 ∧
      ∀ i' idn' bl', i' < i → at_index B c i' = some (idn', bl') →
        All_resolved_from env bl' 0 := by
  unfold cell_walk at h
  split at h
  · exact absurd h (by simp)
  · rename_i cell hcell
    obtain ⟨i, s1, _, _, h3, h4, h5⟩ := for_loop_ret_first I
      (fun i => ∀ idn bl, at_index B c i = some (idn, bl) → All_resolved_from env bl 0) _
      (fun i u u' hu huu => particle_walk_next_resolved I env st B broken rigid hIB hr c i u u' hu huu)
      _ _ _ _ ht h
    obtain ⟨idn, bl, j, s2, g1, g2, g3, g4⟩ :=
      particle_walk_ret_first I env st B broken rigid hIB hr c i s1 t' h3 h4
    exact ⟨i, idn, bl, j, s2, g1, g2, g3, g4,
      fun i' idn' bl' hlt hat => h5 i' (Nat.zero_le _) hlt idn' bl' hat⟩

/-- A scan of `local_cells` that falls through has found every listed partner
resolvable. -/
theorem local_bond_loop_next_resolved {σ : Type} (I : σ → Prop) (env : Env) (st : σ → State)
    (B : List (List (Int × List Int))) (broken : RuntimeError → σ → σ)
    (rigid : Ref → Bonded_ia_parameters → Ref → σ → Except Fault σ)
    (hIB : ∀ t, I t → bonds_of (st t) = B)
    (hr : ∀ p1 ia p2 s s', I s → rigid p1 ia p2 s = .ok s' → I s')
    (s s' : σ) (hs : I s) (h : local_bond_loop env st broken rigid s = .ok (.next s')) :
    I s' ∧ All_resolved env B := by
  unfold local_bond_loop at h
  obtain ⟨h1, h2⟩ := for_loop_next_all I
    (fun c => ∀ i idn bl, at_index B c i = some (idn, bl) → All_resolved_from env bl 0) _
    (fun c u u' hu huu => cell_walk_next_resolved I env st B broken rigid hIB hr c u u' hu huu)
    _ _ _ _ hs h
  refine ⟨h1, fun c i idn bl hat => ?_⟩
  have hlt : c < (st s).local_cells.length := by
    rw [← hIB s hs] at hat
    exact at_index_bonds_of_lt_cells _ c i _ hat
  exact h2 c (Nat.zero_le _) (by omega) i idn bl hat

/-- A scan of `local_cells` that ends in `return` has met the first broken
bond and posted the message that names it. -/
theorem local_bond_loop_ret_first {σ : Type} (I : σ → Prop) (env : Env) (st : σ → State)
    (B : List (List (Int × List Int))) (broken : RuntimeError → σ → σ)
    (rigid : Ref → Bonded_ia_parameters → Ref → σ → Except Fault σ)
    (hIB : ∀ t, I t → bonds_of (st t) = B)
    (hr : ∀ p1 ia p2 s s', I s → rigid p1 ia p2 s = .ok s' → I s')
    (s s' : σ) (hs : I s) (h : local_bond_loop env st broken rigid s = .ok (.ret s')) :
    ∃ e s1, First_broken env B e ∧ I s1 ∧ s' = broken e s1 := by
  unfold local_bond_loop at h
  obtain ⟨c, s1, _, _, h3, h4, h5⟩ := for_loop_ret_first I
    (fun c => ∀ i idn bl, at_index B c i = some (idn, bl) → All_resolved_from env bl 0) _
    (fun c u u' hu huu => cell_walk_next_resolved I env st B broken rigid hIB hr c u u' hu huu)
    _ _ _ _ hs h
  obtain ⟨i, idn, bl, j, s2, g1, g2, g3, g4, g5⟩ :=
    cell_walk_ret_first I env st B broken rigid hIB hr c s1 s' h3 h4
  refine ⟨.rigid_bond_broken idn j, s2, ⟨c, i, idn, bl, j, g1, g2, rfl, ?_⟩, g3, g4⟩
  intro c' i' idn' bl' hlt hat
  rcases hlt with hlt | ⟨rfl, hlt⟩
  · exact h5 c' (Nat.zero_le _) hlt i' idn' bl' hat
  · exact g5 i' idn' bl' hlt hat

theorem first_broken_unique (env : Env) (B : List (List (Int × List Int)))
    (e1 e2 : RuntimeError) (h1 : First_broken env B e1) (h2 : First_broken env B e2) :
    e1 = e2 := by
  obtain ⟨c1, i1, idn1, bl1, j1, a1, b1, rfl, d1⟩ := h1
  obtain ⟨c2, i2, idn2, bl2, j2, a2, b2, rfl, d2⟩ := h2
  have key : ∀ (c i : Nat) (idn : Int) (bl : List Int) (j : Int),
      at_index B c i = some (idn, bl) → First_broken_from env bl 0 j →
      ¬ All_resolved_from env bl 0 := by
    intro c i idn bl j _ hb hall
    obtain ⟨ia, hl, hn⟩ := first_broken_from_listed env bl 0 j hb
    exact hall ia j hl hn
  have hc : c1 = c2 := by
    rcases Nat.lt_trichotomy c1 c2 with h | h | h
    · exact absurd (d2 c1 i1 idn1 bl1 (Or.inl h) a1) (key c1 i1 idn1 bl1 j1 a1 b1)
    · exact h
    · exact absurd (d1 c2 i2 idn2 bl2 (Or.inl h) a2) (key c2 i2 idn2 bl2 j2 a2 b2)
  subst hc
  have hi : i1 = i2 := by
    rcases Nat.lt_trichotomy i1 i2 with h | h | h
    · exact absurd (d2 c1 i1 idn1 bl1 (Or.inr ⟨rfl, h⟩) a1) (key c1 i1 idn1 bl1 j1 a1 b1)
    · exact h
    · exact absurd (d1 c1 i2 idn2 bl2 (Or.inr ⟨rfl, h⟩) a2) (key c1 i2 idn2 bl2 j2 a2 b2)
  subst hi
  rw [a1] at a2
  simp only [Option.some.injEq, Prod.mk.injEq] at a2
  obtain ⟨rfl, rfl⟩ := a2
  rw [first_broken_from_unique env bl1 0 j1 j2 b1 b2]

theorem first_broken_not_all (env : Env) (B : List (List (Int × List Int)))
    (e : RuntimeError) (h : First_broken env B e) : ¬ All_resolved env B := by
  obtain ⟨c, i, idn, bl, j, a, b, _, _⟩ := h
  intro hall
  obtain ⟨ia, hl, hn⟩ := first_broken_from_listed env bl 0 j b
  exact hall c i idn bl a ia j hl hn

theorem fields_pos_corr_bond {β : Type} (g : Particle → β)
    (hg : ∀ q f, g { q with f := f } = g q) (env : Env) (p1 : Ref)
    (ia : Bonded_ia_parameters) (p2 : Ref) (s s' : State)
    (h : pos_corr_bond env p1 ia p2 s = .ok s') : s'.fields g = s.fields g := by
  simp only [pos_corr_bond, bind, Except.bind, pure, Except.pure] at h
  split at h
  · exact absurd h (by simp)
  · split at h
    · exact absurd h (by simp)
    · split at h
      · exact absurd h (by simp)
      · split at h
        · exact absurd h (by simp)
        · simp only [Except.ok.injEq] at h
          subst h
          rw [fields_update g _ (fun q => hg q _), fields_update g _ (fun q => hg q _)]

theorem fields_compute_pos_corr_vec {β : Type} (g : Particle → β)
    (hg : ∀ q f, g { q with f := f } = g q) (env : Env) (s s' : State)
    (h : compute_pos_corr_vec env s = .ok s') : s'.fields g = s.fields g := by
  unfold compute_pos_corr_vec at h
  split at h
  · exact absurd h (by simp)
  · rename_i fl hfl
    simp only [Except.ok.injEq] at h
    subst h
    exact local_bond_loop_inv (fun t => t.fields g = s.fields g) env id _ _
      (fun e t ht => (fields_post g t e).trans ht)
      (fun p1 ia p2 t t' ht htt => (fields_pos_corr_bond g hg env p1 ia p2 t t' htt).trans ht)
      s fl rfl hfl

theorem app_correction_cell_fst (skin2 : ℚ) :
    ∀ (cell : Cell) (rb : Int), (app_correction_cell skin2 cell rb).1 =
      cell.map (fun pt => { pt with p := Vec3.add pt.p pt.f, v := Vec3.add pt.v pt.f })
  | [], _ => rfl
  | pt :: ps, rb => by
    simp only [app_correction_cell, List.map_cons]
    rw [app_correction_cell_fst skin2 ps]

theorem app_correction_cells_fst (skin2 : ℚ) :
    ∀ (cells : List Cell) (rb : Int), (app_correction_cells skin2 cells rb).1 =
      for_each (fun pt => { pt with p := Vec3.add pt.p pt.f, v := Vec3.add pt.v pt.f }) cells
  | [], _ => rfl
  | cell :: cs, rb => by
    simp only [app_correction_cells, for_each, List.map_cons]
    rw [app_correction_cell_fst, app_correction_cells_fst skin2 cs]
    rfl

/-- The particles after `app_correction_check_VL_rebuild`: every local one
moved by its `f`, in position and in velocity. -/
theorem app_correction_local_cells (env : Env) (s : State) :
    (app_correction_check_VL_rebuild env s).local_cells =
      for_each (fun pt => { pt with p := Vec3.add pt.p pt.f, v := Vec3.add pt.v pt.f })
        s.local_cells :=
  app_correction_cells_fst _ _ _

theorem fields_app_correction {β : Type} (g : Particle → β)
    (hg : ∀ q p v, g { q with p := p, v := v } = g q) (env : Env) (s : State) :
    (app_correction_check_VL_rebuild env s).fields g = s.fields g := by
  unfold State.fields
  rw [app_correction_local_cells, field_of_for_each]
  simp only [hg]
  rfl

theorem bonds_of_fields (s t : State)
    (h : s.fields (fun pt => (pt.identity, pt.bl)) = t.fields (fun pt => (pt.identity, pt.bl))) :
    bonds_of s = bonds_of t :=
  congrArg Prod.fst h

/-- How `compute_pos_corr_vec` ends: after a full scan with nothing posted, or
at the first broken bond with its message posted. -/
theorem compute_pos_corr_vec_cases (env : Env) (s s' : State)
    (h : compute_pos_corr_vec env s = .ok s') :
    (All_resolved env (bonds_of s) ∧ s'.errors = s.errors) ∨
    (∃ e, First_broken env (bonds_of s) e ∧ s'.errors = s.errors ++ [e]) := by
  unfold compute_pos_corr_vec at h
  have hr : ∀ (p1 : Ref) (ia : Bonded_ia_parameters) (p2 : Ref) (t t' : State),
      (bonds_of t = bonds_of s ∧ t.errors = s.errors) → pos_corr_bond env p1 ia p2 t = .ok t' →
      (bonds_of t' = bonds_of s ∧ t'.errors = s.errors) := by
    intro p1 ia p2 t t' ht htt
    refine ⟨?_, (errors_pos_corr_bond env p1 ia p2 t t' htt).trans ht.2⟩
    rw [← ht.1]
    exact bonds_of_fields _ _
      (fields_pos_corr_bond (fun pt => (pt.identity, pt.bl)) (fun _ _ => rfl) env p1 ia p2 t t' htt)
  split at h
  · exact absurd h (by simp)
  · rename_i fl hfl
    simp only [Except.ok.injEq] at h
    subst h
    cases fl with
    | next t =>
      obtain ⟨h1, h2⟩ := local_bond_loop_next_resolved
        (fun t : State => bonds_of t = bonds_of s ∧ t.errors = s.errors) env id (bonds_of s)
        (fun e t => t.post e) (pos_corr_bond env) (fun t ht => ht.1) hr s t ⟨rfl, rfl⟩ hfl
      exact Or.inl ⟨h2, h1.2⟩
    | ret t =>
      obtain ⟨e, s1, h1, h2, h3⟩ := local_bond_loop_ret_first
        (fun t : State => bonds_of t = bonds_of s ∧ t.errors = s.errors) env id (bonds_of s)
        (fun e t => t.post e) (pos_corr_bond env) (fun t ht => ht.1) hr s t ⟨rfl, rfl⟩ hfl
      refine Or.inr ⟨e, h1, ?_⟩
      show t.errors = _
      rw [h3]
      show s1.errors ++ [e] = _
      rw [h2.2]

/-- How `check_tol_pos` ends: after a full scan with nothing written, or at the
first broken bond with its message posted and the value `0`. -/
theorem check_tol_pos_cases (env : Env) (s : State) (r : State × Bool)
    (h : check_tol_pos env s = .ok r) :
    (All_resolved env (bonds_of s) ∧ r.1 = s) ∨
    (∃ e, First_broken env (bonds_of s) e ∧ r = (s.post e, false)) := by
  unfold check_tol_pos at h
  have hr : ∀ (p1 : Ref) (ia : Bonded_ia_parameters) (p2 : Ref) (t t' : State × Bool),
      t.1 = s → tol_pos_bond env p1 ia p2 t = .ok t' → t'.1 = s :=
    fun p1 ia p2 t t' ht htt => (tol_pos_bond_state env p1 ia p2 t t' htt).trans ht
  split at h
  · exact absurd h (by simp)
  · rename_i sr hfl
    simp only [Except.ok.injEq] at h
    subst h
    obtain ⟨e, s1, h1, h2, h3⟩ := local_bond_loop_ret_first
      (fun t : State × Bool => t.1 = s) env Prod.fst (bonds_of s)
      (fun e sr => (sr.1.post e, sr.2)) (tol_pos_bond env) (fun t ht => by rw [ht]) hr
      (s, false) sr rfl hfl
    refine Or.inr ⟨e, h1, ?_⟩
    rw [h3]
    show ((s1.1.post e, false) : State × Bool) = _
    rw [h2]
  · rename_i sr hfl
    simp only [Except.ok.injEq] at h
    subst h
    obtain ⟨h1, h2⟩ := local_bond_loop_next_resolved
      (fun t : State × Bool => t.1 = s) env Prod.fst (bonds_of s)
      (fun e sr => (sr.1.post e, sr.2)) (tol_pos_bond env) (fun t ht => by rw [ht]) hr
      (s, false) sr rfl hfl
    exact Or.inl ⟨h2, h1⟩

theorem shake_loop_stop (body : Nat → State → Except Fault (State × Bool)) (max_it : Nat)
    (fuel cnt : Nat) (flags : List Bool) (s : State) :
    shake_loop body max_it fuel false cnt flags s = .ok ⟨s, cnt, false, flags⟩ := by
  cases fuel <;> simp [shake_loop]

theorem shake_loop_first (body : Nat → State → Except Fault (State × Bool)) (max_it : Nat)
    (fuel cnt : Nat) (flags : List Bool) (s : State) (hf : 0 < fuel) (hc : cnt < max_it) :
    shake_loop body max_it fuel true cnt flags s =
      (match body cnt s with
        | .error e => .error e
        | .ok (s', rpt') => shake_loop body max_it (fuel - 1) rpt' (cnt + 1) (flags ++ [rpt']) s') := by
  cases fuel with
  | zero => omega
  | succ n => simp [shake_loop, hc]

theorem not_all_resolved_of_listed (env : Env) (s : State) (c i : Nat) (P1 : Particle)
    (ia : Bonded_ia_parameters) (j : Int) (hP1 : s.deref ⟨false, c, i⟩ = .ok P1)
    (hl : Rigid_bond_listed env P1.bl ia j) (hn : env.local_particles j = none) :
    ¬ All_resolved env (bonds_of s) :=
  fun hall => hall c i P1.identity P1.bl (at_index_bonds_of s c i P1 hP1) ia j hl hn

/-- One pass of the position loop over a state with a broken bond, on a single
node: `compute_pos_corr_vec` posts the message and returns, the corrections it
has accumulated are applied, `check_tol_pos` posts the message again, and the
reduced flag is clear. -/
theorem pos_iteration_broken (env : Env) (cnt : Nat) (s : State) (r : State × Bool)
    (hnode : ∀ n, env.MPI_LOR_others n = false)
    (hcol : Halo_keeps (fun pt => (pt.identity, pt.bl)) env.collect_ghost_force)
    (hupd : Halo_keeps (fun pt => (pt.identity, pt.bl)) env.update_ghost_pos)
    (hbr : ¬ All_resolved env (bonds_of s))
    (h : pos_iteration env cnt s = .ok r) :
    ∃ e s2, First_broken env (bonds_of s) e ∧
      compute_pos_corr_vec env (init_correction_vector s) = .ok s2 ∧
      s2.errors = s.errors ++ [e] ∧ r.2 = false ∧
      r.1.local_cells = ((app_correction_check_VL_rebuild env
        (s2.halo env.collect_ghost_force)).halo env.update_ghost_pos).local_cells ∧
      r.1.ghost_cells = ((app_correction_check_VL_rebuild env
        (s2.halo env.collect_ghost_force)).halo env.update_ghost_pos).ghost_cells ∧
      r.1.errors = s.errors ++ [e, e] := by
  simp only [pos_iteration, bind, Except.bind, pure, Except.pure] at h
  split at h
  · exact absurd h (by simp)
  · rename_i s2 h2
    split at h
    · exact absurd h (by simp)
    · rename_i r6 h6
      simp only [Except.ok.injEq] at h
      have b1 : bonds_of (init_correction_vector s) = bonds_of s :=
        bonds_of_fields _ _
          (fields_init_correction_vector (fun pt => (pt.identity, pt.bl)) (fun _ _ => rfl) s)
      have b2 : bonds_of s2 = bonds_of s := by
        rw [← b1]
        exact bonds_of_fields _ _
          (fields_compute_pos_corr_vec (fun pt => (pt.identity, pt.bl)) (fun _ _ => rfl) env _ _ h2)
      have b5 : bonds_of ((app_correction_check_VL_rebuild env
          (s2.halo env.collect_ghost_force)).halo env.update_ghost_pos) = bonds_of s := by
        rw [← b2]
        refine bonds_of_fields _ _ ?_
        rw [fields_halo _ _ hupd,
          fields_app_correction (fun pt => (pt.identity, pt.bl)) (fun _ _ _ => rfl),
          fields_halo _ _ hcol]
      rcases compute_pos_corr_vec_cases env _ _ h2 with ⟨hall, _⟩ | ⟨e, he, herr⟩
      · rw [b1] at hall
        exact absurd hall hbr
      · rw [b1] at he
        rcases check_tol_pos_cases env _ _ h6 with ⟨hall, _⟩ | ⟨e', he', hr6⟩
        · rw [b5] at hall
          exact absurd hall hbr
        · rw [b5] at he'
          have hee := first_broken_unique env _ e' e he' he
          subst hee
          refine ⟨e', s2, he, h2, herr, ?_⟩
          subst h
          subst hr6
          simp only [hnode, Bool.or_false, Bool.false_eq_true, if_false]
          refine ⟨trivial, rfl, rfl, ?_⟩
          show (app_correction_check_VL_rebuild env (s2.halo env.collect_ghost_force)).errors
            ++ [e'] = _
          show s2.errors ++ [e'] = _
          rw [herr]
          simp [init_correction_vector]

theorem dumbbell_deref (a b : Particle) (c i : Nat) (P1 : Particle)
    (h : (dumbbell a b).deref ⟨false, c, i⟩ = .ok P1) :
    (c = 0 ∧ i = 0 ∧ P1 = a) ∨ (c = 0 ∧ i = 1 ∧ P1 = b) := by
  simp only [State.deref, State.cells, dumbbell, Bool.false_eq_true, if_false] at h
  match c, i with
  | 0, 0 => simp at h; exact Or.inl ⟨rfl, rfl, h.symm⟩
  | 0, 1 => simp at h; exact Or.inr ⟨rfl, rfl, h.symm⟩
  | 0, i + 2 => simp at h
  | c + 1, i => simp at h

theorem scenario_pos_corr_bond (d2 p_tol v_tol : ℚ) (max_it : Nat) (a b : Particle)
    (rb : Int) (errs : List RuntimeError) (ia : Bonded_ia_parameters)
    (hma : 0 < a.mass) (hmb : 0 < b.mass)
    (hD : scalar (Vec3.sub a.p_old b.p_old) (Vec3.sub a.p b.p) ≠ 0) :
    pos_corr_bond (scenario_env d2 p_tol v_tol max_it) ⟨false, 0, 0⟩ ia ⟨false, 0, 1⟩
        ⟨[[a, b]], [], rb, errs⟩ =
      .ok ⟨[[{ a with f := Vec3.add a.f (Vec3.mulr (Vec3.smul
              ((1 / 2) * (ia.d2 - sqrlen (Vec3.sub a.p b.p)) /
                scalar (Vec3.sub a.p_old b.p_old) (Vec3.sub a.p b.p) / (a.mass + b.mass))
              (Vec3.sub a.p_old b.p_old)) b.mass) },
            { b with f := Vec3.sub b.f (Vec3.mulr (Vec3.smul
              ((1 / 2) * (ia.d2 - sqrlen (Vec3.sub a.p b.p)) /
                scalar (Vec3.sub a.p_old b.p_old) (Vec3.sub a.p b.p) / (a.mass + b.mass))
              (Vec3.sub a.p_old b.p_old)) a.mass) }]], [], rb, errs⟩ := by
  have hm : a.mass + b.mass ≠ 0 := ne_of_gt (add_pos hma hmb)
  simp [pos_corr_bond, bind, Except.bind, pure, Except.pure, State.deref, State.cells,
    scenario_env, fdiv, hD, hm, PMASS, State.update, modify_at]

theorem scenario_compute_pos (d2 p_tol v_tol : ℚ) (max_it : Nat) (a b : Particle)
    (rb : Int) (errs : List RuntimeError) (ha : a.bl = [0, 1]) (hb : b.bl = [])
    (hma : 0 < a.mass) (hmb : 0 < b.mass)
    (hD : scalar (Vec3.sub a.p_old b.p_old) (Vec3.sub a.p b.p) ≠ 0) :
    compute_pos_corr_vec (scenario_env d2 p_tol v_tol max_it) ⟨[[a, b]], [], rb, errs⟩ =
      .ok ⟨[[{ a with f := Vec3.add a.f (Vec3.mulr (Vec3.smul
              ((1 / 2) * (d2 - sqrlen (Vec3.sub a.p b.p)) /
                scalar (Vec3.sub a.p_old b.p_old) (Vec3.sub a.p b.p) / (a.mass + b.mass))
              (Vec3.sub a.p_old b.p_old)) b.mass) },
            { b with f := Vec3.sub b.f (Vec3.mulr (Vec3.smul
              ((1 / 2) * (d2 - sqrlen (Vec3.sub a.p b.p)) /
                scalar (Vec3.sub a.p_old b.p_old) (Vec3.sub a.p b.p) / (a.mass + b.mass))
              (Vec3.sub a.p_old b.p_old)) a.mass) }]], [], rb, errs⟩ := by
  have key := scenario_pos_corr_bond d2 p_tol v_tol max_it a b rb errs
    ⟨7, 1, d2, p_tol, v_tol⟩ hma hmb hD
  simp only [scenario_env] at key
  simp [compute_pos_corr_vec, local_bond_loop, cell_walk, particle_walk, for_loop,
    State.deref, State.cells, ha, hb, bond_walk, read_bl, read_ia, scenario_env, key, Flow.val]

theorem scenario_check_tol_pos (d2 p_tol v_tol : ℚ) (max_it : Nat) (a b : Particle)
    (rb : Int) (errs : List RuntimeError) (ha : a.bl = [0, 1]) (hb : b.bl = [])
    (hd2 : d2 ≠ 0) :
    check_tol_pos (scenario_env d2 p_tol v_tol max_it) ⟨[[a, b]], [], rb, errs⟩ =
      .ok (⟨[[a, b]], [], rb, errs⟩,
        decide (|(1 / 2) * (d2 - sqrlen (Vec3.sub a.p b.p)) / d2| > p_tol)) := by
  have key : tol_pos_bond (scenario_env d2 p_tol v_tol max_it) ⟨false, 0, 0⟩
      ⟨7, 1, d2, p_tol, v_tol⟩ ⟨false, 0, 1⟩ (⟨[[a, b]], [], rb, errs⟩, false) =
      .ok (⟨[[a, b]], [], rb, errs⟩,
        decide (|(1 / 2) * (d2 - sqrlen (Vec3.sub a.p b.p)) / d2| > p_tol)) := by
    simp [tol_pos_bond, bind, Except.bind, pure, Except.pure, State.deref, State.cells,
      scenario_env, fdiv, hd2]
  simp only [scenario_env] at key
  simp [check_tol_pos, local_bond_loop, cell_walk, particle_walk, for_loop,
    State.deref, State.cells, ha, hb, bond_walk, read_bl, read_ia, scenario_env, key]

theorem scenario_compute_vel (d2 p_tol v_tol : ℚ) (max_it : Nat) (a b : Particle)
    (rb : Int) (errs : List RuntimeError) (ha : a.bl = [0, 1]) (hb : b.bl = [])
    (hma : 0 < a.mass) (hmb : 0 < b.mass) (hd2 : d2 ≠ 0) :
    compute_vel_corr_vec (scenario_env d2 p_tol v_tol max_it) ⟨[[a, b]], [], rb, errs⟩ =
      .ok ⟨[[{ a with f := Vec3.sub a.f (Vec3.mulr (Vec3.smul
              (scalar (vector_subt a.v b.v) (Vec3.sub a.p b.p) / d2 / (a.mass + b.mass))
              (Vec3.sub a.p b.p)) b.mass) },
            { b with f := Vec3.add b.f (Vec3.mulr (Vec3.smul
              (scalar (vector_subt a.v b.v) (Vec3.sub a.p b.p) / d2 / (a.mass + b.mass))
              (Vec3.sub a.p b.p)) a.mass) }]], [], rb, errs⟩ := by
  have hm : a.mass + b.mass ≠ 0 := ne_of_gt (add_pos hma hmb)
  have key : vel_corr_bond (scenario_env d2 p_tol v_tol max_it) ⟨false, 0, 0⟩
      ⟨7, 1, d2, p_tol, v_tol⟩ ⟨false, 0, 1⟩ ⟨[[a, b]], [], rb, errs⟩ =
      .ok ⟨[[{ a with f := Vec3.sub a.f (Vec3.mulr (Vec3.smul
              (scalar (vector_subt a.v b.v) (Vec3.sub a.p b.p) / d2 / (a.mass + b.mass))
              (Vec3.sub a.p b.p)) b.mass) },
            { b with f := Vec3.add b.f (Vec3.mulr (Vec3.smul
              (scalar (vector_subt a.v b.v) (Vec3.sub a.p b.p) / d2 / (a.mass + b.mass))
              (Vec3.sub a.p b.p)) a.mass) }]], [], rb, errs⟩ := by
    simp [vel_corr_bond, bind, Except.bind, pure, Except.pure, State.deref, State.cells,
      scenario_env, fdiv, hd2, hm, PMASS, State.update, modify_at]
  simp only [scenario_env] at key
  simp [compute_vel_corr_vec, local_bond_loop, cell_walk, particle_walk, for_loop,
    State.deref, State.cells, ha, hb, bond_walk, read_bl, read_ia, scenario_env, key, Flow.val]

theorem scenario_check_tol_vel (d2 p_tol v_tol : ℚ) (max_it : Nat) (a b : Particle)
    (rb : Int) (errs : List RuntimeError) (ha : a.bl = [0, 1]) (hb : b.bl = []) :
    check_tol_vel (scenario_env d2 p_tol v_tol max_it) ⟨[[a, b]], [], rb, errs⟩ =
      .ok (⟨[[a, b]], [], rb, errs⟩,
        decide (|scalar (Vec3.sub a.p b.p) (vector_subt a.v b.v)| > v_tol)) := by
  have key : tol_vel_bond (scenario_env d2 p_tol v_tol max_it) ⟨false, 0, 0⟩
      ⟨7, 1, d2, p_tol, v_tol⟩ ⟨false, 0, 1⟩ (⟨[[a, b]], [], rb, errs⟩, false) =
      .ok (⟨[[a, b]], [], rb, errs⟩,
        decide (|scalar (Vec3.sub a.p b.p) (vector_subt a.v b.v)| > v_tol)) := by
    simp [tol_vel_bond, bind, Except.bind, pure, Except.pure, State.deref, State.cells,
      scenario_env]
  simp only [scenario_env] at key
  simp [check_tol_vel, local_bond_loop, cell_walk, particle_walk, for_loop,
    State.deref, State.cells, ha, hb, bond_walk, read_bl, read_ia, scenario_env, key]

theorem vec_sub_after_corr (pa pb rt : Vec3) (G ma mb : ℚ) :
    Vec3.sub (Vec3.add pa (Vec3.add Vec3.zero (Vec3.mulr (Vec3.smul G rt) mb)))
        (Vec3.add pb (Vec3.sub Vec3.zero (Vec3.mulr (Vec3.smul G rt) ma))) =
      Vec3.add (Vec3.sub pa pb) (Vec3.smul (G * (ma + mb)) rt) := by
  simp only [Vec3.sub, Vec3.add, Vec3.mulr, Vec3.smul, Vec3.zero, Vec3.mk.injEq]
  refine ⟨?_, ?_, ?_⟩ <;> ring

theorem sqrlen_add_smul (r rt : Vec3) (c : ℚ) :
    sqrlen (Vec3.add r (Vec3.smul c rt)) =
      sqrlen r + 2 * c * scalar rt r + c ^ 2 * sqrlen rt := by
  simp only [sqrlen, scalar, Vec3.add, Vec3.smul]
  ring

/-- The test of `check_tol_pos` after one position correction of an isolated
bond that was within `p_tol · d2` of its target, when `p_tol · d2 · |r_t|²` is
at most `8 (r_t · r)²`. -/
theorem pos_step_within_tol (pa pb rt : Vec3) (d2 p_tol ma mb : ℚ) (hd2 : 0 < d2)
    (hma : 0 < ma) (hmb : 0 < mb) (hD : scalar rt (Vec3.sub pa pb) ≠ 0)
    (hpos : |sqrlen (Vec3.sub pa pb) - d2| ≤ p_tol * d2)
    (hrt : p_tol * d2 * sqrlen rt ≤ 8 * scalar rt (Vec3.sub pa pb) ^ 2) :
    |(1 / 2) * (d2 - sqrlen (Vec3.sub
        (Vec3.add pa (Vec3.add Vec3.zero (Vec3.mulr (Vec3.smul
          ((1 / 2) * (d2 - sqrlen (Vec3.sub pa pb)) / scalar rt (Vec3.sub pa pb) / (ma + mb))
          rt) mb)))
        (Vec3.add pb (Vec3.sub Vec3.zero (Vec3.mulr (Vec3.smul
          ((1 / 2) * (d2 - sqrlen (Vec3.sub pa pb)) / scalar rt (Vec3.sub pa pb) / (ma + mb))
          rt) ma))))) / d2| ≤ p_tol := by
  have hm : ma + mb ≠ 0 := ne_of_gt (add_pos hma hmb)
  rw [vec_sub_after_corr, sqrlen_add_smul]
  have hT0 : 0 ≤ sqrlen rt :=
    add_nonneg (add_nonneg (mul_self_nonneg _) (mul_self_nonneg _)) (mul_self_nonneg _)
  generalize sqrlen rt = T at *
  generalize scalar rt (Vec3.sub pa pb) = D at *
  generalize sqrlen (Vec3.sub pa pb) = L at *
  have hp0 : 0 ≤ p_tol := by
    have := le_trans (abs_nonneg _) hpos
    exact nonneg_of_mul_nonneg_left this hd2
  have he2 : (d2 - L) ^ 2 ≤ (p_tol * d2) ^ 2 := by
    have h1 : |d2 - L| ≤ p_tol * d2 := by
      rw [abs_sub_comm]
      exact hpos
    have := pow_le_pow_left₀ (abs_nonneg (d2 - L)) h1 2
    rwa [sq_abs] at this
  have hD2 : 0 < D ^ 2 := by positivity
  have e1 : (1 / 2) * (d2 - (L + 2 * ((1 / 2) * (d2 - L) / D / (ma + mb) * (ma + mb)) * D +
      ((1 / 2) * (d2 - L) / D / (ma + mb) * (ma + mb)) ^ 2 * T)) / d2 =
      -((d2 - L) ^ 2 * T / (8 * D ^ 2 * d2)) := by
    field_simp
    ring
  rw [e1, abs_neg, abs_of_nonneg (by positivity), div_le_iff₀ (by positivity)]
  have h3 : (d2 - L) ^ 2 * T ≤ (p_tol * d2) ^ 2 * T := mul_le_mul_of_nonneg_right he2 hT0
  have h4 : (p_tol * d2) ^ 2 * T = (p_tol * d2) * (p_tol * d2 * T) := by ring
  have h5 : (p_tol * d2) * (p_tol * d2 * T) ≤ (p_tol * d2) * (8 * D ^ 2) :=
    mul_le_mul_of_nonneg_left hrt (by positivity)
  calc (d2 - L) ^ 2 * T ≤ (p_tol * d2) * (8 * D ^ 2) := by rw [h4] at h3; exact le_trans h3 h5
    _ = p_tol * (8 * D ^ 2 * d2) := by ring

theorem vec_subt_after_corr (va vb r : Vec3) (K ma mb : ℚ) :
    vector_subt (Vec3.add va (Vec3.sub Vec3.zero (Vec3.mulr (Vec3.smul K r) mb)))
        (Vec3.add vb (Vec3.add Vec3.zero (Vec3.mulr (Vec3.smul K r) ma))) =
      Vec3.sub (vector_subt va vb) (Vec3.smul (K * (ma + mb)) r) := by
  simp only [vector_subt, Vec3.sub, Vec3.add, Vec3.mulr, Vec3.smul, Vec3.zero, Vec3.mk.injEq]
  refine ⟨?_, ?_, ?_⟩ <;> ring

theorem scalar_sub_smul (r w : Vec3) (c : ℚ) :
    scalar r (Vec3.sub w (Vec3.smul c r)) = scalar w r - c * sqrlen r := by
  simp only [sqrlen, scalar, Vec3.sub, Vec3.smul]
  ring

/-- The test of `check_tol_vel` after one velocity correction of an isolated
bond that was within both tolerances, when `p_tol ≤ 1`. -/
theorem vel_step_within_tol (pa pb va vb : Vec3) (d2 p_tol v_tol ma mb : ℚ) (hd2 : 0 < d2)
    (hma : 0 < ma) (hmb : 0 < mb) (hp1 : p_tol ≤ 1)
    (hpos : |sqrlen (Vec3.sub pa pb) - d2| ≤ p_tol * d2)
    (hvel : |scalar (vector_subt va vb) (Vec3.sub pa pb)| ≤ v_tol) :
    |scalar (Vec3.sub pa pb) (vector_subt
        (Vec3.add va (Vec3.sub Vec3.zero (Vec3.mulr (Vec3.smul
          (scalar (vector_subt va vb) (Vec3.sub pa pb) / d2 / (ma + mb)) (Vec3.sub pa pb)) mb)))
        (Vec3.add vb (Vec3.add Vec3.zero (Vec3.mulr (Vec3.smul
          (scalar (vector_subt va vb) (Vec3.sub pa pb) / d2 / (ma + mb)) (Vec3.sub pa pb)) ma))))|
      ≤ v_tol := by
  have hm : ma + mb ≠ 0 := ne_of_gt (add_pos hma hmb)
  rw [vec_subt_after_corr, scalar_sub_smul]
  generalize scalar (vector_subt va vb) (Vec3.sub pa pb) = W at *
  generalize sqrlen (Vec3.sub pa pb) = L at *
  have e1 : W - W / d2 / (ma + mb) * (ma + mb) * L = W * ((d2 - L) / d2) := by
    field_simp
    ring
  have hv0 : 0 ≤ v_tol := le_trans (abs_nonneg _) hvel
  have h1 : |(d2 - L) / d2| ≤ 1 := by
    rw [abs_div, abs_of_pos hd2, div_le_iff₀ hd2, abs_sub_comm]
    exact le_trans hpos (mul_le_mul_of_nonneg_right hp1 (le_of_lt hd2))
  rw [e1, abs_mul]
  calc |W| * |(d2 - L) / d2| ≤ v_tol * 1 :=
        mul_le_mul hvel h1 (abs_nonneg _) hv0
    _ = v_tol := mul_one _

/-- One pass of the position loop over an isolated bond within tolerance. -/
theorem scenario_pos_iteration (d2 p_tol v_tol : ℚ) (max_it cnt : Nat) (a b : Particle)
    (ha : a.bl = [0, 1]) (hb : b.bl = []) (hd2 : 0 < d2)
    (hma : 0 < a.mass) (hmb : 0 < b.mass)
    (hD : scalar (Vec3.sub a.p_old b.p_old) (Vec3.sub a.p b.p) ≠ 0)
    (hpos : |sqrlen (Vec3.sub a.p b.p) - d2| ≤ p_tol * d2)
    (hrt : p_tol * d2 * sqrlen (Vec3.sub a.p_old b.p_old) ≤
      8 * scalar (Vec3.sub a.p_old b.p_old) (Vec3.sub a.p b.p) ^ 2) :
    ∃ s7, pos_iteration (scenario_env d2 p_tol v_tol max_it) cnt (dumbbell a b) =
      .ok (s7, false) := by
  have hc := scenario_compute_pos d2 p_tol v_tol max_it { a with f := Vec3.zero }
    { b with f := Vec3.zero } 0 [] ha hb hma hmb hD
  have e0 : init_correction_vector (dumbbell a b) =
      ⟨[[{ a with f := Vec3.zero }, { b with f := Vec3.zero }]], [], 0, []⟩ := rfl
  have hcol : ∀ s : State,
      s.halo (scenario_env d2 p_tol v_tol max_it).collect_ghost_force = s := fun _ => rfl
  have hupd : ∀ s : State,
      s.halo (scenario_env d2 p_tol v_tol max_it).update_ghost_pos = s := fun _ => rfl
  have e4 : ∀ (x y : Particle) (rb : Int) (errs : List RuntimeError),
      app_correction_check_VL_rebuild (scenario_env d2 p_tol v_tol max_it)
        ⟨[[x, y]], [], rb, errs⟩ =
      ⟨[[{ x with p := Vec3.add x.p x.f, v := Vec3.add x.v x.f },
          { y with p := Vec3.add y.p y.f, v := Vec3.add y.v y.f }]], [],
        (app_correction_cells (SQR ((scenario_env d2 p_tol v_tol max_it).skin / 2))
          [[x, y]] 0).2, errs⟩ := fun _ _ _ _ => rfl
  have hbd := pos_step_within_tol a.p b.p (Vec3.sub a.p_old b.p_old) d2 p_tol a.mass b.mass
    hd2 hma hmb hD hpos hrt
  have hk := fun x y rb errs hx hy =>
    scenario_check_tol_pos d2 p_tol v_tol max_it x y rb errs hx hy (ne_of_gt hd2)
  simp only [pos_iteration, bind, Except.bind, pure, Except.pure, e0, hc, hcol, e4, hupd]
  rw [hk _ _ _ _ (by exact ha) (by exact hb)]
  simp only [gt_iff_lt, decide_eq_false (not_lt.mpr hbd)]
  exact ⟨_, rfl⟩

/-- One pass of the velocity loop over an isolated bond within tolerance. -/
theorem scenario_vel_iteration (d2 p_tol v_tol : ℚ) (max_it cnt : Nat) (a b : Particle)
    (ha : a.bl = [0, 1]) (hb : b.bl = []) (hd2 : 0 < d2)
    (hma : 0 < a.mass) (hmb : 0 < b.mass) (hp1 : p_tol ≤ 1)
    (hpos : |sqrlen (Vec3.sub a.p b.p) - d2| ≤ p_tol * d2)
    (hvel : |scalar (vector_subt a.v b.v) (Vec3.sub a.p b.p)| ≤ v_tol) :
    ∃ s7, vel_iteration (scenario_env d2 p_tol v_tol max_it) cnt (dumbbell a b) =
      .ok (s7, false) := by
  have hc := scenario_compute_vel d2 p_tol v_tol max_it { a with f := Vec3.zero }
    { b with f := Vec3.zero } 0 [] ha hb hma hmb (ne_of_gt hd2)
  have e0 : init_correction_vector (dumbbell a b) =
      ⟨[[{ a with f := Vec3.zero }, { b with f := Vec3.zero }]], [], 0, []⟩ := rfl
  have hcol : ∀ s : State,
      s.halo (scenario_env d2 p_tol v_tol max_it).collect_ghost_force = s := fun _ => rfl
  have hupd : ∀ s : State,
      s.halo (scenario_env d2 p_tol v_tol max_it).update_ghost_pos = s := fun _ => rfl
  have e4 : ∀ (x y : Particle) (rb : Int) (errs : List RuntimeError),
      apply_vel_corr ⟨[[x, y]], [], rb, errs⟩ =
      ⟨[[{ x with v := Vec3.add x.v x.f }, { y with v := Vec3.add y.v y.f }]], [], rb, errs⟩ :=
    fun _ _ _ _ => rfl
  have hbd := vel_step_within_tol a.p b.p a.v b.v d2 p_tol v_tol a.mass b.mass
    hd2 hma hmb hp1 hpos hvel
  simp only [vel_iteration, bind, Except.bind, pure, Except.pure, e0, hc, hcol, e4, hupd]
  rw [scenario_check_tol_vel d2 p_tol v_tol max_it _ _ _ _ (by exact ha) (by exact hb)]
  simp only [gt_iff_lt, decide_eq_false (not_lt.mpr hbd)]
  exact ⟨_, rfl⟩

/-- C8, as amended: for one isolated rigid bond (two local particles on a
single node without periodic images, positive masses, `d2 > 0`, `p_tol ≤ 1`)
that satisfies both tolerances, `correct_vel_shake` makes exactly one pass and
ends with the flag clear, and so does `correct_pos_shake` when `r_t · r ≠ 0`
and `p_tol · d2 · |r_t|² ≤ 8 (r_t · r)²`, as is the case for `p_old = p` and
`p_tol ≤ 8/9`. -/
theorem isolated_bond_one_iteration (d2 p_tol v_tol : ℚ) (max_it : Nat) (a b : Particle)
    (hmax : 0 < max_it) (ha : a.bl = [0, 1]) (hb : b.bl = []) (hd2 : 0 < d2)
    (hma : 0 < a.mass) (hmb : 0 < b.mass) (hp1 : p_tol ≤ 1)
    (hpos : |sqrlen (Vec3.sub a.p b.p) - d2| ≤ p_tol * d2)
    (hvel : |scalar (vector_subt a.v b.v) (Vec3.sub a.p b.p)| ≤ v_tol) :
    (∃ r, correct_vel_shake (scenario_env d2 p_tol v_tol max_it) (dumbbell a b) = .ok r ∧
      r.run.cnt = 1 ∧ r.run.rpt = false) ∧
    (scalar (Vec3.sub a.p_old b.p_old) (Vec3.sub a.p b.p) ≠ 0 →
      p_tol * d2 * sqrlen (Vec3.sub a.p_old b.p_old) ≤
        8 * scalar (Vec3.sub a.p_old b.p_old) (Vec3.sub a.p b.p) ^ 2 →
      ∃ r, correct_pos_shake (scenario_env d2 p_tol v_tol max_it) (dumbbell a b) = .ok r ∧
        r.cnt = 1 ∧ r.rpt = false) ∧
    (a.p_old = a.p → b.p_old = b.p → p_tol ≤ 8 / 9 →
      ∃ r, correct_pos_shake (scenario_env d2 p_tol v_tol max_it) (dumbbell a b) = .ok r ∧
        r.cnt = 1 ∧ r.rpt = false) := by
  have hmax' : 0 < (scenario_env d2 p_tol v_tol max_it).SHAKE_MAX_ITERATIONS := hmax
  have hposrun : scalar (Vec3.sub a.p_old b.p_old) (Vec3.sub a.p b.p) ≠ 0 →
      p_tol * d2 * sqrlen (Vec3.sub a.p_old b.p_old) ≤
        8 * scalar (Vec3.sub a.p_old b.p_old) (Vec3.sub a.p b.p) ^ 2 →
      ∃ r, correct_pos_shake (scenario_env d2 p_tol v_tol max_it) (dumbbell a b) = .ok r ∧
        r.cnt = 1 ∧ r.rpt = false := by
    intro hD hrt
    obtain ⟨s7, hit⟩ := scenario_pos_iteration d2 p_tol v_tol max_it 0 a b ha hb hd2 hma hmb
      hD hpos hrt
    unfold correct_pos_shake
    rw [shake_loop_first _ _ _ _ _ _ hmax' hmax']
    simp only [hit, shake_loop_stop]
    split
    · exact ⟨_, rfl, rfl, rfl⟩
    · exact ⟨_, rfl, rfl, rfl⟩
  refine ⟨?_, hposrun, ?_⟩
  · have hta : (⟨a.p, a.f, a.v, Vec3.zero, a.l_p_old, a.identity, a.mass, a.bl⟩ : Particle).bl =
        [0, 1] := ha
    have htb : (⟨b.p, b.f, b.v, Vec3.zero, b.l_p_old, b.identity, b.mass, b.bl⟩ : Particle).bl =
        [] := hb
    obtain ⟨s7, hit⟩ := scenario_vel_iteration d2 p_tol v_tol max_it 0
      ⟨a.p, a.f, a.v, Vec3.zero, a.l_p_old, a.identity, a.mass, a.bl⟩
      ⟨b.p, b.f, b.v, Vec3.zero, b.l_p_old, b.identity, b.mass, b.bl⟩
      hta htb hd2 hma hmb hp1 hpos hvel
    have et : transfer_force_init_vel (dumbbell a b) =
        dumbbell ⟨a.p, a.f, a.v, Vec3.zero, a.l_p_old, a.identity, a.mass, a.bl⟩
          ⟨b.p, b.f, b.v, Vec3.zero, b.l_p_old, b.identity, b.mass, b.bl⟩ := rfl
    unfold correct_vel_shake
    rw [shake_loop_first _ _ _ _ _ _ hmax' hmax', et]
    simp only [hit, shake_loop_stop]
    split
    · exact ⟨_, rfl, rfl, rfl⟩
    · exact ⟨_, rfl, rfl, rfl⟩
  · intro hoa hob hp89
    have hL : (1 - p_tol) * d2 ≤ sqrlen (Vec3.sub a.p b.p) := by
      have := (abs_le.mp hpos).1
      linarith
    have hLpos : 0 < sqrlen (Vec3.sub a.p b.p) := by
      have : 0 < (1 - p_tol) * d2 := mul_pos (by linarith) hd2
      linarith
    have hsc : scalar (Vec3.sub a.p b.p) (Vec3.sub a.p b.p) = sqrlen (Vec3.sub a.p b.p) := rfl
    rw [hoa, hob, hsc] at hposrun
    refine hposrun (ne_of_gt hLpos) ?_
    have h8 : p_tol * d2 ≤ 8 * sqrlen (Vec3.sub a.p b.p) := by
      have : p_tol * d2 ≤ 8 * ((1 - p_tol) * d2) := by nlinarith
      linarith
    nlinarith [mul_le_mul_of_nonneg_right h8 (le_of_lt hLpos)]

/-- Witness for C8: a bond within both tolerances and on neither constraint. -/
theorem isolated_bond_one_iteration_witness :
    (∃ r, correct_vel_shake loose_env near_state = .ok r ∧ r.run.cnt = 1 ∧
      r.run.rpt = false) ∧
    (∃ r, correct_pos_shake loose_env near_state = .ok r ∧ r.cnt = 1 ∧ r.rpt = false) :=
  ⟨(isolated_bond_one_iteration (1001 / 1000) (1 / 1000) (1 / 1000) 500
      (particle 0 ⟨0, 0, 0⟩ ⟨0, 0, 0⟩ ⟨1 / 2000, 0, 0⟩ ⟨0, 0, 0⟩ [0, 1])
      (particle 1 ⟨1, 0, 0⟩ ⟨1, 0, 0⟩ ⟨0, 0, 0⟩ ⟨0, 0, 0⟩ [])
      (by decide) rfl rfl (by decide!) (by decide!) (by decide!) (by decide!) (by decide!)
      (by decide!)).1,
    (isolated_bond_one_iteration (1001 / 1000) (1 / 1000) (1 / 1000) 500
      (particle 0 ⟨0, 0, 0⟩ ⟨0, 0, 0⟩ ⟨1 / 2000, 0, 0⟩ ⟨0, 0, 0⟩ [0, 1])
      (particle 1 ⟨1, 0, 0⟩ ⟨1, 0, 0⟩ ⟨0, 0, 0⟩ ⟨0, 0, 0⟩ [])
      (by decide) rfl rfl (by decide!) (by decide!) (by decide!) (by decide!) (by decide!)
      (by decide!)).2.2 rfl rfl (by decide!)⟩

/-- Counterexample to C8 as stated: the bond of `turned_state` is within both
tolerances (`|1 − 1.001| ≤ 0.001 · 1.001`, zero velocities), masses are 1 and
the partner is resolved, but the first correction moves the particles along
the old separation by `G · r_t` with `G = 1`, out of tolerance, and
`correct_pos_shake` needs seven passes. -/
theorem presatisfied_needs_more_passes :
    |sqrlen (loose_env.get_mi_vector (⟨0, 0, 0⟩ : Vec3) ⟨1, 0, 0⟩) - 1001 / 1000| ≤
      (1 / 1000) * (1001 / 1000) ∧
    |scalar (vector_subt (⟨0, 0, 0⟩ : Vec3) ⟨0, 0, 0⟩)
      (loose_env.get_mi_vector (⟨0, 0, 0⟩ : Vec3) ⟨1, 0, 0⟩)| ≤ 1 / 1000 ∧
    loose_env.local_particles 1 = some ⟨false, 0, 1⟩ ∧
    (correct_pos_shake loose_env turned_state).toOption.map
        (fun r => (r.cnt, r.rpt, r.flags)) =
      some (7, false, [true, true, true, true, true, true, false]) :=
  ⟨by decide!, by decide!, rfl, by decide!⟩

/-! ## Scenario S1 -/

theorem s1_separation :
    sqrlen (s3_env.get_mi_vector (⟨-1 / 214358880, 0, 0⟩ : Vec3) ⟨214358881 / 214358880, 0, 0⟩) =
      (214358882 / 214358880) ^ 2 := by
  norm_num [sqrlen, s3_env, scenario_env, Vec3.sub]

/-- C11: in scenario S1 `correct_pos_shake` makes three passes with reduced
flags 1, 1, 0 and posts nothing; both particles stay on the x axis and the
final separation lies between `1 − 0.001` and `1 + 0.001`. -/
theorem dumbbell_stretch_converges :
    correct_pos_shake s3_env s1_state = .ok ⟨s1_after, 3, false, [true, true, false]⟩ ∧
    s1_after.errors = [] ∧
    (∃ P1 P2, s1_after.deref ⟨false, 0, 0⟩ = .ok P1 ∧ s1_after.deref ⟨false, 0, 1⟩ = .ok P2 ∧
      P1.p.y = 0 ∧ P1.p.z = 0 ∧ P2.p.y = 0 ∧ P2.p.z = 0 ∧
      (1 - 1 / 1000 : ℝ) ≤ Real.sqrt ((sqrlen (s3_env.get_mi_vector P1.p P2.p) : ℚ) : ℝ) ∧
      Real.sqrt ((sqrlen (s3_env.get_mi_vector P1.p P2.p) : ℚ) : ℝ) ≤ 1 + 1 / 1000) := by
  refine ⟨by decide!, rfl,
    particle 0 ⟨-1 / 214358880, 0, 0⟩ ⟨0, 0, 0⟩ ⟨21435887 / 214358880, 0, 0⟩
      ⟨14641 / 214358880, 0, 0⟩ [0, 1],
    particle 1 ⟨214358881 / 214358880, 0, 0⟩ ⟨1, 0, 0⟩ ⟨-21435887 / 214358880, 0, 0⟩
      ⟨-14641 / 214358880, 0, 0⟩ [], rfl, rfl, rfl, rfl, rfl, rfl, ?_, ?_⟩
  · show (1 - 1 / 1000 : ℝ) ≤ Real.sqrt ((sqrlen (s3_env.get_mi_vector
      (⟨-1 / 214358880, 0, 0⟩ : Vec3) ⟨214358881 / 214358880, 0, 0⟩) : ℚ) : ℝ)
    rw [s1_separation]
    apply Real.le_sqrt_of_sq_le
    push_cast
    norm_num
  · show Real.sqrt ((sqrlen (s3_env.get_mi_vector
      (⟨-1 / 214358880, 0, 0⟩ : Vec3) ⟨214358881 / 214358880, 0, 0⟩) : ℚ) : ℝ) ≤ 1 + 1 / 1000
    rw [s1_separation, Real.sqrt_le_left (by norm_num)]
    push_cast
    norm_num

/-! ## Convergence on the last permitted pass -/

/-- C14: under a bound of 3 scenario S1 converges on pass number 3, the last
reduced flag is 0, and `correct_pos_shake` posts the non-convergence error all
the same; so does the pre-satisfied scenario S2 under a bound of 1. -/
theorem correct_pos_shake_converged_at_bound :
    correct_pos_shake three_env s1_state =
      .ok ⟨s1_after.post (.rattle_failed 3), 3, false, [true, true, false]⟩ ∧
    (s1_after.post (.rattle_failed 3)).errors = [.rattle_failed 3] ∧
    (correct_pos_shake (scenario_env 1 (1 / 1000000) (1 / 1000000) 1) s2_state).toOption.map
      (fun r => (r.cnt, r.rpt, r.flags, r.state.errors)) =
        some (1, false, [false], [.rattle_failed 1]) := by
  refine ⟨by decide!, rfl, by decide!⟩

/-! ## One isolated bond, any geometry -/

theorem pmass_with_f (env : Env) (q : Particle) (f : Vec3) :
    PMASS env { q with f := f } = PMASS env q := rfl

theorem halo_local_field {β : Type} (g : Particle → β)
    (h : List Cell × List Cell → List Cell × List Cell) (hk : Halo_keeps_local g h) (s : State) :
    field_of g (s.halo h).local_cells = field_of g s.local_cells :=
  hk (s.local_cells, s.ghost_cells)

theorem app_correction_cell_snd (skin2 : ℚ) : ∀ (cell : Cell) (rb : Int),
    ((∃ pt ∈ (app_correction_cell skin2 cell rb).1, distance2 pt.p pt.l_p_old > skin2) →
      (app_correction_cell skin2 cell rb).2 = 1) ∧
    ((¬ ∃ pt ∈ (app_correction_cell skin2 cell rb).1, distance2 pt.p pt.l_p_old > skin2) →
      (app_correction_cell skin2 cell rb).2 = rb)
  | [], rb => by simp [app_correction_cell]
  | pt :: ps, rb => by
    have e1 := app_correction_cell_fst skin2 ps
    simp only [app_correction_cell, List.mem_cons, exists_eq_or_imp]
    by_cases hx : distance2 (Vec3.add pt.p pt.f) pt.l_p_old > skin2
    · have ih := app_correction_cell_snd skin2 ps 1
      simp only [hx, if_true, true_or, forall_true_left, not_true_eq_false, false_imp_iff,
        and_true]
      by_cases hps : ∃ q ∈ (app_correction_cell skin2 ps 1).1,
          distance2 q.p q.l_p_old > skin2
      · exact ih.1 hps
      · exact ih.2 hps
    · have ih := app_correction_cell_snd skin2 ps rb
      simp only [hx, if_false, false_or]
      exact ih

theorem app_correction_cells_snd (skin2 : ℚ) : ∀ (cells : List Cell) (rb : Int),
    (Skin_exceeded skin2 (app_correction_cells skin2 cells rb).1 →
      (app_correction_cells skin2 cells rb).2 = 1) ∧
    (¬ Skin_exceeded skin2 (app_correction_cells skin2 cells rb).1 →
      (app_correction_cells skin2 cells rb).2 = rb)
  | [], rb => by simp [app_correction_cells, Skin_exceeded]
  | cell :: cs, rb => by
    have hc := app_correction_cell_snd skin2 cell rb
    have hfst : ∀ rb1 rb2, (app_correction_cells skin2 cs rb1).1 =
        (app_correction_cells skin2 cs rb2).1 := fun rb1 rb2 => by
      rw [app_correction_cells_fst, app_correction_cells_fst]
    simp only [app_correction_cells, Skin_exceeded, List.mem_cons, exists_eq_or_imp]
    by_cases hx : ∃ pt ∈ (app_correction_cell skin2 cell rb).1,
        distance2 pt.p pt.l_p_old > skin2
    · have ih := app_correction_cells_snd skin2 cs 1
      rw [hc.1 hx]
      simp only [hx, true_or, forall_true_left, not_true_eq_false, false_imp_iff, and_true]
      by_cases hcs : Skin_exceeded skin2 (app_correction_cells skin2 cs 1).1
      · exact ih.1 hcs
      · exact ih.2 hcs
    · have ih := app_correction_cells_snd skin2 cs rb
      rw [hc.2 hx]
      simp only [hx, false_or]
      exact ih

/-- The flag that `app_correction_check_VL_rebuild` leaves behind. -/
theorem app_correction_flag (env : Env) (s : State) :
    (Skin_exceeded (SQR (env.skin / 2)) (app_correction_check_VL_rebuild env s).local_cells →
      (app_correction_check_VL_rebuild env s).rebuild_verletlist = 1) ∧
    (¬ Skin_exceeded (SQR (env.skin / 2)) (app_correction_check_VL_rebuild env s).local_cells →
      (app_correction_check_VL_rebuild env s).rebuild_verletlist = 0) :=
  app_correction_cells_snd (SQR (env.skin / 2)) s.local_cells 0

theorem skin_exceeded_field (skin2 : ℚ) (cells : List Cell) :
    Skin_exceeded skin2 cells ↔
      ∃ row ∈ field_of (fun pt => (pt.p, pt.l_p_old)) cells, ∃ x ∈ row,
        distance2 x.1 x.2 > skin2 := by
  unfold Skin_exceeded field_of
  constructor
  · rintro ⟨cell, hc, pt, hp, hx⟩
    exact ⟨cell.map (fun pt => (pt.p, pt.l_p_old)), List.mem_map_of_mem _ hc,
      (pt.p, pt.l_p_old), List.mem_map_of_mem _ hp, hx⟩
  · rintro ⟨row, hrow, x, hx1, hx⟩
    obtain ⟨cell, hc, rfl⟩ := List.mem_map.mp hrow
    obtain ⟨pt, hp, rfl⟩ := List.mem_map.mp hx1
    exact ⟨cell, hc, pt, hp, hx⟩

theorem skin_exceeded_congr (skin2 : ℚ) (cells cells' : List Cell)
    (h : field_of (fun pt => (pt.p, pt.l_p_old)) cells' =
      field_of (fun pt => (pt.p, pt.l_p_old)) cells) :
    Skin_exceeded skin2 cells' ↔ Skin_exceeded skin2 cells := by
  rw [skin_exceeded_field, skin_exceeded_field, h]

/-- The flag after one pass of the position loop. -/
theorem pos_iteration_flag (env : Env)
    (hupd : Halo_keeps_local (fun pt => (pt.p, pt.l_p_old)) env.update_ghost_pos)
    (cnt : Nat) (s : State) (r : State × Bool) (h : pos_iteration env cnt s = .ok r) :
    ∃ x : Int, (Skin_exceeded (SQR (env.skin / 2)) r.1.local_cells → x = 1) ∧
      (¬ Skin_exceeded (SQR (env.skin / 2)) r.1.local_cells → x = 0) ∧
      r.1.rebuild_verletlist = if r.2 then x else env.announce_rebuild_vlist x := by
  unfold pos_iteration at h
  simp only [bind, Except.bind, pure, Except.pure] at h
  split at h
  · exact absurd h (by simp)
  rename_i s2 h2
  split at h
  · exact absurd h (by simp)
  rename_i r6 h6
  simp only [Except.ok.injEq] at h
  obtain ⟨e6l, _, e6r⟩ := check_tol_pos_cells env _ r6 h6
  have e5 := halo_local_field (fun pt => (pt.p, pt.l_p_old)) _ hupd
    (app_correction_check_VL_rebuild env (s2.halo env.collect_ghost_force))
  have hflag := app_correction_flag env (s2.halo env.collect_ghost_force)
  have hcong : Skin_exceeded (SQR (env.skin / 2)) r.1.local_cells ↔
      Skin_exceeded (SQR (env.skin / 2))
        (app_correction_check_VL_rebuild env (s2.halo env.collect_ghost_force)).local_cells := by
    have e7 : r.1.local_cells = r6.1.local_cells := by
      rw [← h]
      split <;> rfl
    rw [e7, e6l]
    exact skin_exceeded_congr _ _ _ e5
  refine ⟨(app_correction_check_VL_rebuild env (s2.halo env.collect_ghost_force)).rebuild_verletlist,
    fun hx => hflag.1 (hcong.mp hx), fun hx => hflag.2 (fun hy => hx (hcong.mpr hy)), ?_⟩
  have e6r' : r6.1.rebuild_verletlist =
      (app_correction_check_VL_rebuild env (s2.halo env.collect_ghost_force)).rebuild_verletlist :=
    e6r
  rw [← h]
  split
  · rename_i hr
    simp only [hr, if_true]
    exact e6r'
  · rename_i hr
    simp only [hr, Bool.false_eq_true, if_false]
    rw [e6r']

/-- C16: `app_correction_check_VL_rebuild` leaves `rebuild_verletlist` at 1 if
some local particle's updated position has `|p − l_p_old|² > (skin/2)²` and at 0
otherwise, whatever the flag was on entry; so after `correct_pos_shake` the
flag is the one of the positions of the last pass, handed through
`announce_rebuild_vlist` when that pass converged. -/
theorem rebuild_verletlist_last_pass (env : Env) (s : State) :
    ((app_correction_check_VL_rebuild env s).rebuild_verletlist = 1 ↔
      Skin_exceeded (SQR (env.skin / 2)) (app_correction_check_VL_rebuild env s).local_cells) ∧
    ((app_correction_check_VL_rebuild env s).rebuild_verletlist = 0 ↔
      ¬ Skin_exceeded (SQR (env.skin / 2)) (app_correction_check_VL_rebuild env s).local_cells) ∧
    (∀ rb : Int, app_correction_check_VL_rebuild env { s with rebuild_verletlist := rb } =
      app_correction_check_VL_rebuild env s) ∧
    (0 < env.SHAKE_MAX_ITERATIONS →
      Halo_keeps_local (fun pt => (pt.p, pt.l_p_old)) env.update_ghost_pos →
      ∀ r, correct_pos_shake env s = .ok r →
        ∃ x : Int, (x = 1 ↔ Skin_exceeded (SQR (env.skin / 2)) r.state.local_cells) ∧
          (x = 0 ↔ ¬ Skin_exceeded (SQR (env.skin / 2)) r.state.local_cells) ∧
          r.state.rebuild_verletlist = if r.rpt then x else env.announce_rebuild_vlist x) := by
  have hflag := app_correction_flag env s
  refine ⟨⟨fun h1 => ?_, hflag.1⟩, ⟨fun h0 hx => ?_, hflag.2⟩, fun _ => rfl, ?_⟩
  · by_contra hx
    rw [hflag.2 hx] at h1
    exact absurd h1 (by decide)
  · rw [hflag.1 hx] at h0
    exact absurd h0 (by decide)
  · intro hmax hupd r h
    unfold correct_pos_shake at h
    split at h
    · exact absurd h (by simp)
    rename_i r0 h0
    have hrun := shake_loop_run _ _ hmax _ _ _ h0
    have hlast := shake_loop_last _ _ _ _ _ _ _ _ h0
    have key : ∃ x : Int, (Skin_exceeded (SQR (env.skin / 2)) r0.state.local_cells → x = 1) ∧
        (¬ Skin_exceeded (SQR (env.skin / 2)) r0.state.local_cells → x = 0) ∧
        r0.state.rebuild_verletlist = if r0.rpt then x else env.announce_rebuild_vlist x := by
      rcases hlast with ⟨_, hc, _⟩ | ⟨c, s0, hit, _⟩
      · omega
      · exact pos_iteration_flag env hupd c s0 _ hit
    obtain ⟨x, hx1, hx0, hrb⟩ := key
    have hfin : r.state.local_cells = r0.state.local_cells ∧
        r.state.rebuild_verletlist = r0.state.rebuild_verletlist ∧ r.rpt = r0.rpt := by
      split at h
      · simp only [Except.ok.injEq] at h
        rw [← h]
        exact ⟨rfl, rfl, rfl⟩
      · simp only [Except.ok.injEq] at h
        rw [← h]
        exact ⟨rfl, rfl, rfl⟩
    obtain ⟨f1, f2, f3⟩ := hfin
    rw [f1, f2, f3]
    refine ⟨x, ⟨fun h1 => ?_, hx1⟩, ⟨fun h0 hx => ?_, hx0⟩, hrb⟩
    · by_contra hx
      rw [hx0 hx] at h1
      exact absurd h1 (by decide)
    · rw [hx1 hx] at h0
      exact absurd h0 (by decide)

/-- Witness for C16: scenario S1.  The second particle ends at distance about 1
from its Verlet reference position, the origin, with `skin/2 = 1/2`. -/
theorem rebuild_verletlist_last_pass_witness :
    correct_pos_shake s3_env s1_state = .ok ⟨s1_after, 3, false, [true, true, false]⟩ ∧
    ∃ x : Int, (x = 1 ↔ Skin_exceeded (SQR (s3_env.skin / 2)) s1_after.local_cells) ∧
      (x = 0 ↔ ¬ Skin_exceeded (SQR (s3_env.skin / 2)) s1_after.local_cells) ∧
      s1_after.rebuild_verletlist =
        if false = true then x else s3_env.announce_rebuild_vlist x :=
  ⟨by decide!,
    (rebuild_verletlist_last_pass s3_env s1_state).2.2.2 (by decide) (fun _ => rfl)
      ⟨s1_after, 3, false, [true, true, false]⟩ (by decide!)⟩

/-! ## A broken bond ends the loop -/

/-- How `check_tol_vel` ends: after a full scan with nothing written, or at the
first broken bond with its message posted and the value `0`. -/
theorem check_tol_vel_cases (env : Env) (s : State) (r : State × Bool)
    (h : check_tol_vel env s = .ok r) :
    (All_resolved env (bonds_of s) ∧ r.1 = s) ∨
    (∃ e, First_broken env (bonds_of s) e ∧ r = (s.post e, false)) := by
  unfold check_tol_vel at h
  have hr : ∀ (p1 : Ref) (ia : Bonded_ia_parameters) (p2 : Ref) (t t' : State × Bool),
      t.1 = s → tol_vel_bond env p1 ia p2 t = .ok t' → t'.1 = s :=
    fun p1 ia p2 t t' ht htt => (tol_vel_bond_state env p1 ia p2 t t' htt).trans ht
  split at h
  · exact absurd h (by simp)
  · rename_i sr hfl
    simp only [Except.ok.injEq] at h
    subst h
    obtain ⟨e, s1, h1, h2, h3⟩ := local_bond_loop_ret_first
      (fun t : State × Bool => t.1 = s) env Prod.fst (bonds_of s)
      (fun e sr => (sr.1.post e, sr.2)) (tol_vel_bond env) (fun t ht => by rw [ht]) hr
      (s, false) sr rfl hfl
    refine Or.inr ⟨e, h1, ?_⟩
    rw [h3]
    show ((s1.1.post e, false) : State × Bool) = _
    rw [h2]
  · rename_i sr hfl
    simp only [Except.ok.injEq] at h
    subst h
    obtain ⟨h1, h2⟩ := local_bond_loop_next_resolved
      (fun t : State × Bool => t.1 = s) env Prod.fst (bonds_of s)
      (fun e sr => (sr.1.post e, sr.2)) (tol_vel_bond env) (fun t ht => by rw [ht]) hr
      (s, false) sr rfl hfl
    exact Or.inl ⟨h2, h1⟩

theorem first_broken_message (env : Env) (B : List (List (Int × List Int))) (e : RuntimeError)
    (h : First_broken env B e) : ∃ idn j, e = .rigid_bond_broken idn j := by
  obtain ⟨_, _, idn, _, j, _, _, he, _⟩ := h
  exact ⟨idn, j, he⟩

/-- C18: when a local particle lists a rigid bond whose partner id the id map
does not resolve, `check_tol_pos` and `check_tol_vel` post the message of the
first such bond and return 0, whatever the bonds scanned before it; so on a
single node with `SHAKE_MAX_ITERATIONS > 1` `correct_pos_shake` makes exactly
one pass, which ends with the reduced flag 0, posts the broken-bond message
twice and no non-convergence message, and has applied to `p` and `v` what
`compute_pos_corr_vec` had accumulated when it returned. -/
theorem broken_bond_masks_nonconvergence (env : Env) (s : State) (c i : Nat) (P1 : Particle)
    (ia : Bonded_ia_parameters) (j : Int) (hP1 : s.deref ⟨false, c, i⟩ = .ok P1)
    (hl : Rigid_bond_listed env P1.bl ia j) (hn : env.local_particles j = none) :
    (∀ r, check_tol_pos env s = .ok r →
      r.2 = false ∧ ∃ e, First_broken env (bonds_of s) e ∧ r.1 = s.post e) ∧
    (∀ r, check_tol_vel env s = .ok r →
      r.2 = false ∧ ∃ e, First_broken env (bonds_of s) e ∧ r.1 = s.post e) ∧
    (1 < env.SHAKE_MAX_ITERATIONS → (∀ n, env.MPI_LOR_others n = false) →
      Halo_keeps (fun pt => (pt.identity, pt.bl)) env.collect_ghost_force →
      Halo_keeps (fun pt => (pt.identity, pt.bl)) env.update_ghost_pos →
      ∀ r, correct_pos_shake env s = .ok r →
        r.cnt = 1 ∧ r.rpt = false ∧ r.flags = [false] ∧
        ∃ idn k s2, First_broken env (bonds_of s) (.rigid_bond_broken idn k) ∧
          compute_pos_corr_vec env (init_correction_vector s) = .ok s2 ∧
          r.state.local_cells = ((app_correction_check_VL_rebuild env
            (s2.halo env.collect_ghost_force)).halo env.update_ghost_pos).local_cells ∧
          r.state.errors =
            s.errors ++ [.rigid_bond_broken idn k, .rigid_bond_broken idn k]) := by
  have hbr := not_all_resolved_of_listed env s c i P1 ia j hP1 hl hn
  refine ⟨?_, ?_, ?_⟩
  · intro r h
    rcases check_tol_pos_cases env s r h with ⟨hall, _⟩ | ⟨e, he, hr⟩
    · exact absurd hall hbr
    · rw [hr]
      exact ⟨rfl, e, he, rfl⟩
  · intro r h
    rcases check_tol_vel_cases env s r h with ⟨hall, _⟩ | ⟨e, he, hr⟩
    · exact absurd hall hbr
    · rw [hr]
      exact ⟨rfl, e, he, rfl⟩
  · intro hmax hnode hcol hupd r h
    have hmax0 : 0 < env.SHAKE_MAX_ITERATIONS := by omega
    unfold correct_pos_shake at h
    split at h
    · exact absurd h (by simp)
    · rename_i r0 h0
      have h0' := h0
      rw [shake_loop_first _ _ _ _ _ _ hmax0 hmax0] at h0'
      split at h0'
      · exact absurd h0' (by simp)
      · rename_i s7 rpt7 hit
        obtain ⟨e, s2, g1, g2, g3, g4, g5, g6, g7⟩ :=
          pos_iteration_broken env 0 s (s7, rpt7) hnode hcol hupd hbr hit
        simp only at g4
        subst g4
        rw [shake_loop_stop] at h0'
        simp only [Except.ok.injEq] at h0'
        subst h0'
        obtain ⟨idn, k, hek⟩ := first_broken_message env _ e g1
        subst hek
        split at h
        · rename_i hge
          simp only [Nat.zero_add, ge_iff_le] at hge
          omega
        · simp only [Except.ok.injEq] at h
          subst h
          exact ⟨rfl, rfl, rfl, idn, k, s2, g1, g2, g5, g7⟩

/-- Witness for C18: the dumbbell of `broken_state` under the scenario
parameters.  After the one pass the bond to particle 1 has squared length
`25/16`, far outside `p_tol = 1e-6`, and the call ends converged. -/
theorem broken_bond_masks_nonconvergence_witness :
    correct_pos_shake s3_env broken_state = .ok ⟨broken_after, 1, false, [false]⟩ ∧
    tol_pos_bond s3_env ⟨false, 0, 0⟩ ⟨7, 1, 1, 1 / 1000000, 1 / 1000000⟩ ⟨false, 0, 1⟩
      (broken_after, false) = .ok (broken_after, true) ∧
    (1 = 1 ∧ false = false ∧ [false] = [false] ∧
      ∃ idn k s2, First_broken s3_env (bonds_of broken_state) (.rigid_bond_broken idn k) ∧
        compute_pos_corr_vec s3_env (init_correction_vector broken_state) = .ok s2 ∧
        broken_after.local_cells = ((app_correction_check_VL_rebuild s3_env
          (s2.halo s3_env.collect_ghost_force)).halo s3_env.update_ghost_pos).local_cells ∧
        broken_after.errors =
          broken_state.errors ++ [.rigid_bond_broken idn k, .rigid_bond_broken idn k]) :=
  ⟨by decide!, by decide!,
    (broken_bond_masks_nonconvergence s3_env broken_state 0 0
      (particle 0 ⟨0, 0, 0⟩ ⟨0, 0, 0⟩ ⟨0, 0, 0⟩ ⟨0, 0, 0⟩ [0, 1, 0, 5])
      ⟨7, 1, 1, 1 / 1000000, 1 / 1000000⟩ 5 rfl
      ⟨2, @TupleFrom.next s3_env [0, 1, 0, 5] 0 0 ⟨7, 1, 1, 1 / 1000000, 1 / 1000000⟩
        TupleFrom.start rfl, rfl, rfl, rfl⟩
      rfl).2.2 (by decide) (fun _ => rfl) (fun _ => rfl) (fun _ => rfl)
      ⟨broken_after, 1, false, [false]⟩ (by decide!)⟩

/-! ## Writes through a pointer -/

theorem getElem?_modify_at {α : Type} (g : α → α) : ∀ (n m : Nat) (l : List α),
    (modify_at g n l)[m]? = if m = n then l[m]?.map g else l[m]?
  | _, m, [] => by simp [modify_at]
  | 0, 0, a :: as => by simp [modify_at]
  | 0, m + 1, a :: as => by simp [modify_at]
  | n + 1, 0, a :: as => by simp [modify_at]
  | n + 1, m + 1, a :: as => by
    simp only [modify_at, List.getElem?_cons_succ, getElem?_modify_at g n m as,
      Nat.add_right_cancel_iff]

/-- Reading through `q` after a write through `r`. -/
theorem deref_update (s : State) (r q : Ref) (g : Particle → Particle) :
    (s.update r g).deref q =
      if q = r then
        (match s.deref q with
          | .error e => .error e
          | .ok P => .ok (g P))
      else s.deref q := by
  obtain ⟨rg, rc, ri⟩ := r
  obtain ⟨qg, qc, qi⟩ := q
  cases rg <;> cases qg <;>
    simp only [State.update, State.deref, State.cells, Bool.false_eq_true, if_false, if_true,
      Ref.mk.injEq, false_and, true_and, getElem?_modify_at, reduceCtorEq]
  · by_cases hc : qc = rc
    · subst hc
      by_cases hi : qi = ri
      · subst hi
        cases h1 : s.local_cells[qc]? with
        | none => simp
        | some cell => cases h2 : cell[qi]? <;> simp [getElem?_modify_at, h2]
      · cases h1 : s.local_cells[qc]? with
        | none => simp [hi]
        | some cell => simp [getElem?_modify_at, hi]
    · simp [hc]
  · by_cases hc : qc = rc
    · subst hc
      by_cases hi : qi = ri
      · subst hi
        cases h1 : s.ghost_cells[qc]? with
        | none => simp
        | some cell => cases h2 : cell[qi]? <;> simp [getElem?_modify_at, h2]
      · cases h1 : s.ghost_cells[qc]? with
        | none => simp [hi]
        | some cell => simp [getElem?_modify_at, hi]
    · simp [hc]

/-! ## Sums over the particles -/

theorem drop_eq_cons {α : Type} (l : List α) (k : Nat) (a : α) (rest : List α)
    (h : l.drop k = a :: rest) : k < l.length ∧ l[k]? = some a ∧ l.drop (k + 1) = rest := by
  have hk : k < l.length := by
    by_contra hk
    rw [List.drop_eq_nil_of_le (not_lt.mp hk)] at h
    exact absurd h (by simp)
  rw [List.drop_eq_getElem_cons hk] at h
  simp only [List.cons.injEq] at h
  exact ⟨hk, by rw [List.getElem?_eq_getElem hk, h.1], h.2⟩

/-- The loop of the four scans, run on a bond list that is a concatenation of
tuples, is the iteration over these tuples. -/
theorem bond_walk_tuples {σ : Type} (env : Env) (identity : Int) (bl : List Int)
    (broken : RuntimeError → σ → σ)
    (rigid : Bonded_ia_parameters → Ref → σ → Except Fault σ) :
    ∀ (n k : Nat) (ts : List Tuple) (s : σ) (fuel : Nat),
      tuples_of env n (bl.drop k) = some ts → bl.length ≤ fuel + k →
      bond_walk env identity bl broken rigid fuel k s =
        walk_tuples env identity broken rigid ts s := by
  intro n
  induction n with
  | zero =>
    intro k ts s fuel h hf
    cases hd : bl.drop k with
    | nil =>
      rw [hd] at h
      simp only [tuples_of, Option.some.injEq] at h
      subst h
      have hk : ¬ k < bl.length := by
        intro hk
        have hlen := congrArg List.length hd
        simp only [List.length_drop, List.length_nil] at hlen
        omega
      cases fuel <;> simp [bond_walk, walk_tuples, hk]
    | cons a rest =>
      rw [hd] at h
      simp [tuples_of] at h
  | succ n ih =>
    intro k ts s fuel h hf
    cases hd : bl.drop k with
    | nil =>
      rw [hd] at h
      simp only [tuples_of, Option.some.injEq] at h
      subst h
      have hk : ¬ k < bl.length := by
        intro hk
        have hlen := congrArg List.length hd
        simp only [List.length_drop, List.length_nil] at hlen
        omega
      cases fuel <;> simp [bond_walk, walk_tuples, hk]
    | cons id rest =>
      obtain ⟨hk, hid, hrest⟩ := drop_eq_cons bl k id rest hd
      rw [hd] at h
      simp only [tuples_of] at h
      cases hia : read_ia env id with
      | error e => simp [hia] at h
      | ok ia =>
        simp only [hia] at h
        by_cases hcond : ia.num ≤ rest.length ∧ (ia.type = env.BONDED_IA_RIGID_BOND → ia.num = 1)
        case neg => simp [hcond] at h
        rw [if_pos hcond] at h
        obtain ⟨hnum, hrig⟩ := hcond
        cases hts : tuples_of env n (List.drop ia.num rest) with
        | none => simp [hts] at h
        | some ts' =>
          simp only [hts, Option.some.injEq] at h
          subst h
          have hdrop : ∀ m, bl.drop (k + 1 + m) = rest.drop m := by
            intro m
            rw [← hrest, List.drop_drop]
          cases fuel with
          | zero => omega
          | succ f =>
            have hrb : read_bl bl k = .ok id := by simp [read_bl, hid]
            by_cases hty : ia.type = env.BONDED_IA_RIGID_BOND
            · have h1 : ia.num = 1 := hrig hty
              rw [h1] at hts hnum
              cases hr : rest with
              | nil =>
                rw [hr] at hnum
                simp at hnum
              | cons j rest' =>
                have hj : read_bl bl (k + 1) = .ok j := by
                  have := hdrop 0
                  rw [List.drop_zero, hr] at this
                  have h2 := (drop_eq_cons bl (k + 1) j rest' this).2.1
                  simp [read_bl, h2]
                have hih : ∀ s', bond_walk env identity bl broken rigid f (k + 2) s' =
                    walk_tuples env identity broken rigid ts' s' := by
                  intro s'
                  refine ih (k + 2) ts' s' f ?_ (by omega)
                  rw [show k + 2 = k + 1 + 1 from rfl, hdrop 1]
                  exact hts
                simp only [bond_walk, hk, if_true, hrb, hia, hty, hj, walk_tuples, h1, hr,
                  List.take_succ_cons, List.take_zero]
                cases env.local_particles j with
                | none => rfl
                | some p2 =>
                  simp only []
                  cases rigid ia p2 s with
                  | error e => rfl
                  | ok s' => exact hih s'
            · simp only [bond_walk, hk, if_true, hrb, hia, hty, if_false, walk_tuples]
              refine ih (k + 1 + ia.num) ts' s f ?_ (by omega)
              rw [hdrop ia.num]
              exact hts

theorem tuples_of_shape (env : Env) : ∀ (n : Nat) (l : List Int) (ts : List Tuple),
    tuples_of env n l = some ts →
    ∀ t ∈ ts, t.2.length = t.1.num ∧ (t.1.type = env.BONDED_IA_RIGID_BOND → ∃ j, t.2 = [j]) := by
  intro n
  induction n with
  | zero =>
    intro l ts h
    cases l with
    | nil =>
      simp only [tuples_of, Option.some.injEq] at h
      subst h
      simp
    | cons a rest => simp [tuples_of] at h
  | succ n ih =>
    intro l ts h
    cases l with
    | nil =>
      simp only [tuples_of, Option.some.injEq] at h
      subst h
      simp
    | cons id rest =>
      simp only [tuples_of] at h
      cases hia : read_ia env id with
      | error e => simp [hia] at h
      | ok ia =>
        simp only [hia] at h
        by_cases hcond : ia.num ≤ rest.length ∧ (ia.type = env.BONDED_IA_RIGID_BOND → ia.num = 1)
        case neg => simp [hcond] at h
        rw [if_pos hcond] at h
        cases hts : tuples_of env n (List.drop ia.num rest) with
        | none => simp [hts] at h
        | some ts' =>
          simp only [hts, Option.some.injEq] at h
          subst h
          intro t ht
          rcases List.mem_cons.mp ht with rfl | ht'
          · have hlen : (List.take ia.num rest).length = ia.num := by
              rw [List.length_take]
              exact Nat.min_eq_left hcond.1
            refine ⟨hlen, fun hty => ?_⟩
            exact List.length_eq_one.mp (hlen.trans (hcond.2 hty))
          · exact ih _ ts' hts t ht'

/-- The iteration over the tuples faults only where the body for a rigid bond
does. -/
theorem walk_tuples_fault {σ : Type} (Q : Fault → Prop) (env : Env) (identity : Int)
    (broken : RuntimeError → σ → σ)
    (rigid : Bonded_ia_parameters → Ref → σ → Except Fault σ)
    (hrq : ∀ ia p2 s e, rigid ia p2 s = .error e → Q e) :
    ∀ (ts : List Tuple) (s : σ) (e : Fault),
      (∀ t ∈ ts, t.1.type = env.BONDED_IA_RIGID_BOND → ∃ j, t.2 = [j]) →
      walk_tuples env identity broken rigid ts s = .error e → Q e := by
  intro ts
  induction ts with
  | nil =>
    intro s e _ h
    simp [walk_tuples] at h
  | cons t ts ih =>
    intro s e hsh h
    obtain ⟨ia, partners⟩ := t
    have hsh' : ∀ t ∈ ts, t.1.type = env.BONDED_IA_RIGID_BOND → ∃ j, t.2 = [j] :=
      fun t ht => hsh t (List.mem_cons_of_mem _ ht)
    by_cases hty : ia.type = env.BONDED_IA_RIGID_BOND
    · obtain ⟨j, hj⟩ := hsh (ia, partners) (List.mem_cons_self _ _) hty
      simp only at hj
      subst hj
      simp only [walk_tuples, hty, if_true] at h
      cases hres : env.local_particles j with
      | none => simp [hres] at h
      | some p2 =>
        simp only [hres] at h
        cases hr : rigid ia p2 s with
        | error e' =>
          simp only [hr, Except.error.injEq] at h
          subst h
          exact hrq ia p2 s e' hr
        | ok s' =>
          simp only [hr] at h
          exact ih s' e hsh' h
    · simp only [walk_tuples, hty, if_false] at h
      exact ih s e hsh' h

theorem for_loop_fault {σ : Type} (I : σ → Prop) (Q : Fault → Prop)
    (body : Nat → σ → Except Fault (Flow σ))
    (hb : ∀ i s fl, I s → body i s = .ok fl → I fl.val)
    (hq : ∀ i s e, I s → body i s = .error e → Q e) :
    ∀ (n i : Nat) (s : σ) (e : Fault), I s → for_loop body n i s = .error e → Q e := by
  intro n
  induction n with
  | zero =>
    intro i s e _ h
    simp [for_loop] at h
  | succ n ih =>
    intro i s e hs h
    simp only [for_loop] at h
    split at h
    · rename_i e' he
      simp only [Except.error.injEq] at h
      subst h
      exact hq i s e' hs he
    · simp at h
    · rename_i s' hs'
      exact ih (i + 1) s' e (hb i s _ hs hs') h

theorem deref_fault (s : State) (r : Ref) (e : Fault) (h : s.deref r = .error e) :
    e = .dangling := by
  unfold State.deref at h
  split at h
  · simp only [Except.error.injEq] at h
    exact h.symm
  · split at h
    · simp only [Except.error.injEq] at h
      exact h.symm
    · simp at h

/-- The scan over `local_cells` of a state whose bond lists are concatenations
of tuples faults only where the body for a rigid bond does, or at a pointer
into no cell. -/
theorem local_bond_loop_fault {σ : Type} (I : σ → Prop) (Q : Fault → Prop) (env : Env)
    (st : σ → State) (B : List (List (Int × List Int))) (broken : RuntimeError → σ → σ)
    (rigid : Ref → Bonded_ia_parameters → Ref → σ → Except Fault σ)
    (hIB : ∀ t, I t → bonds_of (st t) = B)
    (hwf : ∀ c i idn bl, at_index B c i = some (idn, bl) →
      ∃ ts, tuples_of env bl.length bl = some ts)
    (hQ : Q .dangling) (hbr : ∀ e s, I s → I (broken e s))
    (hr : ∀ p1 ia p2 s s', I s → rigid p1 ia p2 s = .ok s' → I s')
    (hrq : ∀ p1 ia p2 s e, rigid p1 ia p2 s = .error e → Q e)
    (s : σ) (e : Fault) (hs : I s) (h : local_bond_loop env st broken rigid s = .error e) :
    Q e := by
  have hpw_inv : ∀ c i t fl, I t → particle_walk env st broken rigid c i t = .ok fl →
      I fl.val := by
    intro c i t fl ht h2
    unfold particle_walk at h2
    split at h2
    · exact absurd h2 (by simp)
    · exact bond_walk_inv I env _ _ broken _ hbr (hr _) _ _ t fl ht h2
  have hpw_q : ∀ c i t e, I t → particle_walk env st broken rigid c i t = .error e → Q e := by
    intro c i t e ht h2
    unfold particle_walk at h2
    split at h2
    · rename_i e' he
      simp only [Except.error.injEq] at h2
      subst h2
      rw [deref_fault _ _ _ he]
      exact hQ
    · rename_i P1 hP1
      have hat := at_index_bonds_of (st t) c i P1 hP1
      rw [hIB t ht] at hat
      obtain ⟨ts, hts⟩ := hwf c i _ _ hat
      rw [bond_walk_tuples env _ _ broken _ P1.bl.length 0 ts t P1.bl.length
        (by rw [List.drop_zero]; exact hts) (by omega)] at h2
      exact walk_tuples_fault Q env _ broken _ (hrq _) ts t e
        (fun t ht => (tuples_of_shape env _ _ ts hts t ht).2) h2
  have hcw_inv : ∀ c t fl, I t → cell_walk env st broken rigid c t = .ok fl → I fl.val := by
    intro c t fl ht h1
    unfold cell_walk at h1
    split at h1
    · exact absurd h1 (by simp)
    · exact for_loop_inv I _ (hpw_inv c) _ _ t fl ht h1
  have hcw_q : ∀ c t e, I t → cell_walk env st broken rigid c t = .error e → Q e := by
    intro c t e ht h1
    unfold cell_walk at h1
    split at h1
    · simp only [Except.error.injEq] at h1
      subst h1
      exact hQ
    · exact for_loop_fault I Q _ (hpw_inv c) (hpw_q c) _ _ t e ht h1
  unfold local_bond_loop at h
  exact for_loop_fault I Q _ hcw_inv hcw_q _ _ s e hs h

theorem fdiv_fault (a b : ℚ) (e : Fault) (h : fdiv a b = .error e) : e = .div_by_zero := by
  unfold fdiv at h
  split at h
  · simp only [Except.error.injEq] at h
    exact h.symm
  · simp at h

theorem pos_corr_bond_fault (env : Env) (p1 : Ref) (ia : Bonded_ia_parameters) (p2 : Ref)
    (s : State) (e : Fault) (h : pos_corr_bond env p1 ia p2 s = .error e) : e.outside_walk := by
  unfold pos_corr_bond at h
  simp only [bind, Except.bind, pure, Except.pure] at h
  split at h
  · rename_i e1 h1
    simp only [Except.error.injEq] at h
    exact Or.inr (h ▸ deref_fault _ _ _ h1)
  split at h
  · rename_i e1 h1
    simp only [Except.error.injEq] at h
    exact Or.inr (h ▸ deref_fault _ _ _ h1)
  split at h
  · rename_i e1 h1
    simp only [Except.error.injEq] at h
    exact Or.inl (h ▸ fdiv_fault _ _ _ h1)
  split at h
  · rename_i e1 h1
    simp only [Except.error.injEq] at h
    exact Or.inl (h ▸ fdiv_fault _ _ _ h1)
  · simp at h

theorem vel_corr_bond_fault (env : Env) (p1 : Ref) (ia : Bonded_ia_parameters) (p2 : Ref)
    (s : State) (e : Fault) (h : vel_corr_bond env p1 ia p2 s = .error e) : e.outside_walk := by
  unfold vel_corr_bond at h
  simp only [bind, Except.bind, pure, Except.pure] at h
  split at h
  · rename_i e1 h1
    simp only [Except.error.injEq] at h
    exact Or.inr (h ▸ deref_fault _ _ _ h1)
  split at h
  · rename_i e1 h1
    simp only [Except.error.injEq] at h
    exact Or.inr (h ▸ deref_fault _ _ _ h1)
  split at h
  · rename_i e1 h1
    simp only [Except.error.injEq] at h
    exact Or.inl (h ▸ fdiv_fault _ _ _ h1)
  split at h
  · rename_i e1 h1
    simp only [Except.error.injEq] at h
    exact Or.inl (h ▸ fdiv_fault _ _ _ h1)
  · simp at h

theorem tol_pos_bond_fault (env : Env) (p1 : Ref) (ia : Bonded_ia_parameters) (p2 : Ref)
    (sr : State × Bool) (e : Fault) (h : tol_pos_bond env p1 ia p2 sr = .error e) :
    e.outside_walk := by
  unfold tol_pos_bond at h
  simp only [bind, Except.bind, pure, Except.pure] at h
  split at h
  · rename_i e1 h1
    simp only [Except.error.injEq] at h
    exact Or.inr (h ▸ deref_fault _ _ _ h1)
  split at h
  · rename_i e1 h1
    simp only [Except.error.injEq] at h
    exact Or.inr (h ▸ deref_fault _ _ _ h1)
  split at h
  · rename_i e1 h1
    simp only [Except.error.injEq] at h
    exact Or.inl (h ▸ fdiv_fault _ _ _ h1)
  · simp at h

theorem tol_vel_bond_fault (env : Env) (p1 : Ref) (ia : Bonded_ia_parameters) (p2 : Ref)
    (sr : State × Bool) (e : Fault) (h : tol_vel_bond env p1 ia p2 sr = .error e) :
    e.outside_walk := by
  unfold tol_vel_bond at h
  simp only [bind, Except.bind, pure, Except.pure] at h
  split at h
  · rename_i e1 h1
    simp only [Except.error.injEq] at h
    exact Or.inr (h ▸ deref_fault _ _ _ h1)
  split at h
  · rename_i e1 h1
    simp only [Except.error.injEq] at h
    exact Or.inr (h ▸ deref_fault _ _ _ h1)
  · simp at h

theorem at_index_bonds_of_inv (s : State) (c i : Nat) (idn : Int) (bl : List Int)
    (h : at_index (bonds_of s) c i = some (idn, bl)) :
    ∃ P, s.deref ⟨false, c, i⟩ = .ok P ∧ P.identity = idn ∧ P.bl = bl := by
  simp only [at_index, bonds_of, field_of, List.getElem?_map] at h
  simp only [State.deref, State.cells, Bool.false_eq_true, if_false]
  cases hc : s.local_cells[c]? with
  | none => simp [hc] at h
  | some cell =>
    simp only [hc, Option.map_some', List.getElem?_map] at h
    cases hi : cell[i]? with
    | none => simp [hi] at h
    | some P =>
      simp only [hi, Option.map_some', Option.some.injEq, Prod.mk.injEq] at h
      exact ⟨P, by simp only [hi], h.1, h.2⟩

theorem lists_well_formed_bonds (env : Env) (s : State) (h : Lists_well_formed env s) :
    ∀ c i idn bl, at_index (bonds_of s) c i = some (idn, bl) →
      ∃ ts, tuples_of env bl.length bl = some ts := by
  intro c i idn bl hat
  obtain ⟨P, hP, _, hbl⟩ := at_index_bonds_of_inv s c i idn bl hat
  rw [← hbl]
  exact h c i P hP

/-- C19, as amended: on a bond list that is a concatenation of tuples
`(interaction_id, partner_1 … partner_num)`, with valid interaction ids and
`num = 1` for a rigid bond, the loop of the four scans is the iteration
`walk_tuples`, which takes the tuples once each, in list order, up to the first
rigid bond whose partner is not resolved, where it returns; and when every bond
list of a local particle is such a list, `compute_pos_corr_vec`,
`check_tol_pos`, `compute_vel_corr_vec` and `check_tol_vel` never read `bl.e` or
`bonded_ia_params` out of bounds and never leave a loop unfinished. -/
theorem walks_safe_and_total (env : Env) :
    (∀ (σ : Type) (identity : Int) (bl : List Int) (ts : List Tuple)
        (broken : RuntimeError → σ → σ)
        (rigid : Bonded_ia_parameters → Ref → σ → Except Fault σ) (s : σ),
      tuples_of env bl.length bl = some ts →
      bond_walk env identity bl broken rigid bl.length 0 s =
        walk_tuples env identity broken rigid ts s) ∧
    (∀ s : State, Lists_well_formed env s → ∀ e : Fault,
      (compute_pos_corr_vec env s = .error e → e.outside_walk) ∧
      (check_tol_pos env s = .error e → e.outside_walk) ∧
      (compute_vel_corr_vec env s = .error e → e.outside_walk) ∧
      (check_tol_vel env s = .error e → e.outside_walk)) := by
  constructor
  · intro σ identity bl ts broken rigid s hts
    exact bond_walk_tuples env identity bl broken rigid bl.length 0 ts s bl.length
      (by rw [List.drop_zero]; exact hts) (by omega)
  · intro s hwf e
    have hB := lists_well_formed_bonds env s hwf
    refine ⟨?_, ?_, ?_, ?_⟩
    · intro h
      unfold compute_pos_corr_vec at h
      split at h
      · rename_i e' he
        simp only [Except.error.injEq] at h
        subst h
        exact local_bond_loop_fault (fun t : State => bonds_of t = bonds_of s)
          Fault.outside_walk env id (bonds_of s) (fun e t => t.post e) (pos_corr_bond env)
          (fun t ht => ht) hB (Or.inr rfl) (fun e t ht => ht)
          (fun p1 ia p2 t t' ht htt => (bonds_of_fields _ _
            (fields_pos_corr_bond (fun pt => (pt.identity, pt.bl)) (fun _ _ => rfl)
              env p1 ia p2 t t' htt)).trans ht)
          (pos_corr_bond_fault env) s e' rfl he
      · simp at h
    · intro h
      unfold check_tol_pos at h
      split at h
      · rename_i e' he
        simp only [Except.error.injEq] at h
        subst h
        exact local_bond_loop_fault (fun t : State × Bool => bonds_of t.1 = bonds_of s)
          Fault.outside_walk env Prod.fst (bonds_of s) (fun e sr => (sr.1.post e, sr.2))
          (tol_pos_bond env) (fun t ht => ht) hB (Or.inr rfl)
          (fun e t ht => ht)
          (fun p1 ia p2 t t' ht htt =>
            (congrArg bonds_of (tol_pos_bond_state env p1 ia p2 t t' htt)).trans ht)
          (tol_pos_bond_fault env) (s, false) e' rfl he
      · simp at h
      · simp at h
    · intro h
      unfold compute_vel_corr_vec at h
      split at h
      · rename_i e' he
        simp only [Except.error.injEq] at h
        subst h
        exact local_bond_loop_fault (fun t : State => bonds_of t = bonds_of s)
          Fault.outside_walk env id (bonds_of s) (fun e t => t.post e) (vel_corr_bond env)
          (fun t ht => ht) hB (Or.inr rfl) (fun e t ht => ht)
          (fun p1 ia p2 t t' ht htt => (bonds_of_fields _ _
            (fields_vel_corr_bond (fun pt => (pt.identity, pt.bl)) (fun _ _ => rfl)
              env p1 ia p2 t t' htt)).trans ht)
          (vel_corr_bond_fault env) s e' rfl he
      · simp at h
    · intro h
      unfold check_tol_vel at h
      split at h
      · rename_i e' he
        simp only [Except.error.injEq] at h
        subst h
        exact local_bond_loop_fault (fun t : State × Bool => bonds_of t.1 = bonds_of s)
          Fault.outside_walk env Prod.fst (bonds_of s) (fun e sr => (sr.1.post e, sr.2))
          (tol_vel_bond env) (fun t ht => ht) hB (Or.inr rfl)
          (fun e t ht => ht)
          (fun p1 ia p2 t t' ht htt =>
            (congrArg bonds_of (tol_vel_bond_state env p1 ia p2 t t' htt)).trans ht)
          (tol_vel_bond_fault env) (s, false) e' rfl he
      · simp at h
      · simp at h

/-- Witness for C19: the list `[1, 7, 8, 0, 1]` is the non-rigid tuple `(1; 7, 8)`
followed by the rigid bond `(0; 1)`, and the loop of `compute_pos_corr_vec` over
it is the iteration over these two tuples; the scans of `mixed_state` end
without a fault. -/
theorem walks_safe_and_total_witness :
    tuples_of s3_env 5 [1, 7, 8, 0, 1] =
      some [(⟨3, 2, 0, 0, 0⟩, [7, 8]), (⟨7, 1, 1, 1 / 1000000, 1 / 1000000⟩, [1])] ∧
    bond_walk s3_env 0 [1, 7, 8, 0, 1] (fun e s => s.post e) (pos_corr_bond s3_env ⟨false, 0, 0⟩)
        5 0 mixed_state =
      walk_tuples s3_env 0 (fun e s => s.post e) (pos_corr_bond s3_env ⟨false, 0, 0⟩)
        [(⟨3, 2, 0, 0, 0⟩, [7, 8]), (⟨7, 1, 1, 1 / 1000000, 1 / 1000000⟩, [1])] mixed_state ∧
    (check_tol_pos s3_env mixed_state).toOption.map Prod.snd = some true :=
  ⟨by decide!,
    (walks_safe_and_total s3_env).1 State 0 [1, 7, 8, 0, 1]
      [(⟨3, 2, 0, 0, 0⟩, [7, 8]), (⟨7, 1, 1, 1 / 1000000, 1 / 1000000⟩, [1])]
      (fun e s => s.post e) (pos_corr_bond s3_env ⟨false, 0, 0⟩) mixed_state (by decide!),
    by decide!⟩

/-- Counterexample to C19 as stated: the list `[0, 5, 0, 1]` is the two rigid
bonds `(0; 5)` and `(0; 1)`; the id 5 is not resolved, the loop returns at the
first tuple, and the second is never taken: a body that records its calls is
not called, and `compute_pos_corr_vec` leaves every `f` zero although the bond
to particle 1 is stretched. -/
theorem broken_bond_ends_walk :
    tuples_of s3_env 4 [0, 5, 0, 1] =
      some [(⟨7, 1, 1, 1 / 1000000, 1 / 1000000⟩, [5]),
        (⟨7, 1, 1, 1 / 1000000, 1 / 1000000⟩, [1])] ∧
    s3_env.local_particles 5 = none ∧
    (bond_walk s3_env 0 [0, 5, 0, 1] (fun _ l => l)
        (fun ia p2 (l : List (Bonded_ia_parameters × Ref)) => .ok (l ++ [(ia, p2)]))
        4 0 []).toOption.map Flow.val = some [] ∧
    compute_pos_corr_vec s3_env skipped_state =
      .ok (skipped_state.post (.rigid_bond_broken 0 5)) :=
  ⟨by decide!, rfl, by decide!, by decide!⟩

/-! ## The scans as iterations over the rigid bonds -/

theorem run_items_append {σ : Type} (env : Env) (broken : RuntimeError → σ → σ)
    (rigid : Ref → Bonded_ia_parameters → Ref → σ → Except Fault σ) :
    ∀ (l1 l2 : List Item) (s : σ),
      run_items env broken rigid (l1 ++ l2) s =
        (match run_items env broken rigid l1 s with
          | .error e => .error e
          | .ok (.ret x) => .ok (.ret x)
          | .ok (.next s') => run_items env broken rigid l2 s') := by
  intro l1
  induction l1 with
  | nil =>
    intro l2 s
    simp [run_items]
  | cons it l1 ih =>
    intro l2 s
    obtain ⟨p1, idn, ia, j⟩ := it
    simp only [List.cons_append, run_items]
    cases env.local_particles j with
    | none => rfl
    | some p2 =>
      simp only []
      cases rigid p1 ia p2 s with
      | error e => rfl
      | ok s' => exact ih l2 s'

theorem run_items_inv {σ : Type} (I : σ → Prop) (env : Env) (broken : RuntimeError → σ → σ)
    (rigid : Ref → Bonded_ia_parameters → Ref → σ → Except Fault σ)
    (hbr : ∀ e s, I s → I (broken e s))
    (hr : ∀ p1 ia p2 s s', I s → rigid p1 ia p2 s = .ok s' → I s') :
    ∀ (l : List Item) (s : σ) (fl : Flow σ), I s → run_items env broken rigid l s = .ok fl →
      I fl.val := by
  intro l
  induction l with
  | nil =>
    intro s fl hs h
    simp only [run_items, Except.ok.injEq] at h
    subst h
    exact hs
  | cons it l ih =>
    intro s fl hs h
    obtain ⟨p1, idn, ia, j⟩ := it
    simp only [run_items] at h
    cases hres : env.local_particles j with
    | none =>
      simp only [hres, Except.ok.injEq] at h
      subst h
      exact hbr _ s hs
    | some p2 =>
      simp only [hres] at h
      cases hrg : rigid p1 ia p2 s with
      | error e => simp [hrg] at h
      | ok s' =>
        simp only [hrg] at h
        exact ih s' fl (hr p1 ia p2 s s' hs hrg) h

/-- The iteration over the tuples of one bond list is the iteration over its
rigid bonds. -/
theorem walk_tuples_items {σ : Type} (env : Env) (idn : Int) (broken : RuntimeError → σ → σ)
    (rigid : Ref → Bonded_ia_parameters → Ref → σ → Except Fault σ) (p1 : Ref) :
    ∀ (ts : List Tuple) (s : σ),
      (∀ t ∈ ts, t.1.type = env.BONDED_IA_RIGID_BOND → ∃ j, t.2 = [j]) →
      walk_tuples env idn broken (rigid p1) ts s =
        run_items env broken rigid
          ((rigid_bonds_of env ts).map (fun b => (p1, idn, b.1, b.2))) s := by
  intro ts
  induction ts with
  | nil =>
    intro s _
    simp [walk_tuples, rigid_bonds_of, run_items]
  | cons t ts ih =>
    intro s hsh
    obtain ⟨ia, partners⟩ := t
    have hsh' : ∀ t ∈ ts, t.1.type = env.BONDED_IA_RIGID_BOND → ∃ j, t.2 = [j] :=
      fun t ht => hsh t (List.mem_cons_of_mem _ ht)
    by_cases hty : ia.type = env.BONDED_IA_RIGID_BOND
    · obtain ⟨j, hj⟩ := hsh (ia, partners) (List.mem_cons_self _ _) hty
      simp only at hj
      subst hj
      simp only [walk_tuples, rigid_bonds_of, hty, if_true, List.map_cons, run_items]
      cases env.local_particles j with
      | none => rfl
      | some p2 =>
        simp only []
        cases rigid p1 ia p2 s with
        | error e => rfl
        | ok s' => exact ih s' hsh'
    · simp only [walk_tuples, rigid_bonds_of, hty, if_false]
      exact ih s hsh'

theorem for_loop_items {σ : Type} (I : σ → Prop) (env : Env) (broken : RuntimeError → σ → σ)
    (rigid : Ref → Bonded_ia_parameters → Ref → σ → Except Fault σ)
    (body : Nat → σ → Except Fault (Flow σ)) (items : Nat → List Item)
    (hbr : ∀ e s, I s → I (broken e s))
    (hr : ∀ p1 ia p2 s s', I s → rigid p1 ia p2 s = .ok s' → I s') :
    ∀ (n i0 : Nat) (t : σ),
      (∀ i t, i0 ≤ i → i < i0 + n → I t → body i t = run_items env broken rigid (items i) t) →
      I t →
      for_loop body n i0 t = run_items env broken rigid ((List.range' i0 n).flatMap items) t := by
  intro n
  induction n with
  | zero =>
    intro i0 t _ _
    simp [for_loop, run_items]
  | succ n ih =>
    intro i0 t hbody ht
    rw [List.range'_succ, List.flatMap_cons, run_items_append]
    simp only [for_loop]
    rw [hbody i0 t (le_refl _) (by omega) ht]
    cases hrun : run_items env broken rigid (items i0) t with
    | error e => rfl
    | ok fl =>
      cases fl with
      | ret x => rfl
      | next t' =>
        simp only []
        exact ih (i0 + 1) t' (fun i u h1 h2 hu => hbody i u (by omega) (by omega) hu)
          (run_items_inv I env broken rigid hbr hr _ t _ ht hrun)

theorem particle_walk_items {σ : Type} (env : Env) (st : σ → State)
    (B : List (List (Int × List Int))) (broken : RuntimeError → σ → σ)
    (rigid : Ref → Bonded_ia_parameters → Ref → σ → Except Fault σ) (c i : Nat)
    (x : Int × List Int) (t : σ) (hB : bonds_of (st t) = B) (hx : at_index B c i = some x)
    (hwf : ∃ ts, tuples_of env x.2.length x.2 = some ts) :
    particle_walk env st broken rigid c i t = run_items env broken rigid (items_at env c i x) t := by
  obtain ⟨ts, hts⟩ := hwf
  rw [← hB] at hx
  obtain ⟨P, hP, hid, hbl⟩ := at_index_bonds_of_inv (st t) c i x.1 x.2 hx
  unfold particle_walk items_at
  rw [hP]
  simp only [hts]
  rw [hbl, hid,
    bond_walk_tuples env _ _ broken _ x.2.length 0 ts t x.2.length
      (by rw [List.drop_zero]; exact hts) (by omega)]
  exact walk_tuples_items env x.1 broken rigid ⟨false, c, i⟩ ts t
    (fun u hu => (tuples_of_shape env _ _ ts hts u hu).2)

theorem cell_walk_items {σ : Type} (I : σ → Prop) (env : Env) (st : σ → State)
    (B : List (List (Int × List Int))) (broken : RuntimeError → σ → σ)
    (rigid : Ref → Bonded_ia_parameters → Ref → σ → Except Fault σ)
    (hIB : ∀ t, I t → bonds_of (st t) = B)
    (hwf : ∀ c i x, at_index B c i = some x → ∃ ts, tuples_of env x.2.length x.2 = some ts)
    (hbr : ∀ e s, I s → I (broken e s))
    (hr : ∀ p1 ia p2 s s', I s → rigid p1 ia p2 s = .ok s' → I s')
    (c : Nat) (row : List (Int × List Int)) (hrow : B[c]? = some row) (t : σ) (ht : I t) :
    cell_walk env st broken rigid c t = run_items env broken rigid (items_in env c row) t := by
  have hBt := hIB t ht
  have hcell : ∃ cell, (st t).local_cells[c]? = some cell ∧
      cell.map (fun pt => (pt.identity, pt.bl)) = row := by
    rw [← hBt] at hrow
    simp only [bonds_of, field_of, List.getElem?_map] at hrow
    cases hc : (st t).local_cells[c]? with
    | none => simp [hc] at hrow
    | some cell =>
      simp only [hc, Option.map_some', Option.some.injEq] at hrow
      exact ⟨cell, rfl, hrow⟩
  obtain ⟨cell, hc, hmap⟩ := hcell
  have hlen : cell.length = row.length := by
    rw [← hmap, List.length_map]
  unfold cell_walk items_in
  rw [hc]
  simp only [hlen]
  refine for_loop_items I env broken rigid _ _ hbr hr row.length 0 t ?_ ht
  intro i u _ hi hu
  have hi' : i < row.length := by omega
  have hxi : row[i]? = some (row[i]) := List.getElem?_eq_getElem hi'
  simp only [hxi]
  refine particle_walk_items env st B broken rigid c i _ u (hIB u hu) ?_ ?_
  · simp only [at_index, hrow, hxi]
  · exact hwf c i _ (by simp only [at_index, hrow, hxi])

/-- The scan over `local_cells` of a state whose bond lists are concatenations
of tuples is the iteration over its rigid bonds. -/
theorem local_bond_loop_items {σ : Type} (I : σ → Prop) (env : Env) (st : σ → State)
    (B : List (List (Int × List Int))) (broken : RuntimeError → σ → σ)
    (rigid : Ref → Bonded_ia_parameters → Ref → σ → Except Fault σ)
    (hIB : ∀ t, I t → bonds_of (st t) = B)
    (hwf : ∀ c i x, at_index B c i = some x → ∃ ts, tuples_of env x.2.length x.2 = some ts)
    (hbr : ∀ e s, I s → I (broken e s))
    (hr : ∀ p1 ia p2 s s', I s → rigid p1 ia p2 s = .ok s' → I s')
    (s : σ) (hs : I s) :
    local_bond_loop env st broken rigid s = run_items env broken rigid (items_of env B) s := by
  have hlen : (st s).local_cells.length = B.length := by
    rw [← hIB s hs]
    simp [bonds_of, field_of]
  unfold local_bond_loop items_of
  rw [hlen]
  refine for_loop_items I env broken rigid _ _ hbr hr B.length 0 s ?_ hs
  intro c u _ hc hu
  have hc' : c < B.length := by omega
  have hrow : B[c]? = some (B[c]) := List.getElem?_eq_getElem hc'
  simp only [hrow]
  exact cell_walk_items I env st B broken rigid hIB hwf hbr hr c _ hrow u hu

/-! ## The position correction vector -/

theorem vec_add_terms (F r : Vec3) (G m1 m2 : ℚ) :
    Vec3.sub (Vec3.add F (Vec3.mulr (Vec3.smul G r) m2)) (Vec3.mulr (Vec3.smul G r) m1) =
      Vec3.add F (Vec3.add (Vec3.smul (G * m2) r) (Vec3.smul (-(G * m1)) r)) ∧
    Vec3.add F (Vec3.mulr (Vec3.smul G r) m2) =
      Vec3.add F (Vec3.add (Vec3.smul (G * m2) r) Vec3.zero) ∧
    Vec3.sub F (Vec3.mulr (Vec3.smul G r) m1) =
      Vec3.add F (Vec3.add Vec3.zero (Vec3.smul (-(G * m1)) r)) ∧
    F = Vec3.add F (Vec3.add Vec3.zero Vec3.zero) := by
  obtain ⟨x, y, z⟩ := F
  refine ⟨?_, ?_, ?_, ?_⟩ <;>
    simp only [Vec3.add, Vec3.sub, Vec3.smul, Vec3.mulr, Vec3.zero, Vec3.mk.injEq] <;>
    refine ⟨?_, ?_, ?_⟩ <;> ring

/-- The body of `compute_pos_corr_vec` for one rigid bond, run in a state that
differs from `s` in `f` only: it adds the contribution of the bond, and it
returns when the bond can be corrected. -/
theorem pos_corr_bond_differs (env : Env) (s t : State) (F : Ref → Vec3) (p1 : Ref) (idn : Int)
    (ia : Bonded_ia_parameters) (j : Int) (p2 : Ref)
    (hres : env.local_particles j = some p2) (hd : Differs_in_f s t F) :
    (∀ t', pos_corr_bond env p1 ia p2 t = .ok t' →
      Differs_in_f s t' (fun q => Vec3.add (F q) (pos_corr_term env s q (p1, idn, ia, j)))) ∧
    (Solvable env s (p1, idn, ia, j) → ∃ t', pos_corr_bond env p1 ia p2 t = .ok t') := by
  have h1 := hd p1
  have h2 := hd p2
  cases hs1 : s.deref p1 with
  | error e =>
    rw [hs1] at h1
    constructor
    · intro t' ht'
      simp [pos_corr_bond, bind, Except.bind, h1] at ht'
    · intro hsol
      obtain ⟨p2', P1, P2, _, hP1, _⟩ := hsol
      rw [hs1] at hP1
      exact absurd hP1 (by simp)
  | ok P1 =>
    rw [hs1] at h1
    cases hs2 : s.deref p2 with
    | error e =>
      rw [hs2] at h2
      constructor
      · intro t' ht'
        simp [pos_corr_bond, bind, Except.bind, h1, h2] at ht'
      · intro hsol
        obtain ⟨p2', P1', P2, hr', _, hP2, _⟩ := hsol
        rw [hres] at hr'
        simp only [Option.some.injEq] at hr'
        subst hr'
        rw [hs2] at hP2
        exact absurd hP2 (by simp)
    | ok P2 =>
      rw [hs2] at h2
      by_cases hD : scalar (env.get_mi_vector P1.p_old P2.p_old)
          (env.get_mi_vector P1.p P2.p) = 0
      · constructor
        · intro t' ht'
          simp [pos_corr_bond, bind, Except.bind, h1, h2, fdiv, hD] at ht'
        · intro hsol
          obtain ⟨p2', P1', P2', hr', hP1, hP2, hD', _⟩ := hsol
          rw [hres] at hr'
          simp only [Option.some.injEq] at hr'
          subst hr'
          rw [hs1] at hP1
          rw [hs2] at hP2
          simp only [Except.ok.injEq] at hP1 hP2
          subst hP1 hP2
          exact absurd hD hD'
      by_cases hM : (if env.MASS then PMASS env P1 + PMASS env P2 else 2) = 0
      · constructor
        · intro t' ht'
          have hM' : (if env.MASS = true then
              PMASS env { P1 with f := F p1 } + PMASS env { P2 with f := F p2 } else 2) = 0 := hM
          simp [pos_corr_bond, bind, Except.bind, h1, h2, fdiv, hD, hM'] at ht'
        · intro hsol
          obtain ⟨p2', P1', P2', hr', hP1, hP2, _, hM'⟩ := hsol
          rw [hres] at hr'
          simp only [Option.some.injEq] at hr'
          subst hr'
          rw [hs1] at hP1
          rw [hs2] at hP2
          simp only [Except.ok.injEq] at hP1 hP2
          subst hP1 hP2
          exact absurd hM hM'
      have hM' : (if env.MASS = true then
          PMASS env { P1 with f := F p1 } + PMASS env { P2 with f := F p2 } else 2) ≠ 0 := hM
      have hrun : pos_corr_bond env p1 ia p2 t = .ok
          ((t.update p1 (fun q => { q with f := Vec3.add q.f (Vec3.mulr
              (Vec3.smul (multiplier_G env ia P1 P2) (env.get_mi_vector P1.p_old P2.p_old))
              (PMASS env P2)) })).update p2
            (fun q => { q with f := Vec3.sub q.f (Vec3.mulr
              (Vec3.smul (multiplier_G env ia P1 P2) (env.get_mi_vector P1.p_old P2.p_old))
              (PMASS env P1)) })) := by
        simp only [pos_corr_bond, bind, Except.bind, pure, Except.pure, h1, h2, fdiv, hD, hM',
          if_false]
        rfl
      refine ⟨fun t' ht' => ?_, fun _ => ⟨_, hrun⟩⟩
      rw [hrun] at ht'
      simp only [Except.ok.injEq] at ht'
      subst ht'
      intro q
      have hterm : pos_corr_term env s q (p1, idn, ia, j) =
          Vec3.add
            (if q = p1 then Vec3.smul (multiplier_G env ia P1 P2 * PMASS env P2)
                (env.get_mi_vector P1.p_old P2.p_old) else Vec3.zero)
            (if q = p2 then Vec3.smul (-(multiplier_G env ia P1 P2 * PMASS env P1))
                (env.get_mi_vector P1.p_old P2.p_old) else Vec3.zero) := by
        simp only [pos_corr_term, hres, hs1, hs2]
      show _ = (match s.deref q with
        | .error e => .error e
        | .ok Q => .ok { Q with f := Vec3.add (F q) (pos_corr_term env s q (p1, idn, ia, j)) })
      rw [deref_update, deref_update, hd q, hterm]
      obtain ⟨e1, e2, e3, e4⟩ := vec_add_terms (F q) (env.get_mi_vector P1.p_old P2.p_old)
        (multiplier_G env ia P1 P2) (PMASS env P1) (PMASS env P2)
      cases hq : s.deref q with
      | error e => by_cases hq1 : q = p1 <;> by_cases hq2 : q = p2 <;> simp [hq1, hq2]
      | ok Q =>
        by_cases hq1 : q = p1
        · by_cases hq2 : q = p2
          · simp only [if_pos hq1, if_pos hq2]
            rw [e1]
          · simp only [if_pos hq1, if_neg hq2]
            rw [e2]
        · by_cases hq2 : q = p2
          · simp only [if_neg hq1, if_pos hq2]
            rw [e3]
          · simp only [if_neg hq1, if_neg hq2]
            rw [← e4]

/-- The iteration over rigid bonds with the body of `compute_pos_corr_vec`, run
in a state that differs from `s` in `f` only and with every partner resolved:
it falls through with the contributions of all bonds added, and it does
return when every bond can be corrected. -/
theorem run_items_pos (env : Env) (s : State) :
    ∀ (items : List Item) (t : State) (F : Ref → Vec3), Differs_in_f s t F →
      (∀ it ∈ items, env.local_particles it.2.2.2 ≠ none) →
      (∀ fl, run_items env (fun e u => u.post e) (pos_corr_bond env) items t = .ok fl →
        ∃ t', fl = .next t' ∧ t'.errors = t.errors ∧
          Differs_in_f s t' (fun q =>
            items.foldl (fun acc it => Vec3.add acc (pos_corr_term env s q it)) (F q))) ∧
      ((∀ it ∈ items, Solvable env s it) →
        ∃ fl, run_items env (fun e u => u.post e) (pos_corr_bond env) items t = .ok fl) := by
  intro items
  induction items with
  | nil =>
    intro t F hd _
    refine ⟨fun fl h => ?_, fun _ => ⟨_, rfl⟩⟩
    simp only [run_items, Except.ok.injEq] at h
    exact ⟨t, h.symm, rfl, hd⟩
  | cons it rest ih =>
    intro t F hd hres
    obtain ⟨p1, idn, ia, j⟩ := it
    have hrest : ∀ it ∈ rest, env.local_particles it.2.2.2 ≠ none :=
      fun it hit => hres it (List.mem_cons_of_mem _ hit)
    cases hj : env.local_particles j with
    | none => exact absurd hj (hres (p1, idn, ia, j) (List.mem_cons_self _ _))
    | some p2 =>
      obtain ⟨hstep, hsolv⟩ := pos_corr_bond_differs env s t F p1 idn ia j p2 hj hd
      constructor
      · intro fl h
        simp only [run_items, hj] at h
        cases hb : pos_corr_bond env p1 ia p2 t with
        | error e => simp [hb] at h
        | ok t1 =>
          simp only [hb] at h
          obtain ⟨t', h1, h2, h3⟩ := (ih t1 _ (hstep t1 hb) hrest).1 fl h
          exact ⟨t', h1, h2.trans (errors_pos_corr_bond env p1 ia p2 t t1 hb), h3⟩
      · intro hall
        obtain ⟨t1, hb⟩ := hsolv (hall (p1, idn, ia, j) (List.mem_cons_self _ _))
        obtain ⟨fl, hfl⟩ := (ih t1 _ (hstep t1 hb) hrest).2
          (fun it hit => hall it (List.mem_cons_of_mem _ hit))
        refine ⟨fl, ?_⟩
        simp only [run_items, hj, hb]
        exact hfl

theorem differs_in_f_refl (s : State) :
    Differs_in_f s s (fun q =>
      match s.deref q with
      | .error _ => Vec3.zero
      | .ok Q => Q.f) := by
  intro q
  show s.deref q = (match s.deref q with
    | .error e => .error e
    | .ok Q => .ok { Q with f := (match s.deref q with
      | .error _ => Vec3.zero
      | .ok Q' => Q'.f) })
  cases s.deref q with
  | error e => rfl
  | ok Q => rfl

/-- C13: with well-formed bond lists, which may mix rigid and non-rigid
tuples, and every partner of a rigid bond resolved, `compute_pos_corr_vec`
posts nothing and leaves in the slot `f` of every particle that had `f = 0` the
sum, over the rigid bonds of all local particles, of `+G · m_2 · r_t` where the
particle lists the bond and of `−G · m_1 · r_t` where it is the partner; it
returns when no division is by zero. -/
theorem compute_pos_corr_vec_reference (env : Env) (s : State)
    (hwf : Lists_well_formed env s)
    (hres : ∀ it ∈ items_of env (bonds_of s), env.local_particles it.2.2.2 ≠ none) :
    (∀ s', compute_pos_corr_vec env s = .ok s' →
      s'.errors = s.errors ∧
      ∀ q Q, s.deref q = .ok Q → Q.f = Vec3.zero →
        s'.deref q = .ok { Q with f := pos_corr_reference env s q }) ∧
    ((∀ it ∈ items_of env (bonds_of s), Solvable env s it) →
      ∃ s', compute_pos_corr_vec env s = .ok s') := by
  have hloop : local_bond_loop env id (fun e u => u.post e) (pos_corr_bond env) s =
      run_items env (fun e u => u.post e) (pos_corr_bond env) (items_of env (bonds_of s)) s :=
    local_bond_loop_items (fun t : State => bonds_of t = bonds_of s) env id (bonds_of s)
      (fun e u => u.post e) (pos_corr_bond env) (fun t ht => ht)
      (fun c i x hx => lists_well_formed_bonds env s hwf c i x.1 x.2 hx)
      (fun e t ht => ht)
      (fun p1 ia p2 t t' ht htt => (bonds_of_fields _ _
        (fields_pos_corr_bond (fun pt => (pt.identity, pt.bl)) (fun _ _ => rfl)
          env p1 ia p2 t t' htt)).trans ht)
      s rfl
  obtain ⟨hrun, htot⟩ := run_items_pos env s (items_of env (bonds_of s)) s _
    (differs_in_f_refl s) hres
  constructor
  · intro s' h
    unfold compute_pos_corr_vec at h
    rw [hloop] at h
    split at h
    · exact absurd h (by simp)
    rename_i fl hfl
    simp only [Except.ok.injEq] at h
    obtain ⟨t', h1, h2, h3⟩ := hrun fl hfl
    subst h1
    simp only [Flow.val] at h
    subst h
    refine ⟨h2, fun q Q hq hf => ?_⟩
    rw [h3 q, hq]
    simp only [hq, hf, pos_corr_reference, vec_sum, List.foldl_map]
  · intro hall
    obtain ⟨fl, hfl⟩ := htot hall
    unfold compute_pos_corr_vec
    rw [hloop, hfl]
    exact ⟨_, rfl⟩

theorem mixed_well_formed : Lists_well_formed s3_env mixed_state := by
  intro c i P hP
  rcases dumbbell_deref _ _ c i P hP with ⟨_, _, rfl⟩ | ⟨_, _, rfl⟩
  · exact ⟨[(⟨3, 2, 0, 0, 0⟩, [7, 8]), (⟨7, 1, 1, 1 / 1000000, 1 / 1000000⟩, [1])], by decide!⟩
  · exact ⟨[], rfl⟩

theorem mixed_items :
    items_of s3_env (bonds_of mixed_state) =
      [(⟨false, 0, 0⟩, 0, ⟨7, 1, 1, 1 / 1000000, 1 / 1000000⟩, 1)] := by
  decide!

theorem mixed_solvable : ∀ it ∈ items_of s3_env (bonds_of mixed_state),
    Solvable s3_env mixed_state it := by
  intro it hit
  rw [mixed_items, List.mem_singleton] at hit
  subst hit
  exact ⟨⟨false, 0, 1⟩, particle 0 ⟨-1 / 10, 0, 0⟩ ⟨0, 0, 0⟩ ⟨0, 0, 0⟩ ⟨0, 0, 0⟩ [1, 7, 8, 0, 1],
    particle 1 ⟨11 / 10, 0, 0⟩ ⟨1, 0, 0⟩ ⟨0, 0, 0⟩ ⟨0, 0, 0⟩ [], rfl, rfl, rfl, by decide!,
    by decide!⟩

/-- Witness for C13: scenario S1 with the non-rigid tuple `(1; 7, 8)` in front of
the rigid bond.  The reference corrections are `(11/120, 0, 0)` and
`(−11/120, 0, 0)`, and `compute_pos_corr_vec` leaves the first in the slot `f`
of the first particle. -/
theorem compute_pos_corr_vec_reference_witness :
    pos_corr_reference s3_env mixed_state ⟨false, 0, 0⟩ = ⟨11 / 120, 0, 0⟩ ∧
    pos_corr_reference s3_env mixed_state ⟨false, 0, 1⟩ = ⟨-11 / 120, 0, 0⟩ ∧
    ∃ s', compute_pos_corr_vec s3_env mixed_state = .ok s' ∧
      s'.deref ⟨false, 0, 0⟩ =
        .ok { particle 0 ⟨-1 / 10, 0, 0⟩ ⟨0, 0, 0⟩ ⟨0, 0, 0⟩ ⟨0, 0, 0⟩ [1, 7, 8, 0, 1] with
          f := pos_corr_reference s3_env mixed_state ⟨false, 0, 0⟩ } :=
  ⟨by decide!, by decide!,
    match (compute_pos_corr_vec_reference s3_env mixed_state mixed_well_formed
        (by decide!)).2 mixed_solvable with
    | ⟨s', hs'⟩ =>
      ⟨s', hs',
        ((compute_pos_corr_vec_reference s3_env mixed_state mixed_well_formed
          (by decide!)).1 s' hs').2 ⟨false, 0, 0⟩ _ rfl rfl⟩⟩

/-! ## The diagnostic dump against the convergence test -/

theorem print_walk_stuck (P1 : Particle) (h0 : P1.bl = [1]) :
    ∀ (fuel : Nat) (so : State × List Bond_len),
      print_walk arity0_env P1 fuel 0 so = .error .out_of_fuel := by
  intro fuel
  induction fuel with
  | zero =>
    intro so
    simp [print_walk, h0]
  | succ n ih =>
    intro so
    have hia : read_ia arity0_env 1 = .ok ⟨3, 0, 0, 0, 0⟩ := by decide!
    have hty : ¬ ((⟨3, 0, 0, 0, 0⟩ : Bonded_ia_parameters).type =
        arity0_env.BONDED_IA_RIGID_BOND) := by decide
    simp only [print_walk, h0, List.length_singleton, Nat.lt_one_iff, if_true, read_bl,
      List.getElem?_cons_zero, hia, hty, if_false, Nat.add_zero]
    exact ih so

/-- C20: the dump of scenario S2, whose one rigid bond `(0; 1)` joins the
particles 0 and 1 at squared distance 1, is the record `(0, 0, 0)`: the
interaction id 0 is used as the partner id.  On `mixed_state` the partner id 8
of a non-rigid tuple is read as an interaction id, outside the table.  On a
non-rigid tuple without partners the loop never ends, while `check_tol_pos`
returns. -/
theorem print_bond_len_diverges :
    expected_report s3_env s2_state = [⟨0, 1, 1⟩] ∧
    print_bond_len s3_env 2 s2_state = .ok (s2_state, [⟨0, 0, 0⟩]) ∧
    print_bond_len s3_env 100 s2_state = .ok (s2_state, [⟨0, 0, 0⟩]) ∧
    expected_report s3_env mixed_state = [⟨0, 1, 36 / 25⟩] ∧
    print_bond_len s3_env 5 mixed_state = .error .ia_out_of_bounds ∧
    tuples_of arity0_env 1 [1] = some [(⟨3, 0, 0, 0, 0⟩, [])] ∧
    check_tol_pos arity0_env idle_state = .ok (idle_state, false) ∧
    ∀ fuel, print_bond_len arity0_env fuel idle_state = .error .out_of_fuel := by
  refine ⟨by decide!, by decide!, by decide!, by decide!, by decide!, by decide!, by decide!, ?_⟩
  intro fuel
  have hw := print_walk_stuck (particle 0 ⟨0, 0, 0⟩ ⟨0, 0, 0⟩ ⟨0, 0, 0⟩ ⟨0, 0, 0⟩ [1]) rfl fuel
  simp only [print_bond_len, idle_state, dumbbell, List.length_cons, List.length_nil, for_loop,
    List.getElem?_cons_zero, State.deref, State.cells, Bool.false_eq_true, if_false, hw]

end Rattle
